import Mathlib

/-!
# SIQRD: a shallow embedding of the ODE engine

The C++ sources under `cpp/src` are embedded over an arbitrary linearly ordered field `K`
(exact arithmetic; `ℚ` for evaluation, `ℝ` for calculus).  A state or parameter vector of
static dimension `n` is a function `Fin n → K`; a `ublas::matrix` with run-time sizes is a
`Buffer`.

Conventions of the embedding:

* `double`/`float` arithmetic is replaced by exact field arithmetic.  Division is the total
  division of the field (`x / 0 = 0`), so a state with `S + I + R = 0`, where the C++ code
  produces `inf`/`NaN`, is outside what the embedding describes.
* `assert` is active (the build without `NDEBUG`); a failed assertion and `std::exit(1)` are the
  two values of `Failure`.
* The preprocessor flag `DMETHODS` is a Boolean parameter of `EulerBackward.time_step`, the only
  place where it changes more than the text printed.  (`debug_levels.hpp` undefines it whenever
  `NDEBUG` is defined.)
* `ublas::lu_factorize` followed by `ublas::lu_substitute` is library code and enters as a
  parameter `lu_solve`; so does `ublas::norm_2`, whose square root no ordered field computes, as a
  parameter `norm_2`.  A theorem that depends on what they compute says so in a hypothesis.
* The `target_functor` of the optimizers is a pair of functions; an objective that ends the
  process has no value to optimize.  `LSE_siqrd`, whose `solve` can fail, returns an `Except`
  together with the object as the call leaves it.
* The template parameter `formula` of `CGM` is a function parameter `formula_nu_k`, to be
  instantiated with `FR_formula.nu_k` or `PR_formula.nu_k`; `std::sqrt` in
  `OdeSys_test.analytic_solution` is a parameter `sqrt`, instantiated with `Real.sqrt` over `ℝ`.
-/

namespace siqrd

/-! ## `siqrd/odeSys_siqrd.hpp` -/

/-- The private members of `OdeSys_SIQRD`: five rate constants and the initial condition. -/
structure OdeSys_SIQRD (K : Type) where
  alpha_ : K
  beta_ : K
  gamma_ : K
  delta_ : K
  mu_ : K
  S0_ : K
  I0_ : K
  Q0_ : K
  R0_ : K
  D0_ : K

namespace OdeSys_SIQRD

variable {K : Type} [LinearOrderedField K]

/-- Static member `dim`. -/
def dim : Nat := 5

/-- Member `fS`. -/
def fS (m : OdeSys_SIQRD K) (S I R : K) : K :=
  -m.beta_ * S * (I / (S + I + R)) + m.mu_ * R

/-- Member `fI`. -/
def fI (m : OdeSys_SIQRD K) (S I R : K) : K :=
  I * (m.beta_ * (S / (S + I + R)) - m.gamma_ - m.delta_ - m.alpha_)

/-- Member `fQ`. -/
def fQ (m : OdeSys_SIQRD K) (I Q : K) : K :=
  m.delta_ * I - (m.gamma_ + m.alpha_) * Q

/-- Member `fR`. -/
def fR (m : OdeSys_SIQRD K) (I Q R : K) : K :=
  m.gamma_ * (I + Q) - m.mu_ * R

/-- Member `fD`. -/
def fD (m : OdeSys_SIQRD K) (I Q : K) : K :=
  m.alpha_ * (I + Q)

/-- Member `dSdS`. -/
def dSdS (m : OdeSys_SIQRD K) (S I R : K) : K :=
  -m.beta_ * (I / (S + I + R)) + m.beta_ * S * I * (1 / (S + I + R) ^ 2)

/-- Member `dSdI`. -/
def dSdI (m : OdeSys_SIQRD K) (S I R : K) : K :=
  -m.beta_ * (S / (S + I + R)) + m.beta_ * S * I * (1 / (S + I + R) ^ 2)

/-- Member `dSdR`. -/
def dSdR (m : OdeSys_SIQRD K) (S I R : K) : K :=
  m.mu_ + m.beta_ * S * I * (1 / (S + I + R) ^ 2)

/-- Member `dIdS`. -/
def dIdS (m : OdeSys_SIQRD K) (S I R : K) : K :=
  I * (m.beta_ * (1 / (S + I + R)) + m.beta_ * S * (-1 / (S + I + R) ^ 2))

/-- Member `dIdI`. -/
def dIdI (m : OdeSys_SIQRD K) (S I R : K) : K :=
  I * (m.beta_ * S * (-1 / (S + I + R) ^ 2))
    + (m.beta_ * (S / (S + I + R)) - m.gamma_ - m.delta_ - m.alpha_)

/-- Member `dIdR`. -/
def dIdR (m : OdeSys_SIQRD K) (S I R : K) : K :=
  I * m.beta_ * S * (-1 / (S + I + R) ^ 2)

/-- Member `set_initial_condition`. -/
def set_initial_condition (m : OdeSys_SIQRD K) (v : Fin 5 → K) : OdeSys_SIQRD K :=
  { m with S0_ := v 0, I0_ := v 1, Q0_ := v 2, R0_ := v 3, D0_ := v 4 }

/-- Member `set_parameters`. -/
def set_parameters (m : OdeSys_SIQRD K) (v : Fin 5 → K) : OdeSys_SIQRD K :=
  { m with alpha_ := v 0, beta_ := v 1, gamma_ := v 2, delta_ := v 3, mu_ := v 4 }

/-- Member `parameters`. -/
def parameters (m : OdeSys_SIQRD K) : Fin 5 → K :=
  ![m.alpha_, m.beta_, m.gamma_, m.delta_, m.mu_]

/-- Member `initial_condition`. -/
def initial_condition (m : OdeSys_SIQRD K) : Fin 5 → K :=
  ![m.S0_, m.I0_, m.Q0_, m.R0_, m.D0_]

/-- The two `operator()` overloads (value-returning and in-place) compute the same vector. -/
def call (m : OdeSys_SIQRD K) (variables_vector : Fin 5 → K) : Fin 5 → K :=
  let S := variables_vector 0
  let I := variables_vector 1
  let Q := variables_vector 2
  let R := variables_vector 3
  ![m.fS S I R, m.fI S I R, m.fQ I Q, m.fR I Q R, m.fD I Q]

/-- One write `jac_matrix(i, j) = a` into a square matrix. -/
def put {n : Nat} (M : Matrix (Fin n) (Fin n) K) (i j : Fin n) (a : K) :
    Matrix (Fin n) (Fin n) K :=
  fun r c => if r = i ∧ c = j then a else M r c

/-- Member `jacobian`: `jac_matrix.clear()` followed by the thirteen writes, in source order. -/
def jacobian (m : OdeSys_SIQRD K) (variables_vector : Fin 5 → K) : Matrix (Fin 5) (Fin 5) K :=
  let S := variables_vector 0
  let I := variables_vector 1
  let R := variables_vector 3
  let j0 : Matrix (Fin 5) (Fin 5) K := fun _ _ => 0
  let j1 := put j0 0 0 (m.dSdS S I R)
  let j2 := put j1 1 0 (m.dIdS S I R)
  let j3 := put j2 0 1 (m.dSdI S I R)
  let j4 := put j3 1 1 (m.dIdI S I R)
  let j5 := put j4 2 1 m.delta_
  let j6 := put j5 3 1 m.gamma_
  let j7 := put j6 4 1 m.alpha_
  let j8 := put j7 2 2 ((-1) * (m.gamma_ + m.alpha_))
  let j9 := put j8 3 2 m.gamma_
  let j10 := put j9 4 2 m.alpha_
  let j11 := put j10 0 3 (m.dSdR S I R)
  let j12 := put j11 1 3 (m.dIdR S I R)
  put j12 3 3 ((-1) * m.mu_)

end OdeSys_SIQRD

end siqrd

/-! ## The concepts shared by the files under `ode/` -/

namespace ode

/-- The two ways in which the process can end instead of returning: a failed `assert`, and
`std::exit(1)`. -/
inductive Failure where
  | assertion
  | exit1
deriving DecidableEq

/-- The `OdeSystem` concept of the header comments: `initial_condition()`, `operator()` (both
overloads) and `jacobian`, for a system of static dimension `dim`. -/
structure OdeSystem (K : Type) (dim : Nat) where
  initial_condition : Fin dim → K
  call : (Fin dim → K) → (Fin dim → K)
  jacobian : (Fin dim → K) → Matrix (Fin dim) (Fin dim) K

/-- The `SchemeType` concept: `time_step(system, old_time, new_time)`, returning what it leaves in
`new_time`, or the failure with which it ends the process. -/
structure SchemeType (K : Type) (dim : Nat) where
  time_step : OdeSystem K dim → (Fin dim → K) → Except Failure (Fin dim → K)

/-- A `ublas::matrix` with run-time sizes; only the cells `(i, j)` with `i < size1` and
`j < size2` exist in the C++ object. -/
structure Buffer (K : Type) where
  size1 : Nat
  size2 : Nat
  val : Nat → Nat → K

namespace Buffer

variable {K : Type}

/-- The proxy `ublas::column(results_matrix, j)`, read as a vector of `dim` entries. -/
def column (b : Buffer K) (dim : Nat) (j : Nat) : Fin dim → K :=
  fun i => b.val i j

/-- Assignment of a vector of `dim` entries through the proxy `ublas::column(results_matrix, j)`. -/
def assign_column {dim : Nat} (b : Buffer K) (j : Nat) (v : Fin dim → K) : Buffer K :=
  { b with val := fun r c => if h : c = j ∧ r < dim then v ⟨r, h.2⟩ else b.val r c }

/-- The double loop writing `a` into every cell of the matrix. -/
def fill (b : Buffer K) (a : K) : Buffer K :=
  { b with val := fun r c => if r < b.size1 ∧ c < b.size2 then a else b.val r c }

end Buffer

section Norms

variable {K : Type} [LinearOrderedField K] {n : Nat}

/-- The function `ublas::norm_1` on vectors: the sum of the absolute values. -/
def norm_1 (v : Fin n → K) : K :=
  ∑ i, |v i|

/-- The function `ublas::norm_inf` on vectors: a running maximum of the absolute values,
started at zero. -/
def norm_inf (v : Fin n → K) : K :=
  (List.ofFn v).foldl (fun t x => if |x| > t then |x| else t) 0

end Norms

/-! ## `ode/eulerForward.hpp` -/

/-- The private member of `EulerForward`. -/
structure EulerForward (K : Type) where
  dT_ : K

namespace EulerForward

variable {K : Type} [LinearOrderedField K] {dim : Nat}

/-- The constructor `EulerForward(steps, final_time)`. -/
def create (steps : Nat) (final_time : K) : EulerForward K :=
  ⟨final_time / (steps : K)⟩

/-- Member `time_step`: `new_time.assign(old_time + dT_ * system(old_time))`. -/
def time_step (s : EulerForward K) (system : OdeSystem K dim) (old_time : Fin dim → K) :
    Fin dim → K :=
  fun i => old_time i + s.dT_ * system.call old_time i

/-- The class as a `SchemeType`; `time_step` has no failure mode. -/
def scheme (s : EulerForward K) : SchemeType K dim :=
  ⟨fun system old_time => .ok (s.time_step system old_time)⟩

end EulerForward

/-! ## `ode/heun.hpp` -/

/-- The private member `dT_` of `Heun`; the scratch vector `temp_` is assigned before it is read
in every `time_step`, so it is a local value here. -/
structure Heun (K : Type) where
  dT_ : K

namespace Heun

variable {K : Type} [LinearOrderedField K] {dim : Nat}

/-- The constructor `Heun(steps, final_time)`. -/
def create (steps : Nat) (final_time : K) : Heun K :=
  ⟨final_time / (steps : K)⟩

/-- Member `time_step`: `system(old_time, temp_)` and then
`new_time.assign(old_time + dT_ * (0.5 * temp_ + 0.5 * system(old_time + dT_ * temp_)))`. -/
def time_step (s : Heun K) (system : OdeSystem K dim) (old_time : Fin dim → K) :
    Fin dim → K :=
  let temp_ := system.call old_time
  let inner := system.call (fun i => old_time i + s.dT_ * temp_ i)
  fun i => old_time i + s.dT_ * (0.5 * temp_ i + 0.5 * inner i)

/-- The class as a `SchemeType`; `time_step` has no failure mode. -/
def scheme (s : Heun K) : SchemeType K dim :=
  ⟨fun system old_time => .ok (s.time_step system old_time)⟩

end Heun

/-! ## `ode/eulerBackward.hpp` -/

/-- The private member `dT_` of `EulerBackward`; `temp_`, `jac_` and `pm_` are scratch that every
Newton iteration overwrites before reading. -/
structure EulerBackward (K : Type) where
  dT_ : K

namespace EulerBackward

variable {K : Type} [LinearOrderedField K] {dim : Nat}

/-- The constructor `EulerBackward(steps, final_time)`. -/
def create (steps : Nat) (final_time : K) : EulerBackward K :=
  ⟨final_time / (steps : K)⟩

/-- Static member `tolerance`, from `epsilon = std::numeric_limits<value_type>::epsilon()`. -/
def tolerance (epsilon : K) : K :=
  epsilon * 100

/-- Static member `max_iter`. -/
def max_iter : Nat := 1000

/-- The value assigned to `temp_` at the top of the loop body:
`(old_time - new_time) + dT_ * system(new_time)`. -/
def residual (s : EulerBackward K) (system : OdeSystem K dim) (old_time new_time : Fin dim → K) :
    Fin dim → K :=
  fun i => (old_time i - new_time i) + s.dT_ * system.call new_time i

/-- The test `res < tolerance` with `res = norm_inf(temp_) / norm` and `norm = norm_1(old_time)`.
When `norm` is zero the C++ quotient of the two non-negative norms is `inf` or `NaN` and the
comparison is false; the first conjunct says so. -/
def passes (s : EulerBackward K) (epsilon : K) (system : OdeSystem K dim)
    (old_time new_time : Fin dim → K) : Prop :=
  norm_1 old_time ≠ 0 ∧
    norm_inf (s.residual system old_time new_time) / norm_1 old_time < tolerance epsilon

instance (s : EulerBackward K) (epsilon : K) (system : OdeSystem K dim)
    (old_time new_time : Fin dim → K) : Decidable (s.passes epsilon system old_time new_time) := by
  unfold passes
  infer_instance

/-- Member `jacG`: the system's Jacobian, times `dT_`, with one subtracted on the diagonal. -/
def jacG (s : EulerBackward K) (vars : Fin dim → K) (system : OdeSystem K dim) :
    Matrix (Fin dim) (Fin dim) K :=
  fun i j => if i = j then system.jacobian vars i j * s.dT_ - 1 else system.jacobian vars i j * s.dT_

/-- The rest of the loop body after a failed test: `jacG`, the linear solve that overwrites
`temp_` with the solution, and `new_time.assign(new_time - temp_)`. -/
def update (s : EulerBackward K)
    (lu_solve : Matrix (Fin dim) (Fin dim) K → (Fin dim → K) → (Fin dim → K))
    (system : OdeSystem K dim) (old_time new_time : Fin dim → K) : Fin dim → K :=
  let temp_ := lu_solve (s.jacG new_time system) (s.residual system old_time new_time)
  fun i => new_time i - temp_ i

/-- The loop `for (i = 0; i < max_iter; i++)` with its `break`; the first argument counts the
iterations that remain, the result is `new_time` when the loop is left. -/
def loop (s : EulerBackward K) (epsilon : K)
    (lu_solve : Matrix (Fin dim) (Fin dim) K → (Fin dim → K) → (Fin dim → K))
    (system : OdeSystem K dim) (old_time : Fin dim → K) : Nat → (Fin dim → K) → (Fin dim → K)
  | 0, new_time => new_time
  | k + 1, new_time =>
    if s.passes epsilon system old_time new_time then new_time
    else loop s epsilon lu_solve system old_time k (s.update lu_solve system old_time new_time)

/-- Member `time_step`.  `new_time` starts as `old_time` and goes through the loop.  With
`DMETHODS` the function then tests the flag `converged` declared before the loop; the
`bool converged = true;` inside the `if (res < tolerance)` block declares a second variable local
to that block, so the flag tested after the loop still has its initial value `false`, and the
`else` branch with `std::exit(1)` is taken. -/
def time_step (DMETHODS : Bool) (s : EulerBackward K) (epsilon : K)
    (lu_solve : Matrix (Fin dim) (Fin dim) K → (Fin dim → K) → (Fin dim → K))
    (system : OdeSystem K dim) (old_time : Fin dim → K) : Except Failure (Fin dim → K) :=
  let converged := false
  let new_time := loop s epsilon lu_solve system old_time max_iter old_time
  if DMETHODS then
    if converged then .ok new_time else .error .exit1
  else .ok new_time

/-- The class as a `SchemeType`. -/
def scheme (DMETHODS : Bool) (s : EulerBackward K) (epsilon : K)
    (lu_solve : Matrix (Fin dim) (Fin dim) K → (Fin dim → K) → (Fin dim → K)) :
    SchemeType K dim :=
  ⟨fun system old_time => s.time_step DMETHODS epsilon lu_solve system old_time⟩

/-- The Newton iterates: `new_time` after `k` passes through the update, the test left aside. -/
def iterate (s : EulerBackward K)
    (lu_solve : Matrix (Fin dim) (Fin dim) K → (Fin dim → K) → (Fin dim → K))
    (system : OdeSystem K dim) (old_time : Fin dim → K) (k : Nat) : Fin dim → K :=
  (s.update lu_solve system old_time)^[k] old_time

end EulerBackward

/-! ## `ode/odeSolver.hpp` -/

/-- The private members of `OdeSolver`. -/
structure OdeSolver (K : Type) (dim : Nat) where
  N_ : Nat
  T_ : K
  method_ : SchemeType K dim

namespace OdeSolver

variable {K : Type} {dim : Nat}

/-- The constructor `OdeSolver(noSteps, maxTime)`: `N_(noSteps), T_(maxTime), method_(N_, T_)`;
`scheme_ctor` is the constructor of the template argument `SchemeType`. -/
def create (scheme_ctor : Nat → K → SchemeType K dim) (noSteps : Nat) (maxTime : K) :
    OdeSolver K dim :=
  ⟨noSteps, maxTime, scheme_ctor noSteps maxTime⟩

/-- The loop `for (step = 0; step < N_; step++)` of `solve`: the first argument counts the steps
that remain, the second is `step`. -/
def steps (method_ : SchemeType K dim) (ode_sys : OdeSystem K dim) :
    Nat → Nat → Buffer K → Except Failure (Buffer K)
  | 0, _, results_matrix => .ok results_matrix
  | k + 1, step, results_matrix =>
    match method_.time_step ode_sys (results_matrix.column dim step) with
    | .error e => .error e
    | .ok new_time => steps method_ ode_sys k (step + 1) (results_matrix.assign_column (step + 1) new_time)

/-- Member `solve`: the two assertions, the fill with `quiet_NaN` of the build with assertions,
the initial condition into column 0, then the loop. -/
def solve (s : OdeSolver K dim) (quiet_NaN : K) (ode_sys : OdeSystem K dim)
    (results_matrix : Buffer K) : Except Failure (Buffer K) :=
  if dim ≠ results_matrix.size1 then .error .assertion
  else if results_matrix.size2 ≠ s.N_ + 1 then .error .assertion
  else
    let filled := results_matrix.fill quiet_NaN
    let init := filled.assign_column 0 ode_sys.initial_condition
    steps s.method_ ode_sys s.N_ 0 init

/-- The states that `solve` computes: the initial condition, then one `time_step` after the
other. -/
def trajectory (method_ : SchemeType K dim) (ode_sys : OdeSystem K dim) :
    Nat → Except Failure (Fin dim → K)
  | 0 => .ok ode_sys.initial_condition
  | j + 1 =>
    match trajectory method_ ode_sys j with
    | .error e => .error e
    | .ok old_time => method_.time_step ode_sys old_time

end OdeSolver

end ode

namespace siqrd

/-- The epidemic model seen through the `OdeSystem` concept. -/
def OdeSys_SIQRD.toOdeSystem {K : Type} [LinearOrderedField K] (m : OdeSys_SIQRD K) :
    ode.OdeSystem K 5 :=
  ⟨m.initial_condition, m.call, m.jacobian⟩

/-- The sum `S+I+Q+R+D` of a state. -/
def total {K : Type} [LinearOrderedField K] (x : Fin 5 → K) : K :=
  ∑ i, x i

end siqrd

/-! ## `optimization/lineSearch.hpp` -/

namespace optimization

/-- The `target_functor` concept of the header comments: `operator()` and
`gradient(variables, value, out)`, returning what it leaves in `out`. -/
structure target_functor (K : Type) (dim : Nat) where
  call : (Fin dim → K) → K
  gradient : (Fin dim → K) → K → (Fin dim → K)

section Products

variable {K : Type} [LinearOrderedField K] {dim : Nat}

/-- The function `ublas::inner_prod`. -/
def inner_prod (u v : Fin dim → K) : K :=
  ∑ i, u i * v i

/-- The function `ublas::outer_prod`. -/
def outer_prod (u v : Fin dim → K) : Matrix (Fin dim) (Fin dim) K :=
  fun i j => u i * v j

/-- The function `ublas::prod` of a matrix and a vector. -/
def prod_mv (A : Matrix (Fin dim) (Fin dim) K) (v : Fin dim → K) : Fin dim → K :=
  fun i => ∑ j, A i j * v j

/-- The function `ublas::prod` of a vector and a matrix. -/
def prod_vm (v : Fin dim → K) (A : Matrix (Fin dim) (Fin dim) K) : Fin dim → K :=
  fun j => ∑ i, v i * A i j

end Products

/-- The private member `min_step_` of `LineSearch`; `gradient_` and `p_step_` are scratch assigned
before they are read. -/
structure LineSearch (K : Type) where
  min_step_ : K

namespace LineSearch

variable {K : Type} [LinearOrderedField K] {dim : Nat}

/-- The constructor `LineSearch(dim, tolerance)`. -/
def create (tolerance : K) : LineSearch K :=
  ⟨tolerance⟩

/-- Static member `C1`. -/
def C1 : K := 1e-4

/-- Static member `C2`. -/
def C2 : K := 0.9

/-- The condition of the `if` in the loop body at the trial `step_size`, with
`p_step_ = pk + step_size * dk`, `target_after_step = target(p_step_)` and `gradient_` just
written by `target.gradient(p_step_, target_after_step, gradient_)`. -/
def accepts (pk dk : Fin dim → K) (target_k : K) (grad_target_k : Fin dim → K)
    (target : target_functor K dim) (step_size : K) : Prop :=
  let dk_grad_prod := inner_prod dk grad_target_k
  let rhs1 := target_k + C1 * step_size * dk_grad_prod
  let rhs2 := -C2 * dk_grad_prod
  let p_step_ : Fin dim → K := fun i => pk i + step_size * dk i
  let target_after_step := target.call p_step_
  let gradient_ := target.gradient p_step_ target_after_step
  target_after_step ≤ rhs1 ∧ (-1) * inner_prod dk gradient_ ≤ rhs2

instance (pk dk : Fin dim → K) (target_k : K) (grad_target_k : Fin dim → K)
    (target : target_functor K dim) (step_size : K) :
    Decidable (accepts pk dk target_k grad_target_k target step_size) := by
  unfold accepts
  infer_instance

/-- The loop `for (i = 0; i < 100 && step_size > min_step_; i++)` with its `break`: the first
argument counts how far `i` is from 100, the result is `step_size` and `i` when the loop is
left. -/
def loop (ls : LineSearch K) (pk dk : Fin dim → K) (target_k : K) (grad_target_k : Fin dim → K)
    (target : target_functor K dim) : Nat → Nat → K → K × Nat
  | 0, i, step_size => (step_size, i)
  | fuel + 1, i, step_size =>
    if step_size > ls.min_step_ then
      if accepts pk dk target_k grad_target_k target step_size then (step_size, i)
      else loop ls pk dk target_k grad_target_k target fuel (i + 1) (step_size / 2)
    else (step_size, i)

/-- The body of `operator()`, keeping the loop counter `i` next to the step returned. -/
def search (ls : LineSearch K) (pk dk : Fin dim → K) (target_k : K) (grad_target_k : Fin dim → K)
    (target : target_functor K dim) (step_size : K) : K × Nat :=
  loop ls pk dk target_k grad_target_k target 100 0 step_size

/-- Member `operator()`: the step size returned. -/
def call (ls : LineSearch K) (pk dk : Fin dim → K) (target_k : K) (grad_target_k : Fin dim → K)
    (target : target_functor K dim) (step_size : K) : K :=
  (search ls pk dk target_k grad_target_k target step_size).1

end LineSearch

end optimization

/-! ## `optimization/bfgs.hpp` -/

namespace optimization

/-- The local variables of `BFGS` that are carried from one iteration to the next; `vars` is the
vector named `variables` in the source. -/
structure BFGS_state (K : Type) (dim : Nat) where
  vars : Fin dim → K
  hessian : Matrix (Fin dim) (Fin dim) K
  target_k : K
  grad_target_k : Fin dim → K

section BFGS

variable {K : Type} [LinearOrderedField K] {dim : Nat}
variable (norm_2 : (Fin dim → K) → K)
variable (lu_solve : Matrix (Fin dim) (Fin dim) K → (Fin dim → K) → (Fin dim → K))
variable (target_fun : target_functor K dim) (tolerance : K)

/-- The local constant `max_iters` of `BFGS`. -/
def BFGS_max_iters : Nat := 1000

/-- The local constant `max_step_size` of `BFGS`. -/
def BFGS_max_step_size : K := 1

/-- The state before the loop: `variables.assign(starting_variables)`, the target value and the
gradient there. -/
def BFGS_init (starting_variables : Fin dim → K) (hessian : Matrix (Fin dim) (Fin dim) K) :
    BFGS_state K dim :=
  let target_k := target_fun.call starting_variables
  ⟨starting_variables, hessian, target_k, target_fun.gradient starting_variables target_k⟩

/-- The vector `direction` after `direction.assign(-grad_target_k)` and the linear solve with a
copy of `hessian`. -/
def BFGS_direction (st : BFGS_state K dim) : Fin dim → K :=
  lu_solve st.hessian (fun i => -st.grad_target_k i)

/-- The value `step_size` returned by the line search, which was constructed with
`tolerance * 100`. -/
def BFGS_step_size (st : BFGS_state K dim) : K :=
  (LineSearch.create (tolerance * 100)).call st.vars (BFGS_direction lu_solve st)
    st.target_k st.grad_target_k target_fun BFGS_max_step_size

/-- The value `res = step_size * norm_2(direction) / norm_2(variables)`. -/
def BFGS_res (st : BFGS_state K dim) : K :=
  BFGS_step_size lu_solve target_fun tolerance st * norm_2 (BFGS_direction lu_solve st)
    / norm_2 st.vars

/-- The test `res < tolerance`.  When `norm_2(variables)` is zero the C++ quotient of a
non-negative numerator by zero is `inf` or `NaN` and the comparison is false; the first conjunct
says so. -/
def BFGS_converged (st : BFGS_state K dim) : Prop :=
  norm_2 st.vars ≠ 0 ∧ BFGS_res norm_2 lu_solve target_fun tolerance st < tolerance

instance (st : BFGS_state K dim) :
    Decidable (BFGS_converged norm_2 lu_solve target_fun tolerance st) := by
  unfold BFGS_converged
  infer_instance

/-- The rest of the loop body after a failed convergence check: the step, the new target value
and gradient, `y`, `hs`, `sh` and the update of `hessian`. -/
def BFGS_update (st : BFGS_state K dim) : BFGS_state K dim :=
  let direction := BFGS_direction lu_solve st
  let step_size := BFGS_step_size lu_solve target_fun tolerance st
  let vars : Fin dim → K := fun i => st.vars i + step_size * direction i
  let grad_target_old := st.grad_target_k
  let target_k := target_fun.call vars
  let grad_target_k := target_fun.gradient vars target_k
  let y : Fin dim → K := fun i => grad_target_k i - grad_target_old i
  let hs := prod_mv st.hessian direction
  let sh := prod_vm direction st.hessian
  let hessian : Matrix (Fin dim) (Fin dim) K := fun i j =>
    st.hessian i j + (-outer_prod hs sh i j / inner_prod sh direction
      + outer_prod y y i j / (inner_prod direction y * step_size))
  ⟨vars, hessian, target_k, grad_target_k⟩

/-- The loop `for (k = 0; k < max_iters; k++)` with its `break`; the first argument counts the
iterations that remain. -/
def BFGS_loop : Nat → BFGS_state K dim → BFGS_state K dim
  | 0, st => st
  | fuel + 1, st =>
    if BFGS_converged norm_2 lu_solve target_fun tolerance st then st
    else BFGS_loop fuel (BFGS_update lu_solve target_fun tolerance st)

/-- The function `BFGS`: the loop from the initial state, and `return variables` whether the flag
`converged` was set or not. -/
def BFGS (starting_variables : Fin dim → K) (hessian : Matrix (Fin dim) (Fin dim) K) :
    Fin dim → K :=
  (BFGS_loop norm_2 lu_solve target_fun tolerance BFGS_max_iters
    (BFGS_init target_fun starting_variables hessian)).vars

/-- The state at the top of iteration `k` when no earlier iteration has left the loop. -/
def BFGS_iterate (starting_variables : Fin dim → K) (hessian : Matrix (Fin dim) (Fin dim) K)
    (k : Nat) : BFGS_state K dim :=
  (BFGS_update lu_solve target_fun tolerance)^[k] (BFGS_init target_fun starting_variables hessian)

end BFGS

end optimization

/-! ## `siqrd/lse_siqrd.hpp` -/

namespace siqrd

/-- The private members of `LSE_siqrd`; `params_temp_` is scratch that `gradient` assigns before
it reads it. -/
structure LSE_siqrd (K : Type) where
  no_days_ : Nat
  prediction_ : ode.Buffer K
  scratch_space_ : ode.Buffer K
  init_cond_ : Fin 5 → K
  pop_size_squared_ : K
  eqns_ : OdeSys_SIQRD K
  solver_ : ode.OdeSolver K 5

namespace LSE_siqrd

variable {K : Type} [LinearOrderedField K]

/-- Static member of the same name: the number of solver steps per day. -/
def RATIO : Nat := 8

/-- Static member `EPS`, the step of the finite difference. -/
def EPS : K := 1e-5

/-- The constructor, with the two files already read: `no_days` and the rows `observations day`
come from the observation file (whose width was asserted to be 5), `eqns` is the model built from
the parameter file, and `uninitialised` stands for the content of freshly allocated matrices.
`scheme_ctor` is the constructor of the template argument `SchemeType`. -/
def create (scheme_ctor : Nat → K → ode.SchemeType K 5) (no_days : Nat)
    (observations : Nat → Fin 5 → K) (eqns : OdeSys_SIQRD K) (uninitialised : Nat → Nat → K) :
    LSE_siqrd K :=
  let prediction_ : ode.Buffer K :=
    ⟨5, no_days, fun j i => if h : j < 5 ∧ i < no_days then observations i ⟨j, h.1⟩
      else uninitialised j i⟩
  let scratch_space_ : ode.Buffer K := ⟨5, (no_days - 1) * RATIO + 1, uninitialised⟩
  let solver_ := ode.OdeSolver.create scheme_ctor (scratch_space_.size2 - 1)
    (((no_days - 1 : Nat) : K))
  let init_cond_ := prediction_.column 5 0
  let pop_size := ∑ i, init_cond_ i
  ⟨no_days, prediction_, scratch_space_, init_cond_, pop_size * pop_size,
    eqns.set_initial_condition init_cond_, solver_⟩

/-- The loop over the days in `lse`: after `day` passes, the accumulated `lse` and the column
index `i`. -/
def lse_days (norm_2 : (Fin 5 → K) → K) (prediction_ scratch_space_ : ode.Buffer K) :
    Nat → K × Nat
  | 0 => (0, 0)
  | day + 1 =>
    let acc := lse_days norm_2 prediction_ scratch_space_ day
    let x_ip := scratch_space_.column 5 acc.2
    let x_i := prediction_.column 5 day
    (acc.1 + (norm_2 (fun r => x_i r - x_ip r)) ^ 2, acc.2 + RATIO)

/-- Member `lse`: the value returned and the object as the call leaves it.  The integer quotient
in the assertion has a zero divisor when `no_days_ = 1`; the quotient is then `0` here and the
assertion fails. -/
def lse (o : LSE_siqrd K) (norm_2 : (Fin 5 → K) → K) (quiet_NaN : K) (params : Fin 5 → K) :
    Except ode.Failure (K × LSE_siqrd K) :=
  if (o.scratch_space_.size2 - 1) / (o.no_days_ - 1) ≠ RATIO then .error .assertion
  else
    let eqns1 := o.eqns_.set_initial_condition o.init_cond_
    let eqns2 := eqns1.set_parameters params
    match o.solver_.solve quiet_NaN eqns2.toOdeSystem o.scratch_space_ with
    | .error e => .error e
    | .ok scratch =>
      let lse := (lse_days norm_2 o.prediction_ scratch o.no_days_).1
      .ok (lse / ((o.no_days_ : K) * o.pop_size_squared_),
        { o with eqns_ := eqns2, scratch_space_ := scratch })

/-- Member `operator()`. -/
def call (o : LSE_siqrd K) (norm_2 : (Fin 5 → K) → K) (quiet_NaN : K) (p : Fin 5 → K) :
    Except ode.Failure (K × LSE_siqrd K) :=
  o.lse norm_2 quiet_NaN p

/-- What `gradient` carries from one coordinate to the next: `params_temp_`, `grad` and the
object. -/
structure gradient_state (K : Type) where
  params_temp_ : Fin 5 → K
  grad : Fin 5 → K
  obj : LSE_siqrd K

/-- The statements of `gradient` before its loop: `params_temp_.assign(p)`,
`params_temp_[0] += EPS` and `grad[0] = (lse(params_temp_) - lse_0) / EPS`. -/
def gradient_first (o : LSE_siqrd K) (norm_2 : (Fin 5 → K) → K) (quiet_NaN : K)
    (p : Fin 5 → K) (lse_0 : K) (grad : Fin 5 → K) : Except ode.Failure (gradient_state K) :=
  let params_temp_ := Function.update p 0 (p 0 + EPS)
  match o.lse norm_2 quiet_NaN params_temp_ with
  | .error e => .error e
  | .ok r => .ok ⟨params_temp_, Function.update grad 0 ((r.1 - lse_0) / EPS), r.2⟩

/-- The body of the loop of `gradient` at the index `i`, with `i_prev` standing for `i - 1`. -/
def gradient_body (norm_2 : (Fin 5 → K) → K) (quiet_NaN : K) (p : Fin 5 → K) (lse_0 : K)
    (i_prev i : Fin 5) (st : gradient_state K) : Except ode.Failure (gradient_state K) :=
  let restored := Function.update st.params_temp_ i_prev (p i_prev)
  let params_temp_ := Function.update restored i (restored i + EPS)
  match st.obj.lse norm_2 quiet_NaN params_temp_ with
  | .error e => .error e
  | .ok r => .ok ⟨params_temp_, Function.update st.grad i ((r.1 - lse_0) / EPS), r.2⟩

/-- The loop `for (i = 1; i < p.size(); i++)` of `gradient` over the pairs `(i - 1, i)` that are
left. -/
def gradient_loop (norm_2 : (Fin 5 → K) → K) (quiet_NaN : K) (p : Fin 5 → K) (lse_0 : K) :
    List (Fin 5 × Fin 5) → gradient_state K → Except ode.Failure (gradient_state K)
  | [], st => .ok st
  | (i_prev, i) :: rest, st =>
    match gradient_body norm_2 quiet_NaN p lse_0 i_prev i st with
    | .error e => .error e
    | .ok st2 => gradient_loop norm_2 quiet_NaN p lse_0 rest st2

/-- Member `gradient`: what it leaves in `grad`, and the object as the call leaves it.  The
vector `p` has `dim = 5` entries, so the loop runs over `i = 1, 2, 3, 4`. -/
def gradient (o : LSE_siqrd K) (norm_2 : (Fin 5 → K) → K) (quiet_NaN : K) (p : Fin 5 → K)
    (lse_0 : K) (grad : Fin 5 → K) : Except ode.Failure ((Fin 5 → K) × LSE_siqrd K) :=
  match gradient_first o norm_2 quiet_NaN p lse_0 grad with
  | .error e => .error e
  | .ok st =>
    match gradient_loop norm_2 quiet_NaN p lse_0 [(0, 1), (1, 2), (2, 3), (3, 4)] st with
    | .error e => .error e
    | .ok st2 => .ok (st2.grad, st2.obj)

/-- Two objects that differ at most in what an evaluation overwrites: the parameters and initial
condition held by `eqns_`, and the cells of `scratch_space_`. -/
def same_setup (o o2 : LSE_siqrd K) : Prop :=
  o.no_days_ = o2.no_days_ ∧ o.prediction_ = o2.prediction_ ∧ o.init_cond_ = o2.init_cond_ ∧
    o.pop_size_squared_ = o2.pop_size_squared_ ∧ o.solver_ = o2.solver_ ∧
    o.scratch_space_.size1 = o2.scratch_space_.size1 ∧
    o.scratch_space_.size2 = o2.scratch_space_.size2

end LSE_siqrd

end siqrd

/-! ## `optimization/cgm.hpp` -/

namespace optimization

namespace FR_formula

variable {K : Type} [LinearOrderedField K] {dim : Nat}

/-- The static member `FR_formula::nu_k`. -/
def nu_k (norm_2 : (Fin dim → K) → K) (grad_target_k grad_target_old : Fin dim → K) : K :=
  (norm_2 grad_target_k / norm_2 grad_target_old) ^ 2

end FR_formula

namespace PR_formula

variable {K : Type} [LinearOrderedField K] {dim : Nat}

/-- The static member `PR_formula::nu_k`. -/
def nu_k (norm_2 : (Fin dim → K) → K) (grad_target_k grad_target_old : Fin dim → K) : K :=
  inner_prod grad_target_k (fun i => grad_target_k i - grad_target_old i)
    / (norm_2 grad_target_old) ^ 2

end PR_formula

/-- The local variables of `CGM` that are carried from one iteration to the next; `vars` is the
vector named `variables` in the source.  At the top of an iteration `direction` is the direction
of the iteration before and `grad_target_k` the gradient of the iteration before, which the body
copies to `grad_target_old`. -/
structure CGM_state (K : Type) (dim : Nat) where
  vars : Fin dim → K
  direction : Fin dim → K
  grad_target_k : Fin dim → K

section CGM

variable {K : Type} [LinearOrderedField K] {dim : Nat}
variable (norm_2 : (Fin dim → K) → K)
variable (formula_nu_k : (Fin dim → K) → (Fin dim → K) → K)
variable (target_fun : target_functor K dim) (tolerance : K)

/-- The local constant `max_iters` of `CGM`. -/
def CGM_max_iters : Nat := 1000

/-- The local constant `max_step_size` of `CGM`. -/
def CGM_max_step_size : K := 0.01

/-- The state before the loop: `direction.clear()`, `variables.assign(starting_variables)`, and
`grad_target_k` as the build with assertions fills it, with `quiet_NaN`. -/
def CGM_init (starting_variables : Fin dim → K) (quiet_NaN : K) : CGM_state K dim :=
  ⟨starting_variables, fun _ => 0, fun _ => quiet_NaN⟩

/-- The vector `grad_target_k` after `target_k = target_fun(variables)` and
`target_fun.gradient(variables, target_k, grad_target_k)`. -/
def CGM_gradient (st : CGM_state K dim) : Fin dim → K :=
  target_fun.gradient st.vars (target_fun.call st.vars)

/-- The vector `direction` after the `if ((k % dim != 0))` block under the comment "new
direction". -/
def CGM_new_direction (k : Nat) (st : CGM_state K dim) : Fin dim → K :=
  let grad_target_old := st.grad_target_k
  let grad_target_k := CGM_gradient target_fun st
  if k % dim ≠ 0 then
    let nu_k := formula_nu_k grad_target_k grad_target_old
    fun i => (-1) * grad_target_k i + nu_k * st.direction i
  else fun i => (-1) * grad_target_k i

/-- The vector `direction` after `direction.assign((-1) * grad_target_k)`. -/
def CGM_steepest_direction (st : CGM_state K dim) : Fin dim → K :=
  fun i => (-1) * CGM_gradient target_fun st i

/-- The value `step_size` returned by the line search, which was constructed with `tolerance`,
along `direction`. -/
def CGM_line_search (st : CGM_state K dim) (direction : Fin dim → K) : K :=
  (LineSearch.create tolerance).call st.vars direction (target_fun.call st.vars)
    (CGM_gradient target_fun st) target_fun CGM_max_step_size

/-- The value `res = step_size * norm_2(direction) / p_norm2` with `p_norm2 = norm_2(variables)`
and `step_size` from the line search along `direction`. -/
def CGM_res (st : CGM_state K dim) (direction : Fin dim → K) : K :=
  CGM_line_search target_fun tolerance st direction * norm_2 direction / norm_2 st.vars

/-- The test `res < tolerance`.  When `p_norm2` is zero the C++ quotient of a non-negative
numerator by zero is `inf` or `NaN` and the comparison is false; the first conjunct says so. -/
def CGM_below (st : CGM_state K dim) (direction : Fin dim → K) : Prop :=
  norm_2 st.vars ≠ 0 ∧ CGM_res norm_2 target_fun tolerance st direction < tolerance

instance (st : CGM_state K dim) (direction : Fin dim → K) :
    Decidable (CGM_below norm_2 target_fun tolerance st direction) := by
  unfold CGM_below
  infer_instance

/-- The condition `(res < tolerance) && (k % dim != 0)` under the comment "check for
convergence". -/
def CGM_retry (k : Nat) (st : CGM_state K dim) : Prop :=
  CGM_below norm_2 target_fun tolerance st (CGM_new_direction formula_nu_k target_fun k st)
    ∧ k % dim ≠ 0

instance (k : Nat) (st : CGM_state K dim) :
    Decidable (CGM_retry norm_2 formula_nu_k target_fun tolerance k st) := by
  unfold CGM_retry
  infer_instance

/-- The vector `direction` at the comment "real convergence check". -/
def CGM_direction (k : Nat) (st : CGM_state K dim) : Fin dim → K :=
  if CGM_retry norm_2 formula_nu_k target_fun tolerance k st then
    CGM_steepest_direction target_fun st
  else CGM_new_direction formula_nu_k target_fun k st

/-- The value `step_size` at the comment "real convergence check". -/
def CGM_step_size (k : Nat) (st : CGM_state K dim) : K :=
  CGM_line_search target_fun tolerance st
    (CGM_direction norm_2 formula_nu_k target_fun tolerance k st)

/-- The test `res < tolerance` under the comment "real convergence check". -/
def CGM_converged (k : Nat) (st : CGM_state K dim) : Prop :=
  CGM_below norm_2 target_fun tolerance st
    (CGM_direction norm_2 formula_nu_k target_fun tolerance k st)

instance (k : Nat) (st : CGM_state K dim) :
    Decidable (CGM_converged norm_2 formula_nu_k target_fun tolerance k st) := by
  unfold CGM_converged
  infer_instance

/-- The state at the end of a loop body that did not `break`:
`variables.assign(variables + step_size * direction)`. -/
def CGM_update (k : Nat) (st : CGM_state K dim) : CGM_state K dim :=
  let direction := CGM_direction norm_2 formula_nu_k target_fun tolerance k st
  let step_size := CGM_step_size norm_2 formula_nu_k target_fun tolerance k st
  ⟨fun i => st.vars i + step_size * direction i, direction, CGM_gradient target_fun st⟩

/-- The loop `for (k = 0; k < max_iters; k++)` with its `break`; the first argument counts the
iterations that remain, the second is `k`. -/
def CGM_loop : Nat → Nat → CGM_state K dim → CGM_state K dim
  | 0, _, st => st
  | fuel + 1, k, st =>
    if CGM_converged norm_2 formula_nu_k target_fun tolerance k st then st
    else CGM_loop fuel (k + 1) (CGM_update norm_2 formula_nu_k target_fun tolerance k st)

/-- The function `CGM`: the loop from the initial state, and `return variables` whether the flag
`converged` was set or not.  The remainder `k % dim` is defined in C++ when `dim` is not zero. -/
def CGM (starting_variables : Fin dim → K) (quiet_NaN : K) : Fin dim → K :=
  (CGM_loop norm_2 formula_nu_k target_fun tolerance CGM_max_iters 0
    (CGM_init starting_variables quiet_NaN)).vars

/-- The state at the top of iteration `k` when no earlier iteration has left the loop. -/
def CGM_iterate (starting_variables : Fin dim → K) (quiet_NaN : K) : Nat → CGM_state K dim
  | 0 => CGM_init starting_variables quiet_NaN
  | k + 1 => CGM_update norm_2 formula_nu_k target_fun tolerance k
      (CGM_iterate starting_variables quiet_NaN k)

end CGM

end optimization

/-! ## `ode/odeSys_test.hpp` -/

namespace ode

namespace OdeSys_test

variable {K : Type} [LinearOrderedField K]

/-- The static member `dim`. -/
def dim : Nat := 50

/-- Member `initial_condition`: entry `i` is `++i * 0.01` of the generator, for `i` counted from
zero. -/
def initial_condition : Fin 50 → K :=
  fun i => (((i : Nat) + 1 : Nat) : K) * 0.01

/-- Member `analytic_solution`; `sqrt` is `std::sqrt`, `epsilon` is
`std::numeric_limits<value_type>::epsilon()` and `std::fabs` is the absolute value. -/
def analytic_solution (sqrt : K → K) (epsilon : K) (t : K) : Fin 50 → K :=
  fun i =>
    let k : K := 0.1 * ((i : Nat) : K)
    let m : K := initial_condition i
    if |m - k| < epsilon then 0
    else
      let c : K := 1 / (m - k) ^ 2
      if m > k then k + sqrt (1 / (20 * t + c))
      else k - sqrt (1 / (20 * t + c))

/-- Member `operator()`, in both of its overloads. -/
def call (variables_vector : Fin 50 → K) : Fin 50 → K :=
  fun i => -10 * (variables_vector i - 0.1 * ((i : Nat) : K)) ^ 3

/-- Member `jacobian`: `jac_matrix.clear()` and the diagonal entries. -/
def jacobian (variables_vector : Fin 50 → K) : Matrix (Fin 50) (Fin 50) K :=
  fun i j => if i = j then -30 * (variables_vector i - 0.1 * ((i : Nat) : K)) ^ 2 else 0

/-- The class as an `OdeSystem`. -/
def toOdeSystem : OdeSystem K 50 :=
  ⟨initial_condition, call, jacobian⟩

end OdeSys_test

end ode

/-! ## The formula in the comment of `optimization/bfgs.hpp` -/

namespace optimization

section StandardFormula

variable {K : Type} [LinearOrderedField K] {dim : Nat}

/-- The standard BFGS formula, as the comment under the update in `bfgs.hpp` writes it:
`B_k = B_k - (B_k * s x s * B_k) / (s * Bk * s) + (y x y) / (s * y)`, that is
`B - (B*s_vec)(s_vec^T*B)/(s_vec^T*B*s_vec) + (y y^T)/(s_vec . y)` for a displacement `s_vec` and
a gradient difference `y`.  This definition follows the comment, not the code. -/
def standard_BFGS_formula (B : Matrix (Fin dim) (Fin dim) K) (s_vec y : Fin dim → K) :
    Matrix (Fin dim) (Fin dim) K :=
  fun i j => B i j
    - outer_prod (prod_mv B s_vec) (prod_vm s_vec B) i j / inner_prod (prod_vm s_vec B) s_vec
    + outer_prod y y i j / inner_prod s_vec y

end StandardFormula

end optimization

namespace siqrd

/-! ## Concrete inputs on which the definitions are evaluated -/

/-- An epidemic model: `alpha = 1/100`, `beta = 1/2`, `gamma = 1/10`, `delta = 1/5`,
`mu = 1/20`, started from `[100, 5, 0, 0, 0]`. -/
def sample_model_in (K : Type) [LinearOrderedField K] : OdeSys_SIQRD K :=
  ⟨1 / 100, 1 / 2, 1 / 10, 1 / 5, 1 / 20, 100, 5, 0, 0, 0⟩

/-- The sample model over `ℚ`. -/
def sample_model : OdeSys_SIQRD ℚ :=
  sample_model_in ℚ

end siqrd

namespace ode

/-- A buffer of the given shape with every cell zero. -/
def zero_buffer (rows cols : Nat) : Buffer ℚ :=
  ⟨rows, cols, fun _ _ => 0⟩

/-- The value of `std::numeric_limits<double>::epsilon()`. -/
def epsilon_double : ℚ :=
  1 / 2 ^ 52

/-- What `lu_factorize` and `lu_substitute` compute for a system of one equation with a nonzero
coefficient: the right-hand side divided by the coefficient. -/
def lu_solve_1 (A : Matrix (Fin 1) (Fin 1) ℚ) (b : Fin 1 → ℚ) : Fin 1 → ℚ :=
  fun i => b i / A i i

/-- The scalar system `x' = -x` started at `1`, with its Jacobian `-1`. -/
def decay : OdeSystem ℚ 1 :=
  ⟨fun _ => 1, fun x i => -x i, fun _ _ _ => -1⟩

/-- The scalar system `x' = -x^3 + 3x - 3` started at `1`, with its Jacobian `3 - 3x^2`.  With
`dT_ = 1` and old state `1` the implicit equation is `x^3 - 2x + 2 = 0`, on which Newton's
iteration from `1` alternates between `1` and `0`. -/
def cubic : OdeSystem ℚ 1 :=
  ⟨fun _ => 1, fun x i => -(x i) ^ 3 + 3 * x i - 3, fun x _ _ => 3 - 3 * (x 0) ^ 2⟩

end ode

namespace optimization

/-- The objective `f(x) = x^2` in one variable, with its exact gradient `2x`. -/
def parabola : target_functor ℚ 1 :=
  ⟨fun x => (x 0) ^ 2, fun x _ i => 2 * x i⟩

end optimization

namespace optimization

/-- The objective `f(x) = (x - 3)^2` in one variable, with its exact gradient `2(x - 3)`. -/
def shifted_parabola : target_functor ℚ 1 :=
  ⟨fun x => (x 0 - 3) ^ 2, fun x _ i => 2 * (x i - 3)⟩

/-- The Euclidean norm of a vector with one entry: the absolute value of the entry. -/
def norm_2_1 (v : Fin 1 → ℚ) : ℚ :=
  |v 0|

end optimization

namespace ode

/-- The solution of a square system by Cramer's rule.  On an invertible matrix this is the vector
that LU factorisation and substitution compute in exact arithmetic. -/
def cramer_solve {K : Type} [LinearOrderedField K] {n : Nat} (A : Matrix (Fin n) (Fin n) K)
    (b : Fin n → K) : Fin n → K :=
  fun i => Matrix.cramer A b i / A.det

/-- The scalar system `x' = x` started at `1`, with its Jacobian `1`.  With `dT_ = 1` the Newton
matrix `dT_ * 1 - 1` of the implicit Euler step is zero. -/
def growth : OdeSystem ℚ 1 :=
  ⟨fun _ => 1, fun x i => x i, fun _ _ _ => 1⟩

end ode

namespace optimization

/-- The objective `f(x) = (x - 3)^2 / 10000` in one variable, with its exact gradient
`(x - 3) / 5000`. -/
def flat_parabola : target_functor ℚ 1 :=
  ⟨fun x => (x 0 - 3) ^ 2 / 10000, fun x _ i => (x i - 3) / 5000⟩

/-- The objective `f(x) = 10 * ((x_0 - 3)^2 + (x_1 - 4)^2)` in two variables, with its exact
gradient `[20 * (x_0 - 3), 20 * (x_1 - 4)]`. -/
def steep_bowl (K : Type) [LinearOrderedField K] : target_functor K 2 :=
  ⟨fun x => 10 * ((x 0 - 3) ^ 2 + (x 1 - 4) ^ 2), fun x _ => ![20 * (x 0 - 3), 20 * (x 1 - 4)]⟩

end optimization

namespace siqrd

/-! ## Theorems -/

section Theorems

open OdeSys_SIQRD

variable {K : Type} [LinearOrderedField K]

/-- The matrix written by `jacobian`, row by row. -/
theorem jacobian_rows (m : OdeSys_SIQRD K) (x : Fin 5 → K) :
    m.jacobian x =
      ![![m.dSdS (x 0) (x 1) (x 3), m.dSdI (x 0) (x 1) (x 3), 0, m.dSdR (x 0) (x 1) (x 3), 0],
        ![m.dIdS (x 0) (x 1) (x 3), m.dIdI (x 0) (x 1) (x 3), 0, m.dIdR (x 0) (x 1) (x 3), 0],
        ![0, m.delta_, -(m.gamma_ + m.alpha_), 0, 0],
        ![0, m.gamma_, m.gamma_, -m.mu_, 0],
        ![0, m.alpha_, m.alpha_, 0, 0]] := by
  funext r c
  fin_cases r <;> fin_cases c <;> simp [jacobian, put, Matrix.vecHead, Matrix.vecTail]

/-- C1: for every parameter set and every state `[S, I, Q, R, D]` the derivative
`OdeSys_SIQRD::operator()` is the vector
`[-beta*S*(I/N) + mu*R, I*(beta*(S/N) - gamma - delta - alpha), delta*I - (gamma+alpha)*Q,
gamma*(I+Q) - mu*R, alpha*(I+Q)]` with `N = S+I+R`, and it does not depend on `D`. -/
theorem C1_derivative_formula (alpha beta gamma delta mu S0 I0 Q0 R0 D0 S I Q R D : K) :
    let m : OdeSys_SIQRD K := ⟨alpha, beta, gamma, delta, mu, S0, I0, Q0, R0, D0⟩
    let N := S + I + R
    m.call ![S, I, Q, R, D] =
        ![-beta * S * (I / N) + mu * R,
          I * (beta * (S / N) - gamma - delta - alpha),
          delta * I - (gamma + alpha) * Q,
          gamma * (I + Q) - mu * R,
          alpha * (I + Q)]
      ∧ ∀ D2 : K, m.call ![S, I, Q, R, D2] = m.call ![S, I, Q, R, D] := by
  intro m N
  refine ⟨?_, fun D2 => ?_⟩ <;>
    simp [m, N, call, fS, fI, fQ, fR, fD]

/-- C2: for every parameter set and every state the five components of the derivative sum to
zero: the vector field conserves `S+I+Q+R+D`. -/
theorem C2_derivative_sum_zero (m : OdeSys_SIQRD K) (x : Fin 5 → K) :
    ∑ i, m.call x i = 0 := by
  simp only [Fin.sum_univ_five, call, fS, fI, fQ, fR, fD]
  simp only [Matrix.cons_val_zero, Matrix.cons_val_one, Matrix.head_cons, Matrix.cons_val_two,
    Matrix.tail_cons, Matrix.cons_val_three, Matrix.cons_val_four]
  ring

end Theorems

end siqrd

namespace ode

section SolverLemmas

variable {K : Type} {dim : Nat}

open OdeSolver

theorem column_assign_column_same (b : Buffer K) (j : Nat) (v : Fin dim → K) :
    (b.assign_column j v).column dim j = v := by
  funext i
  simp [Buffer.column, Buffer.assign_column]

theorem column_assign_column_ne (b : Buffer K) (j c : Nat) (v : Fin dim → K) (h : c ≠ j) :
    (b.assign_column j v).column dim c = b.column dim c := by
  funext i
  simp [Buffer.column, Buffer.assign_column, h]

/-- What the loop of `solve` leaves behind when it runs to its end. -/
theorem steps_spec (method_ : SchemeType K dim) (ode_sys : OdeSystem K dim) :
    ∀ (k step : Nat) (m out : Buffer K), steps method_ ode_sys k step m = .ok out →
      (∀ c, c ≤ step → out.column dim c = m.column dim c) ∧
      (∀ j, step ≤ j → j < step + k →
        method_.time_step ode_sys (out.column dim j) = .ok (out.column dim (j + 1))) := by
  intro k
  induction k with
  | zero =>
    intro step m out h
    simp only [steps, Except.ok.injEq] at h
    subst h
    exact ⟨fun _ _ => rfl, fun j h1 h2 => absurd h2 (by omega)⟩
  | succ k ih =>
    intro step m out h
    simp only [steps] at h
    cases hts : method_.time_step ode_sys (m.column dim step) with
    | error e => simp [hts] at h
    | ok new_time =>
      simp only [hts] at h
      obtain ⟨hcols, hsteps⟩ := ih (step + 1) _ out h
      have hkeep : ∀ c, c ≤ step → out.column dim c = m.column dim c := by
        intro c hc
        rw [hcols c (by omega), column_assign_column_ne _ _ _ _ (by omega)]
      refine ⟨hkeep, fun j h1 h2 => ?_⟩
      rcases Nat.eq_or_lt_of_le h1 with h3 | h3
      · subst h3
        rw [hkeep step le_rfl, hcols (step + 1) le_rfl, column_assign_column_same]
        exact hts
      · exact hsteps j (by omega) (by omega)

/-- The loop of `solve` runs to its end when no `time_step` fails. -/
theorem steps_total (method_ : SchemeType K dim) (ode_sys : OdeSystem K dim)
    (htot : ∀ x, ∃ y, method_.time_step ode_sys x = .ok y) :
    ∀ (k step : Nat) (m : Buffer K), ∃ out, steps method_ ode_sys k step m = .ok out := by
  intro k
  induction k with
  | zero => exact fun _ m => ⟨m, rfl⟩
  | succ k ih =>
    intro step m
    obtain ⟨y, hy⟩ := htot (m.column dim step)
    obtain ⟨out, hout⟩ := ih (step + 1) (m.assign_column (step + 1) y)
    exact ⟨out, by simp only [steps, hy, hout]⟩

/-- The postcondition of `solve` on a buffer of the right shape. -/
theorem solve_spec (s : OdeSolver K dim) (quiet_NaN : K) (ode_sys : OdeSystem K dim)
    (results_matrix out : Buffer K) (h : s.solve quiet_NaN ode_sys results_matrix = .ok out) :
    out.column dim 0 = ode_sys.initial_condition ∧
      ∀ j, j < s.N_ →
        s.method_.time_step ode_sys (out.column dim j) = .ok (out.column dim (j + 1)) := by
  unfold solve at h
  split_ifs at h with h1 h2
  obtain ⟨hcols, hsteps⟩ := steps_spec _ _ _ _ _ _ h
  refine ⟨?_, fun j hj => hsteps j (Nat.zero_le j) (by omega)⟩
  rw [hcols 0 le_rfl, column_assign_column_same]

/-- On a buffer of the right shape `solve` returns when no `time_step` fails. -/
theorem solve_total (s : OdeSolver K dim) (quiet_NaN : K) (ode_sys : OdeSystem K dim)
    (results_matrix : Buffer K) (h1 : results_matrix.size1 = dim)
    (h2 : results_matrix.size2 = s.N_ + 1)
    (htot : ∀ x, ∃ y, s.method_.time_step ode_sys x = .ok y) :
    ∃ out, s.solve quiet_NaN ode_sys results_matrix = .ok out := by
  unfold solve
  rw [if_neg (by simp [h1]), if_neg (by simp [h2])]
  exact steps_total _ _ htot _ _ _

/-- Columns that satisfy the recurrence of `solve` are the states of `trajectory`. -/
theorem trajectory_of_columns (method_ : SchemeType K dim) (ode_sys : OdeSystem K dim)
    (N : Nat) (col : Nat → Fin dim → K) (h0 : col 0 = ode_sys.initial_condition)
    (hstep : ∀ j, j < N → method_.time_step ode_sys (col j) = .ok (col (j + 1))) :
    ∀ j, j ≤ N → trajectory method_ ode_sys j = .ok (col j) := by
  intro j
  induction j with
  | zero => intro _; simp [trajectory, h0]
  | succ j ih =>
    intro hj
    simp only [trajectory, ih (by omega)]
    exact hstep j (by omega)

end SolverLemmas

end ode

namespace siqrd

section Conservation

open ode OdeSys_SIQRD

variable {K : Type} [LinearOrderedField K]

theorem call_sum_zero (m : OdeSys_SIQRD K) (x : Fin 5 → K) : ∑ i, m.call x i = 0 := by
  simp only [Fin.sum_univ_five, call, fS, fI, fQ, fR, fD]
  simp
  ring

/-- One explicit Euler step of the epidemic model keeps `S+I+Q+R+D`. -/
theorem total_euler_step (s : EulerForward K) (m : OdeSys_SIQRD K) (x : Fin 5 → K) :
    total (s.time_step m.toOdeSystem x) = total x := by
  have h := call_sum_zero m x
  simp only [total, EulerForward.time_step, toOdeSystem, Finset.sum_add_distrib,
    ← Finset.mul_sum, h, mul_zero, add_zero]

/-- One Heun step of the epidemic model keeps `S+I+Q+R+D`. -/
theorem total_heun_step (s : Heun K) (m : OdeSys_SIQRD K) (x : Fin 5 → K) :
    total (s.time_step m.toOdeSystem x) = total x := by
  have h := call_sum_zero m x
  have h2 := call_sum_zero m (fun i => x i + s.dT_ * m.call x i)
  simp only [total, Heun.time_step, toOdeSystem, Finset.sum_add_distrib,
    ← Finset.mul_sum, h, h2, mul_zero, add_zero]

/-- A trajectory whose every step keeps the total has the total of its first column. -/
theorem total_columns (sch : SchemeType K 5) (m : OdeSys_SIQRD K)
    (hkeep : ∀ x y, sch.time_step m.toOdeSystem x = .ok y → total y = total x)
    (s : OdeSolver K 5) (hs : s.method_ = sch) (quiet_NaN : K) (buf out : Buffer K)
    (h : s.solve quiet_NaN m.toOdeSystem buf = .ok out) :
    ∀ j, j ≤ s.N_ → total (out.column 5 j) = total m.initial_condition := by
  obtain ⟨h0, hstep⟩ := solve_spec s quiet_NaN m.toOdeSystem buf out h
  intro j
  induction j with
  | zero => intro _; rw [h0]; rfl
  | succ j ih =>
    intro hj
    rw [← ih (by omega)]
    exact hkeep _ _ (hs ▸ hstep j (by omega))

end Conservation

/-- C3: for the epidemic model with any parameters, initial condition, step count `N` and horizon
`T`, `OdeSolver::solve` with the explicit Euler scheme, and likewise with the Heun scheme, returns
on a buffer of 5 rows and `N+1` columns, and every column `j` in `0..N` of the trajectory has the
same sum `S+I+Q+R+D` as the initial condition. -/
theorem C3_solve_conserves_total {K : Type} [LinearOrderedField K] (m : OdeSys_SIQRD K)
    (N : Nat) (T quiet_NaN : K) (buf : ode.Buffer K)
    (h1 : buf.size1 = 5) (h2 : buf.size2 = N + 1) :
    (∃ out, (ode.OdeSolver.create (fun n t => (ode.EulerForward.create n t).scheme) N T).solve
          quiet_NaN m.toOdeSystem buf = .ok out ∧
        ∀ j, j ≤ N → total (out.column 5 j) = total m.initial_condition) ∧
    (∃ out, (ode.OdeSolver.create (fun n t => (ode.Heun.create n t).scheme) N T).solve
          quiet_NaN m.toOdeSystem buf = .ok out ∧
        ∀ j, j ≤ N → total (out.column 5 j) = total m.initial_condition) := by
  constructor
  · obtain ⟨out, hout⟩ := ode.solve_total
      (ode.OdeSolver.create (fun n t => (ode.EulerForward.create n t).scheme) N T)
      quiet_NaN m.toOdeSystem buf h1 h2 (fun x => ⟨_, rfl⟩)
    refine ⟨out, hout, total_columns _ m ?_ _ rfl quiet_NaN buf out hout⟩
    intro x y hxy
    have hy : Except.ok ((ode.EulerForward.create N T).time_step m.toOdeSystem x) =
        (Except.ok y : Except ode.Failure (Fin 5 → K)) := hxy
    rw [← Except.ok.inj hy]
    exact total_euler_step _ m x
  · obtain ⟨out, hout⟩ := ode.solve_total
      (ode.OdeSolver.create (fun n t => (ode.Heun.create n t).scheme) N T)
      quiet_NaN m.toOdeSystem buf h1 h2 (fun x => ⟨_, rfl⟩)
    refine ⟨out, hout, total_columns _ m ?_ _ rfl quiet_NaN buf out hout⟩
    intro x y hxy
    have hy : Except.ok ((ode.Heun.create N T).time_step m.toOdeSystem x) =
        (Except.ok y : Except ode.Failure (Fin 5 → K)) := hxy
    rw [← Except.ok.inj hy]
    exact total_heun_step _ m x

/-- C3 at the sample model with `N = 4`, `T = 1` and a zero buffer of shape 5 by 5. -/
theorem C3_solve_conserves_total_witness :
    (∃ out, (ode.OdeSolver.create (fun n t => (ode.EulerForward.create n t).scheme) 4 1).solve
          0 sample_model.toOdeSystem (ode.zero_buffer 5 5) = .ok out ∧
        ∀ j, j ≤ 4 → total (out.column 5 j) = total sample_model.initial_condition) ∧
    (∃ out, (ode.OdeSolver.create (fun n t => (ode.Heun.create n t).scheme) 4 1).solve
          0 sample_model.toOdeSystem (ode.zero_buffer 5 5) = .ok out ∧
        ∀ j, j ≤ 4 → total (out.column 5 j) = total sample_model.initial_condition) :=
  C3_solve_conserves_total sample_model 4 1 0 (ode.zero_buffer 5 5) rfl rfl

end siqrd

namespace ode

/-- C6: for every model, step count `N` and horizon `T`, the explicit Euler scheme constructed
from `(N, T)` has `dt = T/N`, and for every old state its `time_step` writes
`new = old + dt * derivative(old)` (for the constructed scheme and for any `dt`). -/
theorem C6_euler_forward_step {K : Type} [LinearOrderedField K] {dim : Nat}
    (system : OdeSystem K dim) (N : Nat) (T : K) (old_time : Fin dim → K) :
    (EulerForward.create N T).dT_ = T / (N : K) ∧
      (EulerForward.create N T).scheme.time_step system old_time =
        .ok (fun i => old_time i + T / (N : K) * system.call old_time i) ∧
      ∀ s : EulerForward K,
        s.time_step system old_time = fun i => old_time i + s.dT_ * system.call old_time i :=
  ⟨rfl, rfl, fun _ => rfl⟩

/-- C7: for every model, `dt` and old state the Heun scheme's `time_step` writes
`new = old + dt*0.5*(derivative(old) + derivative(p))` with `p = old + dt*derivative(old)`. -/
theorem C7_heun_step {K : Type} [LinearOrderedField K] {dim : Nat}
    (system : OdeSystem K dim) (s : Heun K) (old_time : Fin dim → K) :
    let p : Fin dim → K := fun i => old_time i + s.dT_ * system.call old_time i
    s.time_step system old_time =
        (fun i => old_time i + s.dT_ * 0.5 * (system.call old_time i + system.call p i)) ∧
      s.scheme.time_step system old_time =
        .ok (fun i => old_time i + s.dT_ * 0.5 * (system.call old_time i + system.call p i)) := by
  intro p
  have h : s.time_step system old_time =
      (fun i => old_time i + s.dT_ * 0.5 * (system.call old_time i + system.call p i)) := by
    funext i
    simp only [Heun.time_step, p]
    ring
  exact ⟨h, by simp only [Heun.scheme, h]⟩

/-- C10: for every model, scheme, step count `N` and buffer with `state_dim` rows and `N+1`
columns: when `OdeSolver::solve` returns, column 0 of the buffer is the model's initial condition,
column `j+1` is the scheme's `time_step` applied to column `j` for every `j` in `[0, N)`, and each
of the `N+1` columns holds the state of the trajectory, whatever the buffer held before; and it
does return when no `time_step` of the scheme fails. -/
theorem C10_solve_columns {K : Type} {dim : Nat} (s : OdeSolver K dim) (quiet_NaN : K)
    (ode_sys : OdeSystem K dim) (results_matrix : Buffer K)
    (h1 : results_matrix.size1 = dim) (h2 : results_matrix.size2 = s.N_ + 1) :
    (∀ out, s.solve quiet_NaN ode_sys results_matrix = .ok out →
        out.column dim 0 = ode_sys.initial_condition ∧
        (∀ j, j < s.N_ →
          s.method_.time_step ode_sys (out.column dim j) = .ok (out.column dim (j + 1))) ∧
        (∀ j, j ≤ s.N_ →
          OdeSolver.trajectory s.method_ ode_sys j = .ok (out.column dim j))) ∧
    ((∀ x, ∃ y, s.method_.time_step ode_sys x = .ok y) →
        ∃ out, s.solve quiet_NaN ode_sys results_matrix = .ok out) := by
  refine ⟨fun out h => ?_, solve_total s quiet_NaN ode_sys results_matrix h1 h2⟩
  obtain ⟨h0, hstep⟩ := solve_spec s quiet_NaN ode_sys results_matrix out h
  exact ⟨h0, hstep, trajectory_of_columns _ _ _ (fun j => out.column dim j) h0 hstep⟩

end ode

namespace siqrd

section Calculus

open OdeSys_SIQRD

theorem hasDerivAt_fS (m : OdeSys_SIQRD ℝ) (s i r : ℝ → ℝ) (s' i' r' t : ℝ)
    (hs : HasDerivAt s s' t) (hi : HasDerivAt i i' t) (hr : HasDerivAt r r' t)
    (hN : s t + i t + r t ≠ 0) :
    HasDerivAt (fun u => m.fS (s u) (i u) (r u))
      (m.dSdS (s t) (i t) (r t) * s' + m.dSdI (s t) (i t) (r t) * i'
        + m.dSdR (s t) (i t) (r t) * r') t := by
  have hn : HasDerivAt (fun u => s u + i u + r u) (s' + i' + r') t := (hs.add hi).add hr
  have h1 := ((hs.const_mul (-m.beta_)).mul (hi.div hn hN)).add (hr.const_mul m.mu_)
  unfold fS
  convert h1 using 1
  unfold dSdS dSdI dSdR
  field_simp
  ring

theorem hasDerivAt_fI (m : OdeSys_SIQRD ℝ) (s i r : ℝ → ℝ) (s' i' r' t : ℝ)
    (hs : HasDerivAt s s' t) (hi : HasDerivAt i i' t) (hr : HasDerivAt r r' t)
    (hN : s t + i t + r t ≠ 0) :
    HasDerivAt (fun u => m.fI (s u) (i u) (r u))
      (m.dIdS (s t) (i t) (r t) * s' + m.dIdI (s t) (i t) (r t) * i'
        + m.dIdR (s t) (i t) (r t) * r') t := by
  have hn : HasDerivAt (fun u => s u + i u + r u) (s' + i' + r') t := (hs.add hi).add hr
  have h1 := hi.mul (((((hs.div hn hN).const_mul m.beta_).sub_const m.gamma_).sub_const
    m.delta_).sub_const m.alpha_)
  unfold fI
  convert h1 using 1
  unfold dIdS dIdI dIdR
  field_simp
  ring

theorem hasDerivAt_fQ (m : OdeSys_SIQRD ℝ) (i q : ℝ → ℝ) (i' q' t : ℝ)
    (hi : HasDerivAt i i' t) (hq : HasDerivAt q q' t) :
    HasDerivAt (fun u => m.fQ (i u) (q u)) (m.delta_ * i' + -(m.gamma_ + m.alpha_) * q') t := by
  have h1 := (hi.const_mul m.delta_).sub (hq.const_mul (m.gamma_ + m.alpha_))
  unfold fQ
  convert h1 using 1
  ring

theorem hasDerivAt_fR (m : OdeSys_SIQRD ℝ) (i q r : ℝ → ℝ) (i' q' r' t : ℝ)
    (hi : HasDerivAt i i' t) (hq : HasDerivAt q q' t) (hr : HasDerivAt r r' t) :
    HasDerivAt (fun u => m.fR (i u) (q u) (r u))
      (m.gamma_ * i' + m.gamma_ * q' + -m.mu_ * r') t := by
  have h1 := ((hi.add hq).const_mul m.gamma_).sub (hr.const_mul m.mu_)
  unfold fR
  convert h1 using 1
  ring

theorem hasDerivAt_fD (m : OdeSys_SIQRD ℝ) (i q : ℝ → ℝ) (i' q' t : ℝ)
    (hi : HasDerivAt i i' t) (hq : HasDerivAt q q' t) :
    HasDerivAt (fun u => m.fD (i u) (q u)) (m.alpha_ * i' + m.alpha_ * q') t := by
  have h1 := (hi.add hq).const_mul m.alpha_
  unfold fD
  convert h1 using 1
  ring

/-- The coordinate `k` of the state as a function of the coordinate `c` alone. -/
theorem hasDerivAt_coordinate (x : Fin 5 → ℝ) (c k : Fin 5) :
    HasDerivAt (fun t => Function.update x c t k) (if k = c then 1 else 0) (x c) := by
  by_cases h : k = c
  · subst h
    simpa using hasDerivAt_id (x k)
  · simpa [h] using hasDerivAt_const (x c) (x k)

/-- Every entry of the matrix written by `jacobian` is the partial derivative of the
corresponding component of the vector field. -/
theorem hasDerivAt_call (m : OdeSys_SIQRD ℝ) (x : Fin 5 → ℝ) (hN : x 0 + x 1 + x 3 ≠ 0)
    (r c : Fin 5) :
    HasDerivAt (fun t => m.call (Function.update x c t) r) (m.jacobian x r c) (x c) := by
  have hN2 : Function.update x c (x c) 0 + Function.update x c (x c) 1
      + Function.update x c (x c) 3 ≠ 0 := by simpa using hN
  have e0 := hasDerivAt_fS m _ _ _ _ _ _ _ (hasDerivAt_coordinate x c 0)
    (hasDerivAt_coordinate x c 1) (hasDerivAt_coordinate x c 3) hN2
  have e1 := hasDerivAt_fI m _ _ _ _ _ _ _ (hasDerivAt_coordinate x c 0)
    (hasDerivAt_coordinate x c 1) (hasDerivAt_coordinate x c 3) hN2
  have e2 := hasDerivAt_fQ m _ _ _ _ _ (hasDerivAt_coordinate x c 1)
    (hasDerivAt_coordinate x c 2)
  have e3 := hasDerivAt_fR m _ _ _ _ _ _ _ (hasDerivAt_coordinate x c 1)
    (hasDerivAt_coordinate x c 2) (hasDerivAt_coordinate x c 3)
  have e4 := hasDerivAt_fD m _ _ _ _ _ (hasDerivAt_coordinate x c 1)
    (hasDerivAt_coordinate x c 2)
  rw [jacobian_rows]
  simp only [Function.update_eq_self] at e0 e1
  fin_cases r
  · convert e0 using 1
    fin_cases c <;> simp [Matrix.vecHead, Matrix.vecTail]
  · convert e1 using 1
    fin_cases c <;> simp [Matrix.vecHead, Matrix.vecTail]
  · convert e2 using 1
    fin_cases c <;> simp [Matrix.vecHead, Matrix.vecTail]
  · convert e3 using 1
    fin_cases c <;> simp [Matrix.vecHead, Matrix.vecTail]
  · convert e4 using 1
    fin_cases c <;> simp [Matrix.vecHead, Matrix.vecTail]

end Calculus

/-- C4: for every parameter set and every state with `S+I+R ≠ 0`, the rows 0..3 of the matrix
written by `OdeSys_SIQRD::jacobian` are the exact partial derivatives of `fS`, `fI`, `fQ`, `fR`:
entry `(r, c)` is the derivative of component `r` of the vector field in the state variable `c`;
the `S` and `I` rows hold `dSdS, dSdI, dSdR` and `dIdS, dIdI, dIdR` in columns 0, 1, 3, the `Q`
and `R` rows are the constants `(delta, -(gamma+alpha))` and `(gamma, gamma, -mu)`, and every
other entry of these rows is zero. -/
theorem C4_jacobian_rows_exact (m : OdeSys_SIQRD ℝ) (x : Fin 5 → ℝ)
    (hN : x 0 + x 1 + x 3 ≠ 0) :
    (∀ r c : Fin 5, (r : ℕ) < 4 →
      HasDerivAt (fun t => m.call (Function.update x c t) r) (m.jacobian x r c) (x c)) ∧
    m.jacobian x 0 = ![m.dSdS (x 0) (x 1) (x 3), m.dSdI (x 0) (x 1) (x 3), 0,
      m.dSdR (x 0) (x 1) (x 3), 0] ∧
    m.jacobian x 1 = ![m.dIdS (x 0) (x 1) (x 3), m.dIdI (x 0) (x 1) (x 3), 0,
      m.dIdR (x 0) (x 1) (x 3), 0] ∧
    m.jacobian x 2 = ![0, m.delta_, -(m.gamma_ + m.alpha_), 0, 0] ∧
    m.jacobian x 3 = ![0, m.gamma_, m.gamma_, -m.mu_, 0] := by
  refine ⟨fun r c _ => hasDerivAt_call m x hN r c, ?_, ?_, ?_, ?_⟩ <;>
    rw [jacobian_rows] <;> rfl

/-- C4 at the sample model and the state `[100, 5, 0, 0, 0]`, for the entry `(1, 0)`: the
derivative of the `I` equation in `S`. -/
theorem C4_jacobian_rows_exact_witness :
    (![100, 5, 0, 0, 0] : Fin 5 → ℝ) 0 + (![100, 5, 0, 0, 0] : Fin 5 → ℝ) 1
        + (![100, 5, 0, 0, 0] : Fin 5 → ℝ) 3 ≠ 0 ∧
      HasDerivAt (fun t => (sample_model_in ℝ).call (Function.update ![100, 5, 0, 0, 0] 0 t) 1)
        ((sample_model_in ℝ).jacobian ![100, 5, 0, 0, 0] 1 0)
        ((![100, 5, 0, 0, 0] : Fin 5 → ℝ) 0) :=
  ⟨by norm_num,
    (C4_jacobian_rows_exact (sample_model_in ℝ) ![100, 5, 0, 0, 0] (by norm_num)).1 1 0
      (by decide)⟩

/-- C5, as stated, fails: at the sample model (`alpha = 1/100`) and the state `[100, 5, 0, 0, 0]`
the entry `(4, 1)` of the matrix written by `jacobian` is `1/100`, so row 4 is not entirely
zero. -/
theorem C5_row4_not_zero :
    sample_model.jacobian ![100, 5, 0, 0, 0] 4 1 = 1 / 100 ∧
      ¬ ∀ c : Fin 5, sample_model.jacobian ![100, 5, 0, 0, 0] 4 c = 0 := by
  have h : sample_model.jacobian ![100, 5, 0, 0, 0] 4 1 = 1 / 100 := by
    rw [jacobian_rows]
    rfl
  refine ⟨h, fun hall => ?_⟩
  have h1 := hall 1
  rw [h] at h1
  norm_num at h1

/-- C5, amended: for every parameter set and every state, row 4 (the `D` equation) of the matrix
written by `jacobian` is `[0, alpha, alpha, 0, 0]`, so it is entirely zero exactly when
`alpha = 0`. -/
theorem C5_row4_is_alpha {K : Type} [LinearOrderedField K] (m : OdeSys_SIQRD K)
    (x : Fin 5 → K) :
    m.jacobian x 4 = ![0, m.alpha_, m.alpha_, 0, 0] ∧
      ((∀ c : Fin 5, m.jacobian x 4 c = 0) ↔ m.alpha_ = 0) := by
  have h : m.jacobian x 4 = ![0, m.alpha_, m.alpha_, 0, 0] := by
    rw [jacobian_rows]
    rfl
  refine ⟨h, fun hall => ?_, fun h0 c => ?_⟩
  · have h1 := hall 1
    rw [h] at h1
    simpa using h1
  · rw [h, h0]
    fin_cases c <;> rfl

end siqrd

namespace ode

section NewtonLoop

open EulerBackward

variable {K : Type} [LinearOrderedField K] {dim : Nat}

/-- The loop leaves at the first iterate that passes the test. -/
theorem loop_first_pass (s : EulerBackward K) (epsilon : K)
    (lu_solve : Matrix (Fin dim) (Fin dim) K → (Fin dim → K) → (Fin dim → K))
    (system : OdeSystem K dim) (old_time : Fin dim → K) :
    ∀ (k i : Nat) (x : Fin dim → K), i < k →
      s.passes epsilon system old_time ((s.update lu_solve system old_time)^[i] x) →
      (∀ j, j < i →
        ¬ s.passes epsilon system old_time ((s.update lu_solve system old_time)^[j] x)) →
      loop s epsilon lu_solve system old_time k x = (s.update lu_solve system old_time)^[i] x := by
  intro k
  induction k with
  | zero => intro i x hi; omega
  | succ k ih =>
    intro i x hi hp hfail
    cases i with
    | zero =>
      have hp0 : s.passes epsilon system old_time x := hp
      simp only [loop, if_pos hp0, Function.iterate_zero, id_eq]
    | succ i =>
      have h0 : ¬ s.passes epsilon system old_time x := hfail 0 (Nat.succ_pos i)
      simp only [loop, if_neg h0, Function.iterate_succ, Function.comp_apply]
      exact ih i _ (by omega) hp (fun j hj => hfail (j + 1) (by omega))

/-- The loop runs through all its iterations when no iterate passes the test. -/
theorem loop_all_fail (s : EulerBackward K) (epsilon : K)
    (lu_solve : Matrix (Fin dim) (Fin dim) K → (Fin dim → K) → (Fin dim → K))
    (system : OdeSystem K dim) (old_time : Fin dim → K) :
    ∀ (k : Nat) (x : Fin dim → K),
      (∀ j, j < k →
        ¬ s.passes epsilon system old_time ((s.update lu_solve system old_time)^[j] x)) →
      loop s epsilon lu_solve system old_time k x = (s.update lu_solve system old_time)^[k] x := by
  intro k
  induction k with
  | zero => intro x _; rfl
  | succ k ih =>
    intro x hfail
    have h0 : ¬ s.passes epsilon system old_time x := hfail 0 (Nat.succ_pos k)
    simp only [loop, if_neg h0, Function.iterate_succ, Function.comp_apply]
    exact ih _ (fun j hj => hfail (j + 1) (by omega))

/-- Without `DMETHODS`: when the test first passes at iteration `i < 1000`, `time_step` returns
the iterate `i`, whose residual is below the tolerance. -/
theorem time_step_first_pass (s : EulerBackward K) (epsilon : K)
    (lu_solve : Matrix (Fin dim) (Fin dim) K → (Fin dim → K) → (Fin dim → K))
    (system : OdeSystem K dim) (old_time : Fin dim → K) (i : Nat) (hi : i < 1000)
    (hp : s.passes epsilon system old_time (s.iterate lu_solve system old_time i))
    (hfail : ∀ j, j < i →
      ¬ s.passes epsilon system old_time (s.iterate lu_solve system old_time j)) :
    s.time_step false epsilon lu_solve system old_time
        = .ok (s.iterate lu_solve system old_time i) ∧
      norm_inf (fun r => (old_time r - s.iterate lu_solve system old_time i r)
          + s.dT_ * system.call (s.iterate lu_solve system old_time i) r) / norm_1 old_time
        < 100 * epsilon := by
  constructor
  · simp only [time_step, Bool.false_eq_true, if_false, max_iter]
    rw [loop_first_pass s epsilon lu_solve system old_time 1000 i old_time hi hp hfail]
    rfl
  · have h := hp.2
    rw [tolerance, mul_comm] at h
    exact h

/-- With `DMETHODS` the function ends in `std::exit(1)` on every input. -/
theorem time_step_dmethods (s : EulerBackward K) (epsilon : K)
    (lu_solve : Matrix (Fin dim) (Fin dim) K → (Fin dim → K) → (Fin dim → K))
    (system : OdeSystem K dim) (old_time : Fin dim → K) :
    s.time_step true epsilon lu_solve system old_time = .error .exit1 := by
  simp [time_step]

end NewtonLoop

section NewtonExamples

open EulerBackward

theorem norm_1_one (v : Fin 1 → ℚ) : norm_1 v = |v 0| := by
  simp [norm_1]

theorem norm_inf_one (v : Fin 1 → ℚ) : norm_inf v = |v 0| := by
  have h : (0 : ℚ) ≤ |v 0| := abs_nonneg _
  simp only [norm_inf, List.ofFn_succ, List.ofFn_zero, List.foldl_cons, List.foldl_nil]
  split_ifs with h1
  · rfl
  · exact le_antisymm h (not_lt.mp h1)

theorem vec_one_eq (v : Fin 1 → ℚ) (a : ℚ) (h : v 0 = a) : v = ![a] := by
  funext i
  fin_cases i
  simpa using h

/-- On `decay` with `dT_ = 1` the test fails at the old state `[1]`. -/
theorem decay_fails_at_0 :
    ¬ (EulerBackward.create 1 1).passes epsilon_double decay ![1] ![1] := by
  simp only [EulerBackward.passes, norm_1_one, norm_inf_one, EulerBackward.residual,
    EulerBackward.create, decay, EulerBackward.tolerance, epsilon_double]
  norm_num

/-- On `decay` with `dT_ = 1` the first Newton update leads from `[1]` to `[1/2]`. -/
theorem decay_update :
    (EulerBackward.create 1 1).update lu_solve_1 decay ![1] ![1] = ![1 / 2] := by
  apply vec_one_eq
  simp only [EulerBackward.update, lu_solve_1, EulerBackward.jacG, EulerBackward.residual,
    EulerBackward.create, decay]
  norm_num

/-- On `decay` with `dT_ = 1` the test passes at `[1/2]`. -/
theorem decay_passes_at_1 :
    (EulerBackward.create 1 1).passes epsilon_double decay ![1] ![1 / 2] := by
  simp only [EulerBackward.passes, norm_1_one, norm_inf_one, EulerBackward.residual,
    EulerBackward.create, decay, EulerBackward.tolerance, epsilon_double]
  norm_num

end NewtonExamples

section NewtonClaims

variable {K : Type} [LinearOrderedField K] {dim : Nat}

/-- Without `DMETHODS`: when every one of the 1000 tests fails, `time_step` returns the iterate
reached after the last update. -/
theorem time_step_all_fail (s : EulerBackward K) (epsilon : K)
    (lu_solve : Matrix (Fin dim) (Fin dim) K → (Fin dim → K) → (Fin dim → K))
    (system : OdeSystem K dim) (old_time : Fin dim → K)
    (hfail : ∀ i, i < 1000 →
      ¬ s.passes epsilon system old_time (s.iterate lu_solve system old_time i)) :
    s.time_step false epsilon lu_solve system old_time
      = .ok (s.iterate lu_solve system old_time 1000) := by
  simp only [EulerBackward.time_step, Bool.false_eq_true, if_false, EulerBackward.max_iter]
  rw [loop_all_fail s epsilon lu_solve system old_time 1000 old_time hfail]
  rfl

theorem cubic_fails_at_1 :
    ¬ (EulerBackward.create 1 (1 : ℚ)).passes epsilon_double cubic ![1] ![1] := by
  simp only [EulerBackward.passes, norm_1_one, norm_inf_one, EulerBackward.residual,
    EulerBackward.create, cubic, EulerBackward.tolerance, epsilon_double]
  norm_num

theorem cubic_fails_at_0 :
    ¬ (EulerBackward.create 1 (1 : ℚ)).passes epsilon_double cubic ![1] ![0] := by
  simp only [EulerBackward.passes, norm_1_one, norm_inf_one, EulerBackward.residual,
    EulerBackward.create, cubic, EulerBackward.tolerance, epsilon_double]
  norm_num

theorem cubic_update_1 :
    (EulerBackward.create 1 (1 : ℚ)).update lu_solve_1 cubic ![1] ![1] = ![0] := by
  apply vec_one_eq
  simp only [EulerBackward.update, lu_solve_1, EulerBackward.jacG, EulerBackward.residual,
    EulerBackward.create, cubic]
  norm_num

theorem cubic_update_0 :
    (EulerBackward.create 1 (1 : ℚ)).update lu_solve_1 cubic ![1] ![0] = ![1] := by
  apply vec_one_eq
  simp only [EulerBackward.update, lu_solve_1, EulerBackward.jacG, EulerBackward.residual,
    EulerBackward.create, cubic]
  norm_num

/-- On `cubic` the Newton iterates alternate: `[1]` at even and `[0]` at odd indices. -/
theorem cubic_iterate (k : Nat) :
    (EulerBackward.create 1 (1 : ℚ)).iterate lu_solve_1 cubic ![1] (2 * k) = ![1] ∧
      (EulerBackward.create 1 (1 : ℚ)).iterate lu_solve_1 cubic ![1] (2 * k + 1) = ![0] := by
  have hsucc : ∀ n, (EulerBackward.create 1 (1 : ℚ)).iterate lu_solve_1 cubic ![1] (n + 1) =
      (EulerBackward.create 1 (1 : ℚ)).update lu_solve_1 cubic ![1]
        ((EulerBackward.create 1 (1 : ℚ)).iterate lu_solve_1 cubic ![1] n) := by
    intro n
    simp only [EulerBackward.iterate, Function.iterate_succ_apply']
  induction k with
  | zero =>
    have h0 : (EulerBackward.create 1 (1 : ℚ)).iterate lu_solve_1 cubic ![1] (2 * 0) = ![1] := rfl
    refine ⟨h0, ?_⟩
    rw [hsucc, h0, cubic_update_1]
  | succ k ih =>
    have h2 : (EulerBackward.create 1 (1 : ℚ)).iterate lu_solve_1 cubic ![1] (2 * (k + 1))
        = ![1] := by
      rw [show 2 * (k + 1) = (2 * k + 1) + 1 by ring, hsucc, ih.2, cubic_update_0]
    refine ⟨h2, ?_⟩
    rw [hsucc, h2, cubic_update_1]

/-- On `cubic` no Newton iterate passes the convergence test. -/
theorem cubic_never_passes (i : Nat) :
    ¬ (EulerBackward.create 1 (1 : ℚ)).passes epsilon_double cubic ![1]
      ((EulerBackward.create 1 (1 : ℚ)).iterate lu_solve_1 cubic ![1] i) := by
  rcases Nat.even_or_odd' i with ⟨k, hk | hk⟩
  · rw [hk, (cubic_iterate k).1]
    exact cubic_fails_at_1
  · rw [hk, (cubic_iterate k).2]
    exact cubic_fails_at_0

end NewtonClaims

/-- C8, evaluated where the code departs from it: on the system `x' = -x` with `dT_ = 1`, old
state `[1]` and the tolerance of `double`, the convergence test fails at iteration 0 and passes at
iteration 1, at the iterate `[1/2]`.  Built with `DMETHODS`, `time_step` then ends in
`std::exit(1)` instead of returning that iterate; built without it returns `[1/2]`. -/
theorem C8_dmethods_exit_after_convergence :
    ¬ (EulerBackward.create 1 (1 : ℚ)).passes epsilon_double decay ![1]
        ((EulerBackward.create 1 (1 : ℚ)).iterate lu_solve_1 decay ![1] 0) ∧
      (EulerBackward.create 1 (1 : ℚ)).iterate lu_solve_1 decay ![1] 1 = ![1 / 2] ∧
      (EulerBackward.create 1 (1 : ℚ)).passes epsilon_double decay ![1]
        ((EulerBackward.create 1 (1 : ℚ)).iterate lu_solve_1 decay ![1] 1) ∧
      (EulerBackward.create 1 (1 : ℚ)).time_step true epsilon_double lu_solve_1 decay ![1]
        = .error .exit1 ∧
      (EulerBackward.create 1 (1 : ℚ)).time_step false epsilon_double lu_solve_1 decay ![1]
        = .ok ![1 / 2] := by
  have h0 : (EulerBackward.create 1 (1 : ℚ)).iterate lu_solve_1 decay ![1] 0 = ![1] := rfl
  have h1 : (EulerBackward.create 1 (1 : ℚ)).iterate lu_solve_1 decay ![1] 1 = ![1 / 2] := by
    simp only [EulerBackward.iterate, Function.iterate_succ_apply', Function.iterate_zero, id_eq,
      decay_update]
  have hf : ¬ (EulerBackward.create 1 (1 : ℚ)).passes epsilon_double decay ![1]
      ((EulerBackward.create 1 (1 : ℚ)).iterate lu_solve_1 decay ![1] 0) := by
    rw [h0]
    exact decay_fails_at_0
  have hp : (EulerBackward.create 1 (1 : ℚ)).passes epsilon_double decay ![1]
      ((EulerBackward.create 1 (1 : ℚ)).iterate lu_solve_1 decay ![1] 1) := by
    rw [h1]
    exact decay_passes_at_1
  refine ⟨hf, h1, hp, time_step_dmethods _ _ _ _ _, ?_⟩
  rw [← h1]
  refine (time_step_first_pass _ _ _ _ _ 1 (by norm_num) hp ?_).1
  intro j hj
  obtain rfl : j = 0 := by omega
  exact hf

/-- C9, as stated, fails: on the system `x' = -x^3 + 3x - 3` with `dT_ = 1`, old state `[1]` and
the tolerance of `double`, the convergence test fails at every one of the 1000 Newton iterations,
and `time_step` built without `DMETHODS` returns the state `[1]` all the same. -/
theorem C9_returns_without_convergence :
    (∀ i, i < 1000 →
        ¬ (EulerBackward.create 1 (1 : ℚ)).passes epsilon_double cubic ![1]
          ((EulerBackward.create 1 (1 : ℚ)).iterate lu_solve_1 cubic ![1] i)) ∧
      (EulerBackward.create 1 (1 : ℚ)).time_step false epsilon_double lu_solve_1 cubic ![1]
        = .ok ![1] ∧
      ¬ ((¬ ∃ y, (EulerBackward.create 1 (1 : ℚ)).time_step false epsilon_double lu_solve_1
            cubic ![1] = .ok y) ↔
          ∀ i, i < 1000 →
            ¬ (EulerBackward.create 1 (1 : ℚ)).passes epsilon_double cubic ![1]
              ((EulerBackward.create 1 (1 : ℚ)).iterate lu_solve_1 cubic ![1] i)) := by
  have hfail : ∀ i, i < 1000 →
      ¬ (EulerBackward.create 1 (1 : ℚ)).passes epsilon_double cubic ![1]
        ((EulerBackward.create 1 (1 : ℚ)).iterate lu_solve_1 cubic ![1] i) :=
    fun i _ => cubic_never_passes i
  have hret : (EulerBackward.create 1 (1 : ℚ)).time_step false epsilon_double lu_solve_1
      cubic ![1] = .ok ![1] := by
    rw [time_step_all_fail _ _ _ _ _ hfail, show 1000 = 2 * 500 by norm_num,
      (cubic_iterate 500).1]
  exact ⟨hfail, hret, fun hiff => hiff.mpr hfail ⟨_, hret⟩⟩

/-- C9, amended: built without `DMETHODS`, `EulerBackward::time_step` never ends in a failure: it
returns a state on every input, and when the convergence test fails at every one of the 1000
Newton iterations that state is the iterate left by the last update.  Built with `DMETHODS` it
ends in the fatal `std::exit(1)` whenever the test fails at every one of the 1000 iterations. -/
theorem C9_failure_only_with_dmethods {K : Type} [LinearOrderedField K] {dim : Nat}
    (s : EulerBackward K) (epsilon : K)
    (lu_solve : Matrix (Fin dim) (Fin dim) K → (Fin dim → K) → (Fin dim → K))
    (system : OdeSystem K dim) (old_time : Fin dim → K) :
    (∃ y, s.time_step false epsilon lu_solve system old_time = .ok y) ∧
      ((∀ i, i < 1000 →
          ¬ s.passes epsilon system old_time (s.iterate lu_solve system old_time i)) →
        s.time_step false epsilon lu_solve system old_time
            = .ok (s.iterate lu_solve system old_time 1000) ∧
          s.time_step true epsilon lu_solve system old_time = .error .exit1) := by
  refine ⟨⟨_, rfl⟩, fun hfail => ⟨time_step_all_fail s epsilon lu_solve system old_time hfail,
    time_step_dmethods s epsilon lu_solve system old_time⟩⟩

/-- C9, amended, at the system `x' = -x^3 + 3x - 3` with `dT_ = 1` and old state `[1]`, where
every one of the 1000 tests fails. -/
theorem C9_failure_only_with_dmethods_witness :
    (EulerBackward.create 1 (1 : ℚ)).time_step false epsilon_double lu_solve_1 cubic ![1]
        = .ok ((EulerBackward.create 1 (1 : ℚ)).iterate lu_solve_1 cubic ![1] 1000) ∧
      (EulerBackward.create 1 (1 : ℚ)).time_step true epsilon_double lu_solve_1 cubic ![1]
        = .error .exit1 :=
  (C9_failure_only_with_dmethods (EulerBackward.create 1 (1 : ℚ)) epsilon_double lu_solve_1
    cubic ![1]).2 (fun i _ => cubic_never_passes i)

/-- C10 at the sample model, explicit Euler with `N = 4`, `T = 1`, and a zero buffer of shape
5 by 5. -/
theorem C10_solve_columns_witness :
    ∃ out, (OdeSolver.create (fun n t => (EulerForward.create n t).scheme) 4 (1 : ℚ)).solve 0
        siqrd.sample_model.toOdeSystem (zero_buffer 5 5) = .ok out ∧
      out.column 5 0 = siqrd.sample_model.toOdeSystem.initial_condition ∧
      ∀ j, j ≤ 4 →
        OdeSolver.trajectory (EulerForward.create 4 (1 : ℚ)).scheme
          siqrd.sample_model.toOdeSystem j = .ok (out.column 5 j) := by
  have h := C10_solve_columns
    (OdeSolver.create (fun n t => (EulerForward.create n t).scheme) 4 (1 : ℚ)) 0
    siqrd.sample_model.toOdeSystem (zero_buffer 5 5) rfl rfl
  obtain ⟨out, hout⟩ := h.2 (fun x => ⟨_, rfl⟩)
  exact ⟨out, hout, (h.1 out hout).1, (h.1 out hout).2.2⟩

end ode

namespace ode

section SolverFailure

variable {K : Type} {dim : Nat}

open OdeSolver

/-- A failure of the loop of `solve` is the failure of one of its `time_step` calls. -/
theorem steps_error (method_ : SchemeType K dim) (ode_sys : OdeSystem K dim) :
    ∀ (k step : Nat) (m : Buffer K) (e : Failure), steps method_ ode_sys k step m = .error e →
      ∃ x, method_.time_step ode_sys x = .error e := by
  intro k
  induction k with
  | zero => intro step m e h; simp [steps] at h
  | succ k ih =>
    intro step m e h
    simp only [steps] at h
    cases hts : method_.time_step ode_sys (m.column dim step) with
    | error e2 =>
      simp only [hts, Except.error.injEq] at h
      exact ⟨_, h ▸ hts⟩
    | ok new_time =>
      simp only [hts] at h
      exact ih _ _ e h

/-- On a buffer of the wrong shape `solve` ends in a failed assertion. -/
theorem solve_wrong_shape (s : OdeSolver K dim) (quiet_NaN : K) (ode_sys : OdeSystem K dim)
    (results_matrix : Buffer K)
    (h : ¬ (results_matrix.size1 = dim ∧ results_matrix.size2 = s.N_ + 1)) :
    s.solve quiet_NaN ode_sys results_matrix = .error .assertion := by
  unfold solve
  by_cases h1 : dim ≠ results_matrix.size1
  · rw [if_pos h1]
  · rw [if_neg h1]
    have h1' : results_matrix.size1 = dim := (not_not.mp h1).symm
    rw [if_pos (fun h2 => h ⟨h1', h2⟩)]

/-- On a buffer of the right shape a failure of `solve` is the failure of a `time_step`. -/
theorem solve_error_right_shape (s : OdeSolver K dim) (quiet_NaN : K)
    (ode_sys : OdeSystem K dim) (results_matrix : Buffer K)
    (h1 : results_matrix.size1 = dim) (h2 : results_matrix.size2 = s.N_ + 1) (e : Failure)
    (h : s.solve quiet_NaN ode_sys results_matrix = .error e) :
    ∃ x, s.method_.time_step ode_sys x = .error e := by
  unfold solve at h
  rw [if_neg (by simp [h1]), if_neg (by simp [h2])] at h
  exact steps_error _ _ _ _ _ _ h

end SolverFailure

/-- C11: `OdeSolver::solve` ends in the fatal assertion failure, before anything is written, if
and only if the buffer does not have exactly `state_dim` rows and `step_count + 1` columns.  The
"if" holds for every scheme; the "only if" for every scheme whose `time_step` ends in no failed
assertion; and with a scheme whose `time_step` always returns, `solve` fails in any way if and
only if the buffer has the wrong shape. -/
theorem C11_solve_fails_iff_wrong_shape {K : Type} {dim : Nat} (s : OdeSolver K dim)
    (quiet_NaN : K) (ode_sys : OdeSystem K dim) (results_matrix : Buffer K) :
    (¬ (results_matrix.size1 = dim ∧ results_matrix.size2 = s.N_ + 1) →
        s.solve quiet_NaN ode_sys results_matrix = .error .assertion) ∧
      ((∀ x, s.method_.time_step ode_sys x ≠ .error .assertion) →
        (s.solve quiet_NaN ode_sys results_matrix = .error .assertion ↔
          ¬ (results_matrix.size1 = dim ∧ results_matrix.size2 = s.N_ + 1))) ∧
      ((∀ x, ∃ y, s.method_.time_step ode_sys x = .ok y) →
        ((∃ e, s.solve quiet_NaN ode_sys results_matrix = .error e) ↔
          ¬ (results_matrix.size1 = dim ∧ results_matrix.size2 = s.N_ + 1))) := by
  refine ⟨solve_wrong_shape s quiet_NaN ode_sys results_matrix, fun hna => ⟨fun h hs => ?_,
    solve_wrong_shape s quiet_NaN ode_sys results_matrix⟩, fun htot => ⟨fun h hs => ?_,
    fun h => ⟨_, solve_wrong_shape s quiet_NaN ode_sys results_matrix h⟩⟩⟩
  · obtain ⟨x, hx⟩ := solve_error_right_shape s quiet_NaN ode_sys results_matrix hs.1 hs.2 _ h
    exact hna x hx
  · obtain ⟨e, he⟩ := h
    obtain ⟨x, hx⟩ := solve_error_right_shape s quiet_NaN ode_sys results_matrix hs.1 hs.2 _ he
    obtain ⟨y, hy⟩ := htot x
    rw [hy] at hx
    exact absurd hx (by simp)

/-- C11 at the sample model with explicit Euler, `N = 4`, `T = 1`: a zero buffer of shape 5 by 4
(one column short) makes `solve` fail, and a failure of `solve` means a wrong shape. -/
theorem C11_solve_fails_iff_wrong_shape_witness :
    (OdeSolver.create (fun n t => (EulerForward.create n t).scheme) 4 (1 : ℚ)).solve 0
        siqrd.sample_model.toOdeSystem (zero_buffer 5 4) = .error .assertion ∧
      ((∃ e, (OdeSolver.create (fun n t => (EulerForward.create n t).scheme) 4 (1 : ℚ)).solve 0
          siqrd.sample_model.toOdeSystem (zero_buffer 5 5) = .error e) ↔
        ¬ ((zero_buffer 5 5).size1 = 5 ∧ (zero_buffer 5 5).size2 = 4 + 1)) :=
  ⟨(C11_solve_fails_iff_wrong_shape
      (OdeSolver.create (fun n t => (EulerForward.create n t).scheme) 4 (1 : ℚ)) 0
      siqrd.sample_model.toOdeSystem (zero_buffer 5 4)).1 (by decide),
    (C11_solve_fails_iff_wrong_shape
      (OdeSolver.create (fun n t => (EulerForward.create n t).scheme) 4 (1 : ℚ)) 0
      siqrd.sample_model.toOdeSystem (zero_buffer 5 5)).2.2 (fun _ => ⟨_, rfl⟩)⟩

end ode

namespace optimization

section LineSearchLemmas

variable {K : Type} [LinearOrderedField K] {dim : Nat}

theorem inner_prod_comm (u v : Fin dim → K) : inner_prod u v = inner_prod v u := by
  simp only [inner_prod, mul_comm]

/-- What the loop of the line search has done when it is left: `k` halvings, each after a trial
above `min_step_` that was refused; and the last trial was accepted unless the budget is used up
or the step is no longer above `min_step_`. -/
theorem LineSearch.loop_spec (ls : LineSearch K) (pk dk : Fin dim → K) (target_k : K)
    (grad_target_k : Fin dim → K) (target : target_functor K dim) :
    ∀ (fuel i : Nat) (s0 : K), ∃ k, k ≤ fuel ∧
      LineSearch.loop ls pk dk target_k grad_target_k target fuel i s0 = (s0 / 2 ^ k, i + k) ∧
      (∀ j, j < k → s0 / 2 ^ j > ls.min_step_ ∧
        ¬ LineSearch.accepts pk dk target_k grad_target_k target (s0 / 2 ^ j)) ∧
      (k < fuel → s0 / 2 ^ k > ls.min_step_ →
        LineSearch.accepts pk dk target_k grad_target_k target (s0 / 2 ^ k)) := by
  intro fuel
  induction fuel with
  | zero =>
    intro i s0
    exact ⟨0, le_rfl, by simp [LineSearch.loop], fun j hj => absurd hj (by omega),
      fun h => absurd h (by omega)⟩
  | succ fuel ih =>
    intro i s0
    by_cases hmin : s0 > ls.min_step_
    · by_cases hacc : LineSearch.accepts pk dk target_k grad_target_k target s0
      · refine ⟨0, Nat.zero_le _, by simp [LineSearch.loop, hmin, hacc],
          fun j hj => absurd hj (by omega), fun _ _ => by simpa using hacc⟩
      · obtain ⟨k, hk, hloop, hrej, hlast⟩ := ih (i + 1) (s0 / 2)
        have hpow : ∀ j : Nat, s0 / 2 / 2 ^ j = s0 / 2 ^ (j + 1) := by
          intro j
          rw [pow_succ, div_div, mul_comm]
        refine ⟨k + 1, by omega, ?_, ?_, ?_⟩
        · simp only [LineSearch.loop, if_pos hmin, if_neg hacc, hloop, hpow]
          congr 1
          omega
        · intro j hj
          cases j with
          | zero => simpa using ⟨hmin, hacc⟩
          | succ j =>
            rw [← hpow]
            exact hrej j (by omega)
        · intro h1 h2
          rw [← hpow] at h2 ⊢
          exact hlast (by omega) h2
    · refine ⟨0, Nat.zero_le _, by simp [LineSearch.loop, hmin],
        fun j hj => absurd hj (by omega), fun _ h => ?_⟩
      simp only [pow_zero, div_one] at h
      exact absurd h hmin

/-- The same for `operator()`: the loop entered with `i = 0` and a budget of 100. -/
theorem LineSearch.search_spec (ls : LineSearch K) (pk dk : Fin dim → K) (target_k : K)
    (grad_target_k : Fin dim → K) (target : target_functor K dim) (step_size : K) :
    ∃ k, k ≤ 100 ∧
      ls.search pk dk target_k grad_target_k target step_size = (step_size / 2 ^ k, k) ∧
      (∀ j, j < k → step_size / 2 ^ j > ls.min_step_ ∧
        ¬ LineSearch.accepts pk dk target_k grad_target_k target (step_size / 2 ^ j)) ∧
      (k < 100 → step_size / 2 ^ k > ls.min_step_ →
        LineSearch.accepts pk dk target_k grad_target_k target (step_size / 2 ^ k)) := by
  obtain ⟨k, hk, hloop, hrej, hlast⟩ :=
    LineSearch.loop_spec ls pk dk target_k grad_target_k target 100 0 step_size
  exact ⟨k, hk, by rw [LineSearch.search, hloop, Nat.zero_add], hrej, hlast⟩

/-- The condition tested by the line search, written out. -/
theorem LineSearch.accepts_iff (pk dk : Fin dim → K) (target_k : K)
    (grad_target_k : Fin dim → K) (target : target_functor K dim) (s : K) :
    LineSearch.accepts pk dk target_k grad_target_k target s ↔
      (target.call (fun i => pk i + s * dk i)
          ≤ target_k + 1e-4 * s * (∑ i, grad_target_k i * dk i) ∧
        -(∑ i, dk i * target.gradient (fun i => pk i + s * dk i)
            (target.call (fun i => pk i + s * dk i)) i)
          ≤ -0.9 * (∑ i, grad_target_k i * dk i)) := by
  have h : inner_prod dk grad_target_k = ∑ i, grad_target_k i * dk i := by
    simp only [inner_prod, mul_comm]
  simp only [LineSearch.accepts, LineSearch.C1, LineSearch.C2, neg_one_mul, h]
  simp only [inner_prod]

end LineSearchLemmas

end optimization

namespace optimization

/-- C15: for every objective, position, direction, `min_step` and `initial_step > 0`, the step
returned by `LineSearch::operator()` is `initial_step / 2^k` for some `k` with `0 ≤ k ≤ 100`,
hence never exceeds `initial_step`; and whenever `initial_step > min_step` the returned step is
strictly greater than `min_step / 2`. -/
theorem C15_step_bounds {K : Type} [LinearOrderedField K] {dim : Nat} (ls : LineSearch K)
    (pk dk : Fin dim → K) (target_k : K) (grad_target_k : Fin dim → K)
    (target : target_functor K dim) (initial_step : K) (hpos : 0 < initial_step) :
    (∃ k, k ≤ 100 ∧
        ls.call pk dk target_k grad_target_k target initial_step = initial_step / 2 ^ k) ∧
      ls.call pk dk target_k grad_target_k target initial_step ≤ initial_step ∧
      (initial_step > ls.min_step_ →
        ls.call pk dk target_k grad_target_k target initial_step > ls.min_step_ / 2) := by
  obtain ⟨k, hk, hs, hrej, -⟩ :=
    LineSearch.search_spec ls pk dk target_k grad_target_k target initial_step
  have hcall : ls.call pk dk target_k grad_target_k target initial_step
      = initial_step / 2 ^ k := by
    rw [LineSearch.call, hs]
  have h2 : (1 : K) ≤ 2 ^ k := one_le_pow₀ (by norm_num)
  refine ⟨⟨k, hk, hcall⟩, ?_, fun hmin => ?_⟩
  · rw [hcall]
    exact div_le_self hpos.le h2
  · rw [hcall]
    cases k with
    | zero =>
      simp only [pow_zero, div_one]
      rcases le_or_lt 0 ls.min_step_ with h0 | h0
      · linarith
      · linarith
    | succ k =>
      have h := (hrej k (Nat.lt_succ_self k)).1
      rw [pow_succ, ← div_div]
      exact div_lt_div_of_pos_right h (by norm_num)

/-- C15 on the parabola from position `[1]` along `[-2]` with `min_step = 1/100` and
`initial_step = 1`. -/
theorem C15_step_bounds_witness :
    (∃ k, k ≤ 100 ∧
        (LineSearch.create (1 / 100 : ℚ)).call ![1] ![-2] 1 ![2] parabola 1 = 1 / 2 ^ k) ∧
      (LineSearch.create (1 / 100 : ℚ)).call ![1] ![-2] 1 ![2] parabola 1 ≤ 1 ∧
      ((1 : ℚ) > (LineSearch.create (1 / 100 : ℚ)).min_step_ →
        (LineSearch.create (1 / 100 : ℚ)).call ![1] ![-2] 1 ![2] parabola 1
          > (LineSearch.create (1 / 100 : ℚ)).min_step_ / 2) :=
  C15_step_bounds (LineSearch.create (1 / 100 : ℚ)) ![1] ![-2] 1 ![2] parabola 1 (by norm_num)

end optimization

namespace optimization

section ParabolaSearch

/-- One pass through the loop of the line search. -/
theorem LineSearch.loop_succ {K : Type} [LinearOrderedField K] {dim : Nat} (ls : LineSearch K)
    (pk dk : Fin dim → K) (target_k : K) (grad_target_k : Fin dim → K)
    (target : target_functor K dim) (fuel i : Nat) (s : K) :
    LineSearch.loop ls pk dk target_k grad_target_k target (fuel + 1) i s =
      if s > ls.min_step_ then
        if LineSearch.accepts pk dk target_k grad_target_k target s then (s, i)
        else LineSearch.loop ls pk dk target_k grad_target_k target fuel (i + 1) (s / 2)
      else (s, i) := by
  simp only [LineSearch.loop]

theorem parabola_rejects_1 :
    ¬ LineSearch.accepts ![1] ![-2] (1 : ℚ) ![2] parabola 1 := by
  rw [LineSearch.accepts_iff]
  simp [parabola]
  norm_num

theorem parabola_accepts_half :
    LineSearch.accepts ![1] ![-2] (1 : ℚ) ![2] parabola (1 / 2) := by
  rw [LineSearch.accepts_iff]
  simp [parabola]
  norm_num

/-- On the parabola from `[1]` along `[-2]` the trial `1` is refused and the trial `1/2` is
accepted. -/
theorem parabola_search :
    (LineSearch.create (1 / 100 : ℚ)).search ![1] ![-2] 1 ![2] parabola 1 = (1 / 2, 1) := by
  have h1 : (1 : ℚ) > (LineSearch.create (1 / 100 : ℚ)).min_step_ := by
    norm_num [LineSearch.create]
  have h2 : (1 / 2 : ℚ) > (LineSearch.create (1 / 100 : ℚ)).min_step_ := by
    norm_num [LineSearch.create]
  rw [LineSearch.search, show (100 : ℕ) = 99 + 1 from rfl, LineSearch.loop_succ, if_pos h1,
    if_neg parabola_rejects_1, show (99 : ℕ) = 98 + 1 from rfl, LineSearch.loop_succ, if_pos h2,
    if_pos parabola_accepts_half]

end ParabolaSearch

/-- C16: for every objective, position, direction and `initial_step`, if the step `s` returned by
`LineSearch::operator()` is greater than `min_step` and was reached after fewer than 100
halvings, then `s` satisfies both acceptance conditions:
`f(position + s*direction) ≤ f_at_position + 1e-4 * s * (grad_at_position . direction)` and
`-(direction . grad(position + s*direction)) ≤ -0.9 * (grad_at_position . direction)`. -/
theorem C16_returned_step_accepted {K : Type} [LinearOrderedField K] {dim : Nat}
    (ls : LineSearch K) (pk dk : Fin dim → K) (target_k : K) (grad_target_k : Fin dim → K)
    (target : target_functor K dim) (initial_step : K)
    (hcount : (ls.search pk dk target_k grad_target_k target initial_step).2 < 100)
    (hmin : ls.call pk dk target_k grad_target_k target initial_step > ls.min_step_) :
    let s := ls.call pk dk target_k grad_target_k target initial_step
    target.call (fun i => pk i + s * dk i)
        ≤ target_k + 1e-4 * s * (∑ i, grad_target_k i * dk i) ∧
      -(∑ i, dk i * target.gradient (fun i => pk i + s * dk i)
          (target.call (fun i => pk i + s * dk i)) i)
        ≤ -0.9 * (∑ i, grad_target_k i * dk i) := by
  intro s
  obtain ⟨k, -, hs, -, hlast⟩ :=
    LineSearch.search_spec ls pk dk target_k grad_target_k target initial_step
  have hcall : s = initial_step / 2 ^ k := by
    simp only [s, LineSearch.call, hs]
  rw [hs] at hcount
  rw [← LineSearch.accepts_iff, hcall]
  exact hlast hcount (hcall ▸ hmin)

/-- C16 on the parabola from `[1]` along `[-2]` with `min_step = 1/100` and `initial_step = 1`:
the step returned is `1/2`, reached after one halving. -/
theorem C16_returned_step_accepted_witness :
    (LineSearch.create (1 / 100 : ℚ)).call ![1] ![-2] 1 ![2] parabola 1 = 1 / 2 ∧
      parabola.call (fun i => (![1] : Fin 1 → ℚ) i
          + (LineSearch.create (1 / 100 : ℚ)).call ![1] ![-2] 1 ![2] parabola 1
            * (![-2] : Fin 1 → ℚ) i)
        ≤ 1 + 1e-4 * (LineSearch.create (1 / 100 : ℚ)).call ![1] ![-2] 1 ![2] parabola 1
            * (∑ i, (![2] : Fin 1 → ℚ) i * (![-2] : Fin 1 → ℚ) i) :=
  ⟨by rw [LineSearch.call, parabola_search],
    (C16_returned_step_accepted (LineSearch.create (1 / 100 : ℚ)) ![1] ![-2] 1 ![2] parabola 1
      (by rw [parabola_search]; norm_num)
      (by rw [LineSearch.call, parabola_search]; norm_num [LineSearch.create])).1⟩

/-- C17: for every objective, position, direction and `initial_step`, the step returned by
`LineSearch::operator()` is `initial_step / 2^k` with `k ≤ 100` the number of halvings made, and
every earlier trial `initial_step / 2^j`, `j < k`, violated the Armijo condition or the one-sided
curvature condition: the search stops at the first trial of the halving sequence that satisfies
both.  When `initial_step ≠ 0` the same holds for any `k` with which the returned step is
`initial_step / 2^k`. -/
theorem C17_first_accepted_trial {K : Type} [LinearOrderedField K] {dim : Nat}
    (ls : LineSearch K) (pk dk : Fin dim → K) (target_k : K) (grad_target_k : Fin dim → K)
    (target : target_functor K dim) (initial_step : K) :
    let r := ls.search pk dk target_k grad_target_k target initial_step
    let violated : K → Prop := fun s =>
      ¬ (target.call (fun i => pk i + s * dk i)
          ≤ target_k + 1e-4 * s * (∑ i, grad_target_k i * dk i)) ∨
      ¬ (-(∑ i, dk i * target.gradient (fun i => pk i + s * dk i)
            (target.call (fun i => pk i + s * dk i)) i)
          ≤ -0.9 * (∑ i, grad_target_k i * dk i))
    r.2 ≤ 100 ∧ r.1 = initial_step / 2 ^ r.2 ∧
      (∀ j, j < r.2 → violated (initial_step / 2 ^ j)) ∧
      (initial_step ≠ 0 → ∀ k,
        ls.call pk dk target_k grad_target_k target initial_step = initial_step / 2 ^ k →
        ∀ j, j < k → violated (initial_step / 2 ^ j)) := by
  intro r violated
  obtain ⟨k, hk, hs, hrej, -⟩ :=
    LineSearch.search_spec ls pk dk target_k grad_target_k target initial_step
  have hviol : ∀ j, j < k → violated (initial_step / 2 ^ j) := by
    intro j hj
    have h := (hrej j hj).2
    rw [LineSearch.accepts_iff] at h
    exact not_and_or.mp h
  have hr : r = (initial_step / 2 ^ k, k) := hs
  refine ⟨by rw [hr]; exact hk, by rw [hr], by rw [hr]; exact hviol, fun h0 k2 hk2 => ?_⟩
  have hcall : ls.call pk dk target_k grad_target_k target initial_step
      = initial_step / 2 ^ k := by
    rw [LineSearch.call, hs]
  rw [hcall] at hk2
  have hpow : (2 : K) ^ k = 2 ^ k2 := by
    have h2k : (2 : K) ^ k ≠ 0 := pow_ne_zero _ (by norm_num)
    have h2k2 : (2 : K) ^ k2 ≠ 0 := pow_ne_zero _ (by norm_num)
    rw [div_eq_div_iff h2k h2k2] at hk2
    exact (mul_left_cancel₀ h0 hk2).symm
  have hkk : k = k2 := pow_right_injective₀ (by norm_num) (by norm_num) hpow
  rw [← hkk]
  exact hviol

end optimization

namespace optimization

section BFGSLemmas

variable {K : Type} [LinearOrderedField K] {dim : Nat}
variable (norm_2 : (Fin dim → K) → K)
variable (lu_solve : Matrix (Fin dim) (Fin dim) K → (Fin dim → K) → (Fin dim → K))
variable (target_fun : target_functor K dim) (tolerance : K)

/-- The loop of `BFGS` leaves at the first state that passes the convergence check. -/
theorem BFGS_loop_first_pass :
    ∀ (fuel k : Nat) (st : BFGS_state K dim), k < fuel →
      BFGS_converged norm_2 lu_solve target_fun tolerance
        ((BFGS_update lu_solve target_fun tolerance)^[k] st) →
      (∀ j, j < k → ¬ BFGS_converged norm_2 lu_solve target_fun tolerance
        ((BFGS_update lu_solve target_fun tolerance)^[j] st)) →
      BFGS_loop norm_2 lu_solve target_fun tolerance fuel st
        = (BFGS_update lu_solve target_fun tolerance)^[k] st := by
  intro fuel
  induction fuel with
  | zero => intro k st hk; omega
  | succ fuel ih =>
    intro k st hk hp hfail
    cases k with
    | zero =>
      have hp0 : BFGS_converged norm_2 lu_solve target_fun tolerance st := hp
      simp only [BFGS_loop, if_pos hp0, Function.iterate_zero, id_eq]
    | succ k =>
      have h0 : ¬ BFGS_converged norm_2 lu_solve target_fun tolerance st :=
        hfail 0 (Nat.succ_pos k)
      simp only [BFGS_loop, if_neg h0, Function.iterate_succ, Function.comp_apply]
      exact ih k _ (by omega) hp (fun j hj => hfail (j + 1) (by omega))

/-- The loop of `BFGS` runs through all its iterations when no state passes the check. -/
theorem BFGS_loop_all_fail :
    ∀ (fuel : Nat) (st : BFGS_state K dim),
      (∀ j, j < fuel → ¬ BFGS_converged norm_2 lu_solve target_fun tolerance
        ((BFGS_update lu_solve target_fun tolerance)^[j] st)) →
      BFGS_loop norm_2 lu_solve target_fun tolerance fuel st
        = (BFGS_update lu_solve target_fun tolerance)^[fuel] st := by
  intro fuel
  induction fuel with
  | zero => intro st _; rfl
  | succ fuel ih =>
    intro st hfail
    have h0 : ¬ BFGS_converged norm_2 lu_solve target_fun tolerance st :=
      hfail 0 (Nat.succ_pos fuel)
    simp only [BFGS_loop, if_neg h0, Function.iterate_succ, Function.comp_apply]
    exact ih _ (fun j hj => hfail (j + 1) (by omega))

theorem BFGS_iterate_succ (x0 : Fin dim → K) (H0 : Matrix (Fin dim) (Fin dim) K) (k : Nat) :
    BFGS_iterate lu_solve target_fun tolerance x0 H0 (k + 1)
      = BFGS_update lu_solve target_fun tolerance
          (BFGS_iterate lu_solve target_fun tolerance x0 H0 k) := by
  simp only [BFGS_iterate, Function.iterate_succ_apply']

/-- At the top of every iteration `target_k` and `grad_target_k` are the target value and the
gradient at `variables`. -/
theorem BFGS_iterate_grad (x0 : Fin dim → K) (H0 : Matrix (Fin dim) (Fin dim) K) (k : Nat) :
    (BFGS_iterate lu_solve target_fun tolerance x0 H0 k).target_k
        = target_fun.call (BFGS_iterate lu_solve target_fun tolerance x0 H0 k).vars ∧
      (BFGS_iterate lu_solve target_fun tolerance x0 H0 k).grad_target_k
        = target_fun.gradient (BFGS_iterate lu_solve target_fun tolerance x0 H0 k).vars
            (target_fun.call (BFGS_iterate lu_solve target_fun tolerance x0 H0 k).vars) := by
  cases k with
  | zero => exact ⟨rfl, rfl⟩
  | succ k =>
    rw [BFGS_iterate_succ]
    exact ⟨rfl, rfl⟩

theorem prod_mv_one (v : Fin dim → K) : prod_mv (1 : Matrix (Fin dim) (Fin dim) K) v = v := by
  funext i
  simp [prod_mv, Matrix.one_apply]

end BFGSLemmas

/-- C18: in every BFGS iteration whose Hessian approximation `H` is invertible, the search
direction `d` satisfies `H*d = -gradient(variables)`, given that the LU factorisation and
substitution solve every invertible system; with the default identity Hessian the first
direction is exactly the negative gradient at the starting variables. -/
theorem C18_direction_solves {K : Type} [LinearOrderedField K] {dim : Nat}
    (lu_solve : Matrix (Fin dim) (Fin dim) K → (Fin dim → K) → (Fin dim → K))
    (target_fun : target_functor K dim)
    (hlu : ∀ A b, A.det ≠ 0 → prod_mv A (lu_solve A b) = b) :
    (∀ (tolerance : K) (x0 : Fin dim → K) (H0 : Matrix (Fin dim) (Fin dim) K) (k : Nat),
        (BFGS_iterate lu_solve target_fun tolerance x0 H0 k).hessian.det ≠ 0 →
        prod_mv (BFGS_iterate lu_solve target_fun tolerance x0 H0 k).hessian
            (BFGS_direction lu_solve (BFGS_iterate lu_solve target_fun tolerance x0 H0 k))
          = fun i => -target_fun.gradient
              (BFGS_iterate lu_solve target_fun tolerance x0 H0 k).vars
              (target_fun.call (BFGS_iterate lu_solve target_fun tolerance x0 H0 k).vars) i) ∧
      ∀ x0 : Fin dim → K,
        BFGS_direction lu_solve (BFGS_init target_fun x0 1)
          = fun i => -target_fun.gradient x0 (target_fun.call x0) i := by
  constructor
  · intro tolerance x0 H0 k hdet
    rw [BFGS_direction, hlu _ _ hdet, (BFGS_iterate_grad lu_solve target_fun tolerance x0 H0 k).2]
  · intro x0
    have h1 : (BFGS_init target_fun x0 1).hessian.det ≠ 0 := by
      simp [BFGS_init]
    have h := hlu (BFGS_init target_fun x0 1).hessian
      (fun i => -(BFGS_init target_fun x0 1).grad_target_k i) h1
    have hH : (BFGS_init target_fun x0 1).hessian = 1 := rfl
    rw [hH, prod_mv_one] at h
    rw [BFGS_direction, hH, h]
    rfl

end optimization

namespace optimization

/-- C19: for every objective, start and tolerance, BFGS stops at the first iteration `k` (below
the cap of 1000) whose line-search step `s_k` and direction `d_k` pass the check
`s_k * norm2(d_k) / norm2(x_k) < tolerance`, and returns `x_k` itself, the last step not being
applied; at every earlier iteration it sets `x_{j+1} = x_j + s_j * d_j`. -/
theorem C19_bfgs_stops_at_first_pass {K : Type} [LinearOrderedField K] {dim : Nat}
    (norm_2 : (Fin dim → K) → K)
    (lu_solve : Matrix (Fin dim) (Fin dim) K → (Fin dim → K) → (Fin dim → K))
    (target_fun : target_functor K dim) (tolerance : K)
    (x0 : Fin dim → K) (H0 : Matrix (Fin dim) (Fin dim) K) (k : Nat) (hk : k < 1000)
    (hpass : norm_2 (BFGS_iterate lu_solve target_fun tolerance x0 H0 k).vars ≠ 0 ∧
      BFGS_step_size lu_solve target_fun tolerance
          (BFGS_iterate lu_solve target_fun tolerance x0 H0 k)
        * norm_2 (BFGS_direction lu_solve (BFGS_iterate lu_solve target_fun tolerance x0 H0 k))
        / norm_2 (BFGS_iterate lu_solve target_fun tolerance x0 H0 k).vars < tolerance)
    (hfail : ∀ j, j < k →
      ¬ (norm_2 (BFGS_iterate lu_solve target_fun tolerance x0 H0 j).vars ≠ 0 ∧
        BFGS_step_size lu_solve target_fun tolerance
            (BFGS_iterate lu_solve target_fun tolerance x0 H0 j)
          * norm_2 (BFGS_direction lu_solve (BFGS_iterate lu_solve target_fun tolerance x0 H0 j))
          / norm_2 (BFGS_iterate lu_solve target_fun tolerance x0 H0 j).vars < tolerance)) :
    BFGS norm_2 lu_solve target_fun tolerance x0 H0
        = (BFGS_iterate lu_solve target_fun tolerance x0 H0 k).vars ∧
      ∀ j, j < k →
        (BFGS_iterate lu_solve target_fun tolerance x0 H0 (j + 1)).vars
          = fun i => (BFGS_iterate lu_solve target_fun tolerance x0 H0 j).vars i
              + BFGS_step_size lu_solve target_fun tolerance
                  (BFGS_iterate lu_solve target_fun tolerance x0 H0 j)
                * BFGS_direction lu_solve
                    (BFGS_iterate lu_solve target_fun tolerance x0 H0 j) i := by
  constructor
  · rw [BFGS, BFGS_max_iters,
      BFGS_loop_first_pass norm_2 lu_solve target_fun tolerance 1000 k _ hk hpass hfail]
    rfl
  · intro j _
    rw [BFGS_iterate_succ]
    rfl

/-- C20: in every BFGS iteration that does not leave the loop, with Hessian approximation `H`,
direction `d`, step `s` and `y = gradient(x + s*d) - gradient(x)`, the updated Hessian is
`H - outer(H*d, d^T*H)/((d^T*H) . d) + outer(y, y)/((d . y) * s)`: the first correction is not
scaled by `s`, the second is divided by `s`. -/
theorem C20_hessian_update {K : Type} [LinearOrderedField K] {dim : Nat}
    (lu_solve : Matrix (Fin dim) (Fin dim) K → (Fin dim → K) → (Fin dim → K))
    (target_fun : target_functor K dim) (tolerance : K)
    (x0 : Fin dim → K) (H0 : Matrix (Fin dim) (Fin dim) K) (k : Nat) :
    let st := BFGS_iterate lu_solve target_fun tolerance x0 H0 k
    let H := st.hessian
    let x := st.vars
    let d := BFGS_direction lu_solve st
    let s := BFGS_step_size lu_solve target_fun tolerance st
    let x_new : Fin dim → K := fun i => x i + s * d i
    let y : Fin dim → K := fun i =>
      target_fun.gradient x_new (target_fun.call x_new) i
        - target_fun.gradient x (target_fun.call x) i
    ∀ i j, (BFGS_iterate lu_solve target_fun tolerance x0 H0 (k + 1)).hessian i j
      = H i j - (∑ c, H i c * d c) * (∑ r, d r * H r j) / (∑ c, (∑ r, d r * H r c) * d c)
        + y i * y j / ((∑ c, d c * y c) * s) := by
  intro st H x d s x_new y i j
  have hg := (BFGS_iterate_grad lu_solve target_fun tolerance x0 H0 k).2
  rw [BFGS_iterate_succ]
  simp only [BFGS_update, outer_prod, prod_mv, prod_vm, inner_prod]
  rw [hg]
  simp only [st, H, x, d, s, x_new, y]
  ring

end optimization

namespace optimization

section BFGSExample

/-- The solver `lu_solve_1` solves every invertible system of one equation. -/
theorem lu_solve_1_correct (A : Matrix (Fin 1) (Fin 1) ℚ) (b : Fin 1 → ℚ) (h : A.det ≠ 0) :
    prod_mv A (ode.lu_solve_1 A b) = b := by
  have h0 : A 0 0 ≠ 0 := by simpa [Matrix.det_fin_one] using h
  funext i
  fin_cases i
  simp only [prod_mv, ode.lu_solve_1, Finset.univ_unique, Fin.default_eq_zero, Fin.isValue,
    Finset.sum_singleton, Fin.zero_eta]
  field_simp

/-- A first trial above `min_step_` that is accepted is returned, with no halving. -/
theorem LineSearch.search_first_trial {K : Type} [LinearOrderedField K] {dim : Nat}
    (ls : LineSearch K) (pk dk : Fin dim → K) (target_k : K) (grad_target_k : Fin dim → K)
    (target : target_functor K dim) (s : K) (h1 : s > ls.min_step_)
    (h2 : LineSearch.accepts pk dk target_k grad_target_k target s) :
    ls.search pk dk target_k grad_target_k target s = (s, 0) := by
  rw [LineSearch.search, show (100 : ℕ) = 99 + 1 from rfl, LineSearch.loop_succ, if_pos h1,
    if_pos h2]

/-- A first trial that is refused and a second that is accepted, both above `min_step_`: the
second is returned after one halving. -/
theorem LineSearch.search_second_trial {K : Type} [LinearOrderedField K] {dim : Nat}
    (ls : LineSearch K) (pk dk : Fin dim → K) (target_k : K) (grad_target_k : Fin dim → K)
    (target : target_functor K dim) (s : K) (h1 : s > ls.min_step_)
    (h2 : ¬ LineSearch.accepts pk dk target_k grad_target_k target s)
    (h3 : s / 2 > ls.min_step_)
    (h4 : LineSearch.accepts pk dk target_k grad_target_k target (s / 2)) :
    ls.search pk dk target_k grad_target_k target s = (s / 2, 1) := by
  rw [LineSearch.search, show (100 : ℕ) = 99 + 1 from rfl, LineSearch.loop_succ, if_pos h1,
    if_neg h2, show (99 : ℕ) = 98 + 1 from rfl, LineSearch.loop_succ, if_pos h3, if_pos h4]

theorem example_direction_0 :
    BFGS_direction ode.lu_solve_1 (BFGS_init shifted_parabola ![1] 1) = ![4] := by
  apply ode.vec_one_eq
  simp only [BFGS_direction, BFGS_init, ode.lu_solve_1, shifted_parabola]
  norm_num

theorem example_step_0 :
    BFGS_step_size ode.lu_solve_1 shifted_parabola (1 / 1000)
      (BFGS_init shifted_parabola ![1] 1) = 1 / 2 := by
  rw [BFGS_step_size, example_direction_0, LineSearch.call, LineSearch.search_second_trial]
  · simp [BFGS_max_step_size]
  · norm_num [LineSearch.create, BFGS_max_step_size]
  · rw [LineSearch.accepts_iff]
    simp [BFGS_init, shifted_parabola, BFGS_max_step_size]
    norm_num
  · norm_num [LineSearch.create, BFGS_max_step_size]
  · rw [LineSearch.accepts_iff]
    simp [BFGS_init, shifted_parabola, BFGS_max_step_size]
    norm_num

/-- The state of the example after the first update: `variables = [3]`, `hessian = [[2]]`,
target value `0` and gradient `[0]`. -/
theorem example_iterate_1 :
    BFGS_iterate ode.lu_solve_1 shifted_parabola (1 / 1000) ![1] 1 1
      = ⟨![3], fun _ _ => 2, 0, ![0]⟩ := by
  have hv : (fun i => (BFGS_init shifted_parabola ![1] 1).vars i
      + (1 / 2 : ℚ) * (![4] : Fin 1 → ℚ) i) = ![3] := by
    apply ode.vec_one_eq
    simp [BFGS_init]
    norm_num
  rw [BFGS_iterate_succ]
  simp only [BFGS_iterate, Function.iterate_zero, id_eq, BFGS_update, example_step_0,
    example_direction_0, hv]
  congr 1
  · funext i j
    fin_cases i
    fin_cases j
    simp [BFGS_init, shifted_parabola, outer_prod, inner_prod, prod_mv, prod_vm]
    norm_num
  · simp [shifted_parabola]
  · apply ode.vec_one_eq
    simp [shifted_parabola]

theorem example_direction_1 :
    BFGS_direction ode.lu_solve_1
      (BFGS_iterate ode.lu_solve_1 shifted_parabola (1 / 1000) ![1] 1 1) = ![0] := by
  rw [example_iterate_1]
  apply ode.vec_one_eq
  simp [BFGS_direction, ode.lu_solve_1]

theorem example_step_1 :
    BFGS_step_size ode.lu_solve_1 shifted_parabola (1 / 1000)
      (BFGS_iterate ode.lu_solve_1 shifted_parabola (1 / 1000) ![1] 1 1) = 1 := by
  rw [BFGS_step_size, example_direction_1, LineSearch.call, LineSearch.search_first_trial]
  · rfl
  · norm_num [LineSearch.create, BFGS_max_step_size]
  · rw [example_iterate_1, LineSearch.accepts_iff]
    simp [shifted_parabola, BFGS_max_step_size]

end BFGSExample

/-- C18 on `f(x) = (x - 3)^2` from the start `[1]` with the solver for one equation: the first
direction is the negative gradient `[4]`. -/
theorem C18_direction_solves_witness :
    BFGS_direction ode.lu_solve_1 (BFGS_init shifted_parabola ![1] 1)
        = (fun i => -shifted_parabola.gradient ![1] (shifted_parabola.call ![1]) i) ∧
      BFGS_direction ode.lu_solve_1 (BFGS_init shifted_parabola ![1] 1) = ![4] :=
  ⟨(C18_direction_solves ode.lu_solve_1 shifted_parabola lu_solve_1_correct).2 ![1],
    example_direction_0⟩

/-- C19 on `f(x) = (x - 3)^2` from the start `[1]` with tolerance `1/1000`: the check fails at
iteration 0 (step `1/2`, direction `[4]`), passes at iteration 1 (step `1`, direction `[0]`), and
BFGS returns `[3]`. -/
theorem C19_bfgs_stops_at_first_pass_witness :
    BFGS norm_2_1 ode.lu_solve_1 shifted_parabola (1 / 1000) ![1] 1
        = (BFGS_iterate ode.lu_solve_1 shifted_parabola (1 / 1000) ![1] 1 1).vars ∧
      (BFGS_iterate ode.lu_solve_1 shifted_parabola (1 / 1000) ![1] 1 1).vars = ![3] :=
  ⟨(C19_bfgs_stops_at_first_pass norm_2_1 ode.lu_solve_1 shifted_parabola (1 / 1000) ![1] 1 1
      (by norm_num)
      (by
        rw [example_step_1, example_direction_1, example_iterate_1]
        norm_num [norm_2_1])
      (by
        intro j hj
        obtain rfl : j = 0 := by omega
        have h0 : BFGS_iterate ode.lu_solve_1 shifted_parabola (1 / 1000) ![1] 1 0
            = BFGS_init shifted_parabola ![1] 1 := rfl
        rw [h0, example_step_0, example_direction_0]
        norm_num [norm_2_1, BFGS_init])).1,
    by rw [example_iterate_1]⟩

end optimization

namespace ode

section SolverIndependence

variable {K : Type} {dim : Nat}

open OdeSolver

/-- The loop of `solve` keeps the shape of the buffer. -/
theorem steps_size (method_ : SchemeType K dim) (ode_sys : OdeSystem K dim) :
    ∀ (k step : Nat) (m out : Buffer K), steps method_ ode_sys k step m = .ok out →
      out.size1 = m.size1 ∧ out.size2 = m.size2 := by
  intro k
  induction k with
  | zero =>
    intro step m out h
    simp only [steps, Except.ok.injEq] at h
    subst h
    exact ⟨rfl, rfl⟩
  | succ k ih =>
    intro step m out h
    simp only [steps] at h
    cases hts : method_.time_step ode_sys (m.column dim step) with
    | error e => simp [hts] at h
    | ok new_time =>
      simp only [hts] at h
      exact ih (step + 1) (m.assign_column (step + 1) new_time) out h

/-- When `solve` returns, the buffer had the right shape and keeps it. -/
theorem solve_ok_shape (s : OdeSolver K dim) (quiet_NaN : K) (ode_sys : OdeSystem K dim)
    (results_matrix out : Buffer K) (h : s.solve quiet_NaN ode_sys results_matrix = .ok out) :
    results_matrix.size1 = dim ∧ results_matrix.size2 = s.N_ + 1 ∧
      out.size1 = results_matrix.size1 ∧ out.size2 = results_matrix.size2 := by
  unfold solve at h
  split_ifs at h with h1 h2
  obtain ⟨hs1, hs2⟩ := steps_size _ _ _ _ _ _ h
  exact ⟨(not_not.mp h1).symm, not_not.mp h2, hs1, hs2⟩

/-- The loop of `solve` runs to its end when the states of the trajectory exist. -/
theorem steps_of_trajectory (method_ : SchemeType K dim) (ode_sys : OdeSystem K dim) :
    ∀ (k step : Nat) (m : Buffer K),
      (∀ j, j ≤ step + k → ∃ c, trajectory method_ ode_sys j = .ok c) →
      trajectory method_ ode_sys step = .ok (m.column dim step) →
      ∃ out, steps method_ ode_sys k step m = .ok out := by
  intro k
  induction k with
  | zero => exact fun _ m _ _ => ⟨m, rfl⟩
  | succ k ih =>
    intro step m hall hcur
    obtain ⟨c, hc⟩ := hall (step + 1) (by omega)
    have hts : method_.time_step ode_sys (m.column dim step) = .ok c := by
      simpa only [trajectory, hcur] using hc
    obtain ⟨out, hout⟩ := ih (step + 1) (m.assign_column (step + 1) c)
      (fun j hj => hall j (by omega)) (by rw [column_assign_column_same]; exact hc)
    exact ⟨out, by simp only [steps, hts, hout]⟩

/-- On a buffer of the right shape `solve` returns when the states of the trajectory exist. -/
theorem solve_of_trajectory (s : OdeSolver K dim) (quiet_NaN : K) (ode_sys : OdeSystem K dim)
    (results_matrix : Buffer K) (h1 : results_matrix.size1 = dim)
    (h2 : results_matrix.size2 = s.N_ + 1)
    (hall : ∀ j, j ≤ s.N_ → ∃ c, trajectory s.method_ ode_sys j = .ok c) :
    ∃ out, s.solve quiet_NaN ode_sys results_matrix = .ok out := by
  unfold solve
  rw [if_neg (by simp [h1]), if_neg (by simp [h2])]
  refine steps_of_trajectory _ _ _ _ _ (fun j hj => hall j (by omega)) ?_
  rw [column_assign_column_same]
  rfl

/-- The columns that `solve` leaves are the states of the trajectory. -/
theorem solve_columns (s : OdeSolver K dim) (quiet_NaN : K) (ode_sys : OdeSystem K dim)
    (results_matrix out : Buffer K) (h : s.solve quiet_NaN ode_sys results_matrix = .ok out) :
    ∀ j, j ≤ s.N_ → trajectory s.method_ ode_sys j = .ok (out.column dim j) := by
  obtain ⟨h0, hstep⟩ := solve_spec s quiet_NaN ode_sys results_matrix out h
  exact trajectory_of_columns _ _ _ (fun j => out.column dim j) h0 hstep

/-- Two buffers of the same shape: when `solve` returns on one it returns on the other, with the
same columns. -/
theorem solve_transfer (s : OdeSolver K dim) (quiet_NaN : K) (ode_sys : OdeSystem K dim)
    (b1 b2 out1 : Buffer K) (hs1 : b1.size1 = b2.size1) (hs2 : b1.size2 = b2.size2)
    (h : s.solve quiet_NaN ode_sys b1 = .ok out1) :
    ∃ out2, s.solve quiet_NaN ode_sys b2 = .ok out2 ∧
      ∀ j, j ≤ s.N_ → out2.column dim j = out1.column dim j := by
  obtain ⟨hd1, hd2, -, -⟩ := solve_ok_shape s quiet_NaN ode_sys b1 out1 h
  have hcols := solve_columns s quiet_NaN ode_sys b1 out1 h
  obtain ⟨out2, hout2⟩ := solve_of_trajectory s quiet_NaN ode_sys b2 (hs1 ▸ hd1) (hs2 ▸ hd2)
    (fun j hj => ⟨_, hcols j hj⟩)
  refine ⟨out2, hout2, fun j hj => ?_⟩
  have h2 := solve_columns s quiet_NaN ode_sys b2 out2 hout2 j hj
  rw [hcols j hj] at h2
  exact (Except.ok.inj h2).symm

end SolverIndependence

end ode

namespace siqrd

theorem same_setup_symm {K : Type} (o o2 : LSE_siqrd K) (h : LSE_siqrd.same_setup o o2) :
    LSE_siqrd.same_setup o2 o := by
  obtain ⟨h1, h2, h3, h4, h5, h6, h7⟩ := h
  exact ⟨h1.symm, h2.symm, h3.symm, h4.symm, h5.symm, h6.symm, h7.symm⟩

theorem same_setup_trans {K : Type} (o o2 o3 : LSE_siqrd K) (h : LSE_siqrd.same_setup o o2)
    (h' : LSE_siqrd.same_setup o2 o3) : LSE_siqrd.same_setup o o3 := by
  obtain ⟨h1, h2, h3, h4, h5, h6, h7⟩ := h
  obtain ⟨g1, g2, g3, g4, g5, g6, g7⟩ := h'
  exact ⟨h1.trans g1, h2.trans g2, h3.trans g3, h4.trans g4, h5.trans g5, h6.trans g6,
    h7.trans g7⟩

section LSELemmas

variable {K : Type} [LinearOrderedField K]

open LSE_siqrd

theorem lse_days_index (norm_2 : (Fin 5 → K) → K) (pred scratch : ode.Buffer K) (d : Nat) :
    (lse_days norm_2 pred scratch d).2 = d * RATIO := by
  induction d with
  | zero => simp [lse_days]
  | succ d ih => simp only [lse_days, ih]; ring

/-- The loop over the days adds up the squared norms of the differences between the observation
of each day and the column `day * RATIO` of the trajectory buffer. -/
theorem lse_days_sum (norm_2 : (Fin 5 → K) → K) (pred scratch : ode.Buffer K) (d : Nat) :
    (lse_days norm_2 pred scratch d).1 = ∑ day in Finset.range d,
      (norm_2 (fun r => pred.column 5 day r - scratch.column 5 (day * RATIO) r)) ^ 2 := by
  induction d with
  | zero => simp [lse_days]
  | succ d ih =>
    rw [Finset.sum_range_succ, ← ih]
    simp only [lse_days, lse_days_index]

theorem lse_days_congr (norm_2 : (Fin 5 → K) → K) (pred s1 s2 : ode.Buffer K) (d : Nat)
    (h : ∀ day, day < d → s1.column 5 (day * RATIO) = s2.column 5 (day * RATIO)) :
    (lse_days norm_2 pred s1 d).1 = (lse_days norm_2 pred s2 d).1 := by
  rw [lse_days_sum, lse_days_sum]
  refine Finset.sum_congr rfl (fun day hday => ?_)
  rw [h day (Finset.mem_range.mp hday)]

/-- The assertion of `lse` bounds the columns that the loop over the days reads. -/
theorem day_column_le (N n day : Nat) (h : N / (n - 1) = RATIO) (hday : day < n) :
    day * RATIO ≤ N := by
  have hn : n - 1 ≠ 0 := by
    intro h0
    rw [h0, Nat.div_zero] at h
    exact absurd h (by decide)
  have h1 : N / (n - 1) * (n - 1) ≤ N := Nat.div_mul_le_self N (n - 1)
  rw [h] at h1
  have h2 : day ≤ n - 1 := by omega
  calc day * RATIO ≤ (n - 1) * RATIO := Nat.mul_le_mul_right _ h2
    _ = RATIO * (n - 1) := Nat.mul_comm _ _
    _ ≤ N := h1

/-- What a returning call of `lse` has done. -/
theorem lse_ok (o : LSE_siqrd K) (norm_2 : (Fin 5 → K) → K) (quiet_NaN : K) (q : Fin 5 → K)
    (v : K) (o1 : LSE_siqrd K) (h : o.lse norm_2 quiet_NaN q = .ok (v, o1)) :
    (o.scratch_space_.size2 - 1) / (o.no_days_ - 1) = RATIO ∧
      ∃ scratch, o.solver_.solve quiet_NaN
          ((o.eqns_.set_initial_condition o.init_cond_).set_parameters q).toOdeSystem
          o.scratch_space_ = .ok scratch ∧
        v = (lse_days norm_2 o.prediction_ scratch o.no_days_).1
          / ((o.no_days_ : K) * o.pop_size_squared_) ∧
        o1 = { o with eqns_ := (o.eqns_.set_initial_condition o.init_cond_).set_parameters q,
                      scratch_space_ := scratch } := by
  unfold lse at h
  split_ifs at h with hassert
  refine ⟨not_not.mp hassert, ?_⟩
  cases hsolve : o.solver_.solve quiet_NaN
      ((o.eqns_.set_initial_condition o.init_cond_).set_parameters q).toOdeSystem
      o.scratch_space_ with
  | error e => simp [hsolve] at h
  | ok scratch =>
    simp only [hsolve, Except.ok.injEq, Prod.mk.injEq] at h
    exact ⟨scratch, rfl, h.1.symm, h.2.symm⟩

/-- A call of `lse` that finds its assertion true and whose `solve` returns, returns. -/
theorem lse_of_solve (o : LSE_siqrd K) (norm_2 : (Fin 5 → K) → K) (quiet_NaN : K)
    (q : Fin 5 → K) (scratch : ode.Buffer K)
    (hassert : (o.scratch_space_.size2 - 1) / (o.no_days_ - 1) = RATIO)
    (hsolve : o.solver_.solve quiet_NaN
      ((o.eqns_.set_initial_condition o.init_cond_).set_parameters q).toOdeSystem
      o.scratch_space_ = .ok scratch) :
    o.lse norm_2 quiet_NaN q = .ok
      ((lse_days norm_2 o.prediction_ scratch o.no_days_).1
          / ((o.no_days_ : K) * o.pop_size_squared_),
        { o with eqns_ := (o.eqns_.set_initial_condition o.init_cond_).set_parameters q,
                 scratch_space_ := scratch }) := by
  unfold lse
  rw [if_neg (not_not.mpr hassert)]
  simp only [hsolve]

/-- A call of `lse` leaves the setup of the object as it was. -/
theorem lse_same_setup (o : LSE_siqrd K) (norm_2 : (Fin 5 → K) → K) (quiet_NaN : K)
    (q : Fin 5 → K) (v : K) (o1 : LSE_siqrd K) (h : o.lse norm_2 quiet_NaN q = .ok (v, o1)) :
    same_setup o o1 := by
  obtain ⟨-, scratch, hsolve, -, ho1⟩ := lse_ok o norm_2 quiet_NaN q v o1 h
  obtain ⟨-, -, hs1, hs2⟩ := ode.solve_ok_shape _ _ _ _ _ hsolve
  subst ho1
  exact ⟨rfl, rfl, rfl, rfl, rfl, hs1.symm, hs2.symm⟩

/-- The value of `lse` depends on the setup of the object only: on an object with the same setup
the call returns the same value. -/
theorem lse_transfer (o o2 : LSE_siqrd K) (hs : same_setup o o2)
    (norm_2 : (Fin 5 → K) → K) (quiet_NaN : K) (q : Fin 5 → K) (v : K) (o1 : LSE_siqrd K)
    (h : o.lse norm_2 quiet_NaN q = .ok (v, o1)) :
    ∃ o3, o2.lse norm_2 quiet_NaN q = .ok (v, o3) := by
  obtain ⟨hassert, scratch, hsolve, hv, -⟩ := lse_ok o norm_2 quiet_NaN q v o1 h
  obtain ⟨h1, h2, h3, h4, h5, h6, h7⟩ := hs
  have heq : (o2.eqns_.set_initial_condition o2.init_cond_).set_parameters q
      = (o.eqns_.set_initial_condition o.init_cond_).set_parameters q := by
    rw [← h3]
    rfl
  obtain ⟨hd1, hd2, -, -⟩ := ode.solve_ok_shape _ _ _ _ _ hsolve
  obtain ⟨scratch2, hsolve2, hcols⟩ := ode.solve_transfer o.solver_ quiet_NaN _
    o.scratch_space_ o2.scratch_space_ scratch h6 h7 hsolve
  have hassert2 : (o2.scratch_space_.size2 - 1) / (o2.no_days_ - 1) = RATIO := by
    rw [← h7, ← h1]
    exact hassert
  have hsolve2' : o2.solver_.solve quiet_NaN
      ((o2.eqns_.set_initial_condition o2.init_cond_).set_parameters q).toOdeSystem
      o2.scratch_space_ = .ok scratch2 := by
    rw [heq, ← h5]
    exact hsolve2
  have hN : o.scratch_space_.size2 - 1 = o.solver_.N_ := by omega
  rw [hN] at hassert
  have hval : (lse_days norm_2 o2.prediction_ scratch2 o2.no_days_).1
      / ((o2.no_days_ : K) * o2.pop_size_squared_) = v := by
    rw [hv, ← h1, ← h2, ← h4]
    congr 1
    exact lse_days_congr norm_2 _ _ _ _
      (fun day hday => hcols _ (day_column_le _ _ _ hassert hday))
  exact ⟨_, by rw [lse_of_solve o2 norm_2 quiet_NaN q scratch2 hassert2 hsolve2', hval]⟩

end LSELemmas

end siqrd

namespace siqrd

section LSECreate

variable {K : Type} [LinearOrderedField K]

open LSE_siqrd

theorem create_init_cond (scheme_ctor : Nat → K → ode.SchemeType K 5) (no_days : Nat)
    (observations : Nat → Fin 5 → K) (eqns : OdeSys_SIQRD K) (uninitialised : Nat → Nat → K)
    (h : 0 < no_days) :
    (create scheme_ctor no_days observations eqns uninitialised).init_cond_ = observations 0 := by
  funext i
  simp [create, ode.Buffer.column, h]

theorem create_prediction (scheme_ctor : Nat → K → ode.SchemeType K 5) (no_days : Nat)
    (observations : Nat → Fin 5 → K) (eqns : OdeSys_SIQRD K) (uninitialised : Nat → Nat → K)
    (d : Nat) (h : d < no_days) :
    (create scheme_ctor no_days observations eqns uninitialised).prediction_.column 5 d
      = observations d := by
  funext i
  simp [create, ode.Buffer.column, h]

/-- The value of the objective on a freshly constructed object, in terms of the trajectory of the
model with parameters `p` started at the first observation. -/
theorem lse_create_spec (scheme_ctor : Nat → K → ode.SchemeType K 5)
    (norm_2 : (Fin 5 → K) → K) (no_days : Nat) (hdays : 2 ≤ no_days)
    (observations : Nat → Fin 5 → K) (eqns : OdeSys_SIQRD K) (uninitialised : Nat → Nat → K)
    (quiet_NaN : K) (p : Fin 5 → K) (v : K) (o1 : LSE_siqrd K)
    (h : (create scheme_ctor no_days observations eqns uninitialised).lse norm_2 quiet_NaN p
      = .ok (v, o1)) :
    ∃ col : Nat → Fin 5 → K,
      (∀ j, j ≤ (no_days - 1) * 8 →
        ode.OdeSolver.trajectory (scheme_ctor ((no_days - 1) * 8) (((no_days - 1 : Nat) : K)))
          (OdeSys_SIQRD.toOdeSystem ⟨p 0, p 1, p 2, p 3, p 4, observations 0 0,
            observations 0 1, observations 0 2, observations 0 3, observations 0 4⟩) j
          = .ok (col j)) ∧
      v = (∑ d in Finset.range no_days,
            (norm_2 (fun i => observations d i - col (d * 8) i)) ^ 2)
          / ((no_days : K) * (∑ i, observations 0 i) ^ 2) := by
  obtain ⟨-, scratch, hsolve, hv, -⟩ := lse_ok _ norm_2 quiet_NaN p v o1 h
  have hic := create_init_cond scheme_ctor no_days observations eqns uninitialised (by omega)
  have hcols := ode.solve_columns _ _ _ _ _ hsolve
  rw [hic] at hcols
  refine ⟨fun j => scratch.column 5 j, hcols, ?_⟩
  rw [hv, lse_days_sum]
  have hpop : (create scheme_ctor no_days observations eqns uninitialised).pop_size_squared_
      = (∑ i, observations 0 i) ^ 2 := by
    rw [pow_two, ← hic]
    rfl
  rw [hpop]
  congr 1
  refine Finset.sum_congr rfl (fun d hd => ?_)
  rw [create_prediction scheme_ctor no_days observations eqns uninitialised d
    (Finset.mem_range.mp hd)]
  rfl

/-- On a freshly constructed object the objective returns when no `time_step` of the scheme
fails. -/
theorem lse_create_total (scheme_ctor : Nat → K → ode.SchemeType K 5)
    (norm_2 : (Fin 5 → K) → K) (no_days : Nat) (hdays : 2 ≤ no_days)
    (observations : Nat → Fin 5 → K) (eqns : OdeSys_SIQRD K) (uninitialised : Nat → Nat → K)
    (quiet_NaN : K) (p : Fin 5 → K)
    (htot : ∀ x, ∃ y,
      (scheme_ctor ((no_days - 1) * 8) (((no_days - 1 : Nat) : K))).time_step
        (OdeSys_SIQRD.toOdeSystem ⟨p 0, p 1, p 2, p 3, p 4, observations 0 0,
          observations 0 1, observations 0 2, observations 0 3, observations 0 4⟩) x = .ok y) :
    ∃ v o1, (create scheme_ctor no_days observations eqns uninitialised).lse norm_2 quiet_NaN p
      = .ok (v, o1) := by
  have hic := create_init_cond scheme_ctor no_days observations eqns uninitialised (by omega)
  have hassert : ((create scheme_ctor no_days observations eqns uninitialised).scratch_space_.size2
      - 1) / ((create scheme_ctor no_days observations eqns uninitialised).no_days_ - 1)
      = RATIO := by
    show ((no_days - 1) * RATIO + 1 - 1) / (no_days - 1) = RATIO
    rw [Nat.add_sub_cancel, Nat.mul_div_cancel_left _ (by omega : 0 < no_days - 1)]
  obtain ⟨scratch, hsolve⟩ := ode.solve_total
    (create scheme_ctor no_days observations eqns uninitialised).solver_ quiet_NaN
    (((create scheme_ctor no_days observations eqns uninitialised).eqns_.set_initial_condition
      (create scheme_ctor no_days observations eqns uninitialised).init_cond_).set_parameters
        p).toOdeSystem
    (create scheme_ctor no_days observations eqns uninitialised).scratch_space_ rfl rfl
    (by rw [hic]; exact htot)
  exact ⟨_, _, lse_of_solve _ norm_2 quiet_NaN p scratch hassert hsolve⟩

end LSECreate

end siqrd

namespace siqrd

/-- C12: for every observation set of `no_days ≥ 2` days and every parameter vector `p`, the value
returned by `LSE_siqrd::operator()(p)` is the sum over the days `d` in `[0, no_days)` of the
squared Euclidean distance between observation `d` and column `d*8` of the trajectory integrated
with parameters `p` from the initial condition observation 0, divided by
`no_days * (sum of the five day-0 observation values)^2`; and `operator()` does return when no
`time_step` of the scheme fails.  Here `norm_2` is the Euclidean norm. -/
theorem C12_lse_value {K : Type} [LinearOrderedField K]
    (scheme_ctor : Nat → K → ode.SchemeType K 5) (norm_2 : (Fin 5 → K) → K)
    (hnorm : ∀ v, norm_2 v ^ 2 = ∑ i, v i ^ 2) (no_days : Nat) (hdays : 2 ≤ no_days)
    (observations : Nat → Fin 5 → K) (eqns : OdeSys_SIQRD K) (uninitialised : Nat → Nat → K)
    (quiet_NaN : K) (p : Fin 5 → K) :
    let o := LSE_siqrd.create scheme_ctor no_days observations eqns uninitialised
    let method_ := scheme_ctor ((no_days - 1) * 8) (((no_days - 1 : Nat) : K))
    let model : OdeSys_SIQRD K := ⟨p 0, p 1, p 2, p 3, p 4, observations 0 0,
      observations 0 1, observations 0 2, observations 0 3, observations 0 4⟩
    (∀ v o1, o.call norm_2 quiet_NaN p = .ok (v, o1) →
      ∃ col : Nat → Fin 5 → K,
        (∀ j, j ≤ (no_days - 1) * 8 →
          ode.OdeSolver.trajectory method_ model.toOdeSystem j = .ok (col j)) ∧
        v = (∑ d in Finset.range no_days, ∑ i, (observations d i - col (d * 8) i) ^ 2)
            / ((no_days : K) * (∑ i, observations 0 i) ^ 2)) ∧
      ((∀ x, ∃ y, method_.time_step model.toOdeSystem x = .ok y) →
        ∃ v o1, o.call norm_2 quiet_NaN p = .ok (v, o1)) := by
  intro o method_ model
  refine ⟨fun v o1 h => ?_, fun htot => lse_create_total scheme_ctor norm_2 no_days hdays
    observations eqns uninitialised quiet_NaN p htot⟩
  obtain ⟨col, hcol, hv⟩ := lse_create_spec scheme_ctor norm_2 no_days hdays observations eqns
    uninitialised quiet_NaN p v o1 h
  refine ⟨col, hcol, ?_⟩
  rw [hv]
  congr 1
  exact Finset.sum_congr rfl (fun d _ => hnorm _)

/-- C13: for every observation set with `no_days ≥ 2` and nonzero day-0 population sum, and every
parameter vector `p`, the value of the least-squares objective is `≥ 0`, and it is `0` if and
only if for every day `d` the trajectory column `d*8` equals observation `d`; and the objective
does return when no `time_step` of the scheme fails.  Here `norm_2` is the Euclidean norm. -/
theorem C13_lse_nonneg {K : Type} [LinearOrderedField K]
    (scheme_ctor : Nat → K → ode.SchemeType K 5) (norm_2 : (Fin 5 → K) → K)
    (hnorm : ∀ v, norm_2 v ^ 2 = ∑ i, v i ^ 2) (no_days : Nat) (hdays : 2 ≤ no_days)
    (observations : Nat → Fin 5 → K) (hpop : ∑ i, observations 0 i ≠ 0)
    (eqns : OdeSys_SIQRD K) (uninitialised : Nat → Nat → K)
    (quiet_NaN : K) (p : Fin 5 → K) :
    let o := LSE_siqrd.create scheme_ctor no_days observations eqns uninitialised
    let method_ := scheme_ctor ((no_days - 1) * 8) (((no_days - 1 : Nat) : K))
    let model : OdeSys_SIQRD K := ⟨p 0, p 1, p 2, p 3, p 4, observations 0 0,
      observations 0 1, observations 0 2, observations 0 3, observations 0 4⟩
    (∀ v o1, o.call norm_2 quiet_NaN p = .ok (v, o1) →
      0 ≤ v ∧ ∃ col : Nat → Fin 5 → K,
        (∀ j, j ≤ (no_days - 1) * 8 →
          ode.OdeSolver.trajectory method_ model.toOdeSystem j = .ok (col j)) ∧
        (v = 0 ↔ ∀ d, d < no_days → col (d * 8) = observations d)) ∧
      ((∀ x, ∃ y, method_.time_step model.toOdeSystem x = .ok y) →
        ∃ v o1, o.call norm_2 quiet_NaN p = .ok (v, o1)) := by
  intro o method_ model
  refine ⟨fun v o1 h => ?_, fun htot => lse_create_total scheme_ctor norm_2 no_days hdays
    observations eqns uninitialised quiet_NaN p htot⟩
  obtain ⟨col, hcol, hv⟩ := lse_create_spec scheme_ctor norm_2 no_days hdays observations eqns
    uninitialised quiet_NaN p v o1 h
  have hden : (0 : K) < (no_days : K) * (∑ i, observations 0 i) ^ 2 := by
    have h1 : (0 : K) < (no_days : K) := by
      exact_mod_cast (by omega : 0 < no_days)
    have h2 : (0 : K) < (∑ i, observations 0 i) ^ 2 := by positivity
    exact mul_pos h1 h2
  have hterm : ∀ d, (0 : K) ≤ (norm_2 (fun i => observations d i - col (d * 8) i)) ^ 2 :=
    fun d => sq_nonneg _
  have hsum : (0 : K) ≤ ∑ d in Finset.range no_days,
      (norm_2 (fun i => observations d i - col (d * 8) i)) ^ 2 :=
    Finset.sum_nonneg (fun d _ => hterm d)
  refine ⟨by rw [hv]; exact div_nonneg hsum hden.le, col, hcol, ?_⟩
  rw [hv, div_eq_zero_iff, or_iff_left hden.ne',
    Finset.sum_eq_zero_iff_of_nonneg (fun d _ => hterm d)]
  constructor
  · intro h0 d hd
    have hd0 := h0 d (Finset.mem_range.mpr hd)
    rw [hnorm, Finset.sum_eq_zero_iff_of_nonneg (fun i _ => sq_nonneg _)] at hd0
    funext i
    have hi := hd0 i (Finset.mem_univ i)
    have hi2 : observations d i - col (d * 8) i = 0 := by
      simpa using hi
    linarith
  · intro hall d hd
    rw [hnorm, hall d (Finset.mem_range.mp hd)]
    simp

/-- C12 over the reals, with explicit Euler, two days of observations `[100, 5, 0, 0, 0]` and the
parameters `[1/100, 1/2, 1/10, 1/5, 1/20]`: the objective returns. -/
theorem C12_lse_value_witness :
    ∃ v o1, (LSE_siqrd.create (fun n t => (ode.EulerForward.create n t).scheme) 2
        (fun _ => ![100, 5, 0, 0, 0]) (sample_model_in ℝ) (fun _ _ => 0)).call
      (fun v => Real.sqrt (∑ i, v i ^ 2)) 0 ![1 / 100, 1 / 2, 1 / 10, 1 / 5, 1 / 20]
        = .ok (v, o1) :=
  (C12_lse_value (fun n t => (ode.EulerForward.create n t).scheme)
    (fun v => Real.sqrt (∑ i, v i ^ 2))
    (fun v => Real.sq_sqrt (Finset.sum_nonneg (fun i _ => sq_nonneg (v i))))
    2 le_rfl (fun _ => ![100, 5, 0, 0, 0]) (sample_model_in ℝ) (fun _ _ => 0) 0
    ![1 / 100, 1 / 2, 1 / 10, 1 / 5, 1 / 20]).2 (fun _ => ⟨_, rfl⟩)

end siqrd

namespace siqrd

/-- C13 over the reals, with explicit Euler, two days of observations `[100, 5, 0, 0, 0]` and the
parameters `[1/100, 1/2, 1/10, 1/5, 1/20]`: the objective returns a value `≥ 0`. -/
theorem C13_lse_nonneg_witness :
    ∃ v o1, (LSE_siqrd.create (fun n t => (ode.EulerForward.create n t).scheme) 2
        (fun _ => ![100, 5, 0, 0, 0]) (sample_model_in ℝ) (fun _ _ => 0)).call
      (fun v => Real.sqrt (∑ i, v i ^ 2)) 0 ![1 / 100, 1 / 2, 1 / 10, 1 / 5, 1 / 20]
        = .ok (v, o1) ∧ 0 ≤ v := by
  have h := C13_lse_nonneg (fun n t => (ode.EulerForward.create n t).scheme)
    (fun v => Real.sqrt (∑ i, v i ^ 2))
    (fun v => Real.sq_sqrt (Finset.sum_nonneg (fun i _ => sq_nonneg (v i))))
    2 le_rfl (fun _ => ![100, 5, 0, 0, 0]) (by simp [Fin.sum_univ_five]; norm_num)
    (sample_model_in ℝ) (fun _ _ => 0) 0 ![1 / 100, 1 / 2, 1 / 10, 1 / 5, 1 / 20]
  obtain ⟨v, o1, hv⟩ := h.2 (fun _ => ⟨_, rfl⟩)
  exact ⟨v, o1, hv, (h.1 v o1 hv).1⟩

end siqrd

namespace siqrd

section GradientLemmas

variable {K : Type} [LinearOrderedField K]

open LSE_siqrd

/-- What the statements of `gradient` before its loop have done when the evaluation returns. -/
theorem gradient_first_spec (o : LSE_siqrd K) (norm_2 : (Fin 5 → K) → K) (quiet_NaN : K)
    (p : Fin 5 → K) (lse_0 : K) (grad0 : Fin 5 → K) (st : gradient_state K)
    (h : gradient_first o norm_2 quiet_NaN p lse_0 grad0 = .ok st) :
    st.params_temp_ = Function.update p 0 (p 0 + EPS) ∧ same_setup o st.obj ∧
      ∃ v oi, o.lse norm_2 quiet_NaN (Function.update p 0 (p 0 + EPS)) = .ok (v, oi) ∧
        st.grad = Function.update grad0 0 ((v - lse_0) / EPS) := by
  unfold gradient_first at h
  cases hl : o.lse norm_2 quiet_NaN (Function.update p 0 (p 0 + EPS)) with
  | error e => simp [hl] at h
  | ok r =>
    simp only [hl, Except.ok.injEq] at h
    subst h
    exact ⟨rfl, lse_same_setup o norm_2 quiet_NaN _ r.1 r.2 hl, r.1, r.2, rfl, rfl⟩

/-- The vector `params_temp_` after the coordinate `i_prev` is restored and the coordinate `i`
perturbed. -/
theorem restore_then_bump (p : Fin 5 → K) (i_prev i : Fin 5) (e : K) :
    Function.update (Function.update (Function.update p i_prev (p i_prev + e)) i_prev (p i_prev))
        i (Function.update (Function.update p i_prev (p i_prev + e)) i_prev (p i_prev) i + e)
      = Function.update p i (p i + e) := by
  rw [Function.update_idem, Function.update_eq_self]

/-- What one pass through the loop of `gradient` has done when the evaluation returns. -/
theorem gradient_body_spec (o : LSE_siqrd K) (norm_2 : (Fin 5 → K) → K) (quiet_NaN : K)
    (p : Fin 5 → K) (lse_0 : K) (i_prev i : Fin 5) (st st2 : gradient_state K)
    (hp : st.params_temp_ = Function.update p i_prev (p i_prev + EPS))
    (hs : same_setup o st.obj)
    (h : gradient_body norm_2 quiet_NaN p lse_0 i_prev i st = .ok st2) :
    st2.params_temp_ = Function.update p i (p i + EPS) ∧ same_setup o st2.obj ∧
      ∃ v oi, o.lse norm_2 quiet_NaN (Function.update p i (p i + EPS)) = .ok (v, oi) ∧
        st2.grad = Function.update st.grad i ((v - lse_0) / EPS) := by
  unfold gradient_body at h
  dsimp only at h
  rw [hp, restore_then_bump p i_prev i EPS] at h
  cases hl : st.obj.lse norm_2 quiet_NaN (Function.update p i (p i + EPS)) with
  | error e => simp [hl] at h
  | ok r =>
    simp only [hl, Except.ok.injEq] at h
    subst h
    obtain ⟨oi, hoi⟩ := lse_transfer st.obj o (same_setup_symm _ _ hs) norm_2 quiet_NaN _
      r.1 r.2 hl
    exact ⟨rfl, same_setup_trans _ _ _ hs (lse_same_setup st.obj norm_2 quiet_NaN _ r.1 r.2 hl),
      r.1, oi, hoi, rfl⟩

/-- One pass through the loop of `gradient` returns when the objective returns on the original
object at the perturbed vector. -/
theorem gradient_body_total (o : LSE_siqrd K) (norm_2 : (Fin 5 → K) → K) (quiet_NaN : K)
    (p : Fin 5 → K) (lse_0 : K) (i_prev i : Fin 5) (st : gradient_state K)
    (hp : st.params_temp_ = Function.update p i_prev (p i_prev + EPS))
    (hs : same_setup o st.obj)
    (hret : ∃ r, o.lse norm_2 quiet_NaN (Function.update p i (p i + EPS)) = .ok r) :
    ∃ st2, gradient_body norm_2 quiet_NaN p lse_0 i_prev i st = .ok st2 := by
  obtain ⟨r, hr⟩ := hret
  obtain ⟨o3, ho3⟩ := lse_transfer o st.obj hs norm_2 quiet_NaN _ r.1 r.2 hr
  unfold gradient_body
  dsimp only
  rw [hp, restore_then_bump p i_prev i EPS]
  simp only [ho3]
  exact ⟨_, rfl⟩

end GradientLemmas

end siqrd

namespace siqrd

/-- C14: for every parameter vector `p`, value `v` and coordinate `i` in `[0, 5)`,
`LSE_siqrd::gradient(p, v, out)` sets `out[i] = (f(p + 1e-5 * e_i) - v) / 1e-5`, where `f` is the
objective evaluated on the object as `gradient` found it and `e_i` the `i`-th unit vector: each
evaluation perturbs exactly one coordinate of `p`.  And `gradient` returns when the objective
returns at each of the five perturbed vectors. -/
theorem C14_gradient_entries {K : Type} [LinearOrderedField K] (o : LSE_siqrd K)
    (norm_2 : (Fin 5 → K) → K) (quiet_NaN : K) (p : Fin 5 → K) (v : K) (out : Fin 5 → K) :
    (∀ grad o1, o.gradient norm_2 quiet_NaN p v out = .ok (grad, o1) →
      ∀ i : Fin 5, ∃ f_i o_i,
        o.call norm_2 quiet_NaN (Function.update p i (p i + 1e-5)) = .ok (f_i, o_i) ∧
          grad i = (f_i - v) / 1e-5) ∧
      ((∀ i : Fin 5, ∃ r,
          o.call norm_2 quiet_NaN (Function.update p i (p i + 1e-5)) = .ok r) →
        ∃ grad o1, o.gradient norm_2 quiet_NaN p v out = .ok (grad, o1)) := by
  constructor
  · intro grad o1 h
    unfold LSE_siqrd.gradient at h
    cases h0 : LSE_siqrd.gradient_first o norm_2 quiet_NaN p v out with
    | error e => simp [h0] at h
    | ok st0 =>
      simp only [h0, LSE_siqrd.gradient_loop] at h
      obtain ⟨hp0, hs0, v0, o_0, hl0, hg0⟩ := gradient_first_spec o norm_2 quiet_NaN p v out st0 h0
      cases h1 : LSE_siqrd.gradient_body norm_2 quiet_NaN p v 0 1 st0 with
      | error e => simp [h1] at h
      | ok st1 =>
        simp only [h1] at h
        obtain ⟨hp1, hs1, v1, o_1, hl1, hg1⟩ :=
          gradient_body_spec o norm_2 quiet_NaN p v 0 1 st0 st1 hp0 hs0 h1
        cases h2 : LSE_siqrd.gradient_body norm_2 quiet_NaN p v 1 2 st1 with
        | error e => simp [h2] at h
        | ok st2 =>
          simp only [h2] at h
          obtain ⟨hp2, hs2, v2, o_2, hl2, hg2⟩ :=
            gradient_body_spec o norm_2 quiet_NaN p v 1 2 st1 st2 hp1 hs1 h2
          cases h3 : LSE_siqrd.gradient_body norm_2 quiet_NaN p v 2 3 st2 with
          | error e => simp [h3] at h
          | ok st3 =>
            simp only [h3] at h
            obtain ⟨hp3, hs3, v3, o_3, hl3, hg3⟩ :=
              gradient_body_spec o norm_2 quiet_NaN p v 2 3 st2 st3 hp2 hs2 h3
            cases h4 : LSE_siqrd.gradient_body norm_2 quiet_NaN p v 3 4 st3 with
            | error e => simp [h4] at h
            | ok st4 =>
              simp only [h4, Except.ok.injEq, Prod.mk.injEq] at h
              obtain ⟨hp4, hs4, v4, o_4, hl4, hg4⟩ :=
                gradient_body_spec o norm_2 quiet_NaN p v 3 4 st3 st4 hp3 hs3 h4
              have hgrad : grad = Function.update (Function.update (Function.update
                  (Function.update (Function.update out 0 ((v0 - v) / LSE_siqrd.EPS))
                    1 ((v1 - v) / LSE_siqrd.EPS)) 2 ((v2 - v) / LSE_siqrd.EPS))
                    3 ((v3 - v) / LSE_siqrd.EPS)) 4 ((v4 - v) / LSE_siqrd.EPS) := by
                rw [← h.1, hg4, hg3, hg2, hg1, hg0]
              intro i
              fin_cases i
              · exact ⟨v0, o_0, hl0, by rw [hgrad]; simp [Function.update, LSE_siqrd.EPS]⟩
              · exact ⟨v1, o_1, hl1, by rw [hgrad]; simp [Function.update, LSE_siqrd.EPS]⟩
              · exact ⟨v2, o_2, hl2, by rw [hgrad]; simp [Function.update, LSE_siqrd.EPS]⟩
              · exact ⟨v3, o_3, hl3, by rw [hgrad]; simp [Function.update, LSE_siqrd.EPS]⟩
              · exact ⟨v4, o_4, hl4, by rw [hgrad]; simp [Function.update, LSE_siqrd.EPS]⟩
  · intro hret
    obtain ⟨r0, hr0⟩ := hret 0
    have h0 : LSE_siqrd.gradient_first o norm_2 quiet_NaN p v out
        = .ok ⟨Function.update p 0 (p 0 + LSE_siqrd.EPS),
            Function.update out 0 ((r0.1 - v) / LSE_siqrd.EPS), r0.2⟩ := by
      unfold LSE_siqrd.gradient_first
      dsimp only
      have hr0' : o.lse norm_2 quiet_NaN (Function.update p 0 (p 0 + LSE_siqrd.EPS))
          = .ok r0 := hr0
      simp only [hr0']
    obtain ⟨hp0, hs0, -⟩ := gradient_first_spec o norm_2 quiet_NaN p v out _ h0
    obtain ⟨st1, h1⟩ := gradient_body_total o norm_2 quiet_NaN p v 0 1 _ hp0 hs0 (hret 1)
    obtain ⟨hp1, hs1, -⟩ := gradient_body_spec o norm_2 quiet_NaN p v 0 1 _ st1 hp0 hs0 h1
    obtain ⟨st2, h2⟩ := gradient_body_total o norm_2 quiet_NaN p v 1 2 _ hp1 hs1 (hret 2)
    obtain ⟨hp2, hs2, -⟩ := gradient_body_spec o norm_2 quiet_NaN p v 1 2 _ st2 hp1 hs1 h2
    obtain ⟨st3, h3⟩ := gradient_body_total o norm_2 quiet_NaN p v 2 3 _ hp2 hs2 (hret 3)
    obtain ⟨hp3, hs3, -⟩ := gradient_body_spec o norm_2 quiet_NaN p v 2 3 _ st3 hp2 hs2 h3
    obtain ⟨st4, h4⟩ := gradient_body_total o norm_2 quiet_NaN p v 3 4 _ hp3 hs3 (hret 4)
    refine ⟨st4.grad, st4.obj, ?_⟩
    unfold LSE_siqrd.gradient
    simp only [h0, LSE_siqrd.gradient_loop, h1, h2, h3, h4]

end siqrd

namespace siqrd

/-- C28: for every 5-vector `v`, after `set_parameters(v)` the model's `parameters()` returns `v`
in the order `[alpha, beta, gamma, delta, mu]`, and after `set_initial_condition(v)`
`initial_condition()` returns `v` in the order `[S, I, Q, R, D]`; `set_initial_condition` leaves
the parameters unchanged and `set_parameters` leaves the initial condition unchanged.  (The
derivative and `jacobian` are `const` members: they return a vector and a matrix and have no
effect on the object.) -/
theorem C28_setters_and_getters {K : Type} [LinearOrderedField K] (m : OdeSys_SIQRD K)
    (v : Fin 5 → K) :
    (m.set_parameters v).parameters = v ∧
      ((m.set_parameters v).alpha_ = v 0 ∧ (m.set_parameters v).beta_ = v 1 ∧
        (m.set_parameters v).gamma_ = v 2 ∧ (m.set_parameters v).delta_ = v 3 ∧
        (m.set_parameters v).mu_ = v 4) ∧
      (m.set_initial_condition v).initial_condition = v ∧
      ((m.set_initial_condition v).S0_ = v 0 ∧ (m.set_initial_condition v).I0_ = v 1 ∧
        (m.set_initial_condition v).Q0_ = v 2 ∧ (m.set_initial_condition v).R0_ = v 3 ∧
        (m.set_initial_condition v).D0_ = v 4) ∧
      (m.set_initial_condition v).parameters = m.parameters ∧
      (m.set_parameters v).initial_condition = m.initial_condition := by
  refine ⟨?_, ⟨rfl, rfl, rfl, rfl, rfl⟩, ?_, ⟨rfl, rfl, rfl, rfl, rfl⟩, rfl, rfl⟩
  · funext i
    fin_cases i <;> rfl
  · funext i
    fin_cases i <;> rfl

end siqrd

namespace ode

section NewtonStep

variable {K : Type} [LinearOrderedField K] {dim : Nat}

/-- Cramer's rule solves every invertible system. -/
theorem cramer_solve_correct (A : Matrix (Fin dim) (Fin dim) K) (b : Fin dim → K)
    (h : A.det ≠ 0) : optimization.prod_mv A (cramer_solve A b) = b := by
  have h1 : cramer_solve A b = A.det⁻¹ • Matrix.cramer A b := by
    funext i
    simp [cramer_solve, div_eq_inv_mul]
  have h2 : optimization.prod_mv A (cramer_solve A b) = A.mulVec (cramer_solve A b) := rfl
  rw [h2, h1, Matrix.mulVec_smul, Matrix.mulVec_cramer, smul_smul, inv_mul_cancel₀ h, one_smul]

theorem EulerBackward.iterate_succ (s : EulerBackward K)
    (lu_solve : Matrix (Fin dim) (Fin dim) K → (Fin dim → K) → (Fin dim → K))
    (system : OdeSystem K dim) (old_time : Fin dim → K) (i : Nat) :
    s.iterate lu_solve system old_time (i + 1)
      = s.update lu_solve system old_time (s.iterate lu_solve system old_time i) := by
  simp only [EulerBackward.iterate, Function.iterate_succ_apply']

/-- The loop of `time_step` is left at one of the Newton iterates. -/
theorem loop_is_iterate (s : EulerBackward K) (epsilon : K)
    (lu_solve : Matrix (Fin dim) (Fin dim) K → (Fin dim → K) → (Fin dim → K))
    (system : OdeSystem K dim) (old_time : Fin dim → K) :
    ∀ (fuel : Nat) (x : Fin dim → K), ∃ i, i ≤ fuel ∧
      EulerBackward.loop s epsilon lu_solve system old_time fuel x
        = (s.update lu_solve system old_time)^[i] x := by
  intro fuel
  induction fuel with
  | zero => exact fun x => ⟨0, le_rfl, rfl⟩
  | succ fuel ih =>
    intro x
    by_cases hp : s.passes epsilon system old_time x
    · exact ⟨0, Nat.zero_le _, by simp only [EulerBackward.loop, if_pos hp,
        Function.iterate_zero, id_eq]⟩
    · obtain ⟨i, hi, hloop⟩ := ih (s.update lu_solve system old_time x)
      exact ⟨i + 1, by omega, by simp only [EulerBackward.loop, if_neg hp, hloop,
        Function.iterate_succ, Function.comp_apply]⟩

/-- The matrix written by `jacG` is `dT_ * jacobian - I`. -/
theorem jacG_eq (s : EulerBackward K) (vars : Fin dim → K) (system : OdeSystem K dim) :
    s.jacG vars system = s.dT_ • system.jacobian vars - 1 := by
  funext i j
  by_cases h : i = j
  · subst h
    simp [EulerBackward.jacG, mul_comm]
  · simp [EulerBackward.jacG, h, mul_comm]

end NewtonStep

end ode

namespace ode

section NewtonDerivative

/-- The linear map of `I - dt * J` is the identity minus `dt` times the linear map of `J`. -/
theorem newton_matrix_map {dim : Nat} (dt : ℝ) (J : Matrix (Fin dim) (Fin dim) ℝ) :
    LinearMap.toContinuousLinearMap (Matrix.mulVecLin (1 - dt • J))
      = ContinuousLinearMap.id ℝ (Fin dim → ℝ)
        - dt • LinearMap.toContinuousLinearMap (Matrix.mulVecLin J) := by
  ext v i
  simp [Matrix.sub_mulVec, Matrix.smul_mulVec_assoc]

/-- When the model's `jacobian` is the derivative of its `operator()`, the matrix `I - dt * J` is
the derivative of `G(y) = y - old - dt * f(y)`. -/
theorem hasFDerivAt_G {dim : Nat} (system : OdeSystem ℝ dim) (dt : ℝ) (old_time : Fin dim → ℝ)
    (hJ : ∀ y, HasFDerivAt system.call
      (LinearMap.toContinuousLinearMap (Matrix.mulVecLin (system.jacobian y))) y)
    (y : Fin dim → ℝ) :
    HasFDerivAt (fun z r => z r - old_time r - dt * system.call z r)
      (LinearMap.toContinuousLinearMap (Matrix.mulVecLin (1 - dt • system.jacobian y))) y := by
  rw [newton_matrix_map]
  have h := ((hasFDerivAt_id y).sub_const old_time).sub ((hJ y).const_smul dt)
  exact h

end NewtonDerivative

/-- C29, as stated, fails where the Newton matrix is singular: on the system `x' = x` with
`dT_ = 1` and old state `[1]` the convergence test fails at iteration 0, the Newton matrix
`dT_ * jacobian - I` is `[0]` and the right-hand side is `[1]`, so no vector solves the system
whose solution the update subtracts. -/
theorem C29_singular_newton_matrix :
    ¬ (EulerBackward.create 1 (1 : ℚ)).passes epsilon_double growth ![1] ![1] ∧
      ∀ x : Fin 1 → ℚ,
        optimization.prod_mv ((EulerBackward.create 1 (1 : ℚ)).jacG ![1] growth) x
          ≠ (EulerBackward.create 1 (1 : ℚ)).residual growth ![1] ![1] := by
  constructor
  · simp only [EulerBackward.passes, norm_1_one, norm_inf_one, EulerBackward.residual,
      EulerBackward.create, growth, EulerBackward.tolerance, epsilon_double]
    norm_num
  · intro x h
    have h0 := congrFun h 0
    simp [optimization.prod_mv, EulerBackward.jacG, EulerBackward.residual,
      EulerBackward.create, growth] at h0

/-- C29, amended: for every model, `dt` and old state, implicit Euler starts from `new_0 = old`
and every non-converged pass through the loop sets `new_{i+1} = new_i - x_i`, where `x_i` is the
result of the linear solve with the matrix `dt*jacobian(new_i) - I` and the right-hand side
`(old - new_i) + dt*derivative(new_i)`; whenever that matrix is invertible, `x_i` solves the
system, which then reads `(I - dt*jacobian(new_i)) * x_i = G(new_i)` for
`G(new) = new - old - dt*derivative(new)`; and when the model's Jacobian is the exact derivative,
`I - dt*jacobian` is the derivative of `G`, so that the update is the Newton-Raphson step for
`G = 0`.  The linear solve is assumed to solve every invertible system. -/
theorem C29_newton_iteration {dim : Nat} (system : OdeSystem ℝ dim) (s : EulerBackward ℝ)
    (lu_solve : Matrix (Fin dim) (Fin dim) ℝ → (Fin dim → ℝ) → (Fin dim → ℝ))
    (hlu : ∀ A b, A.det ≠ 0 → optimization.prod_mv A (lu_solve A b) = b)
    (old_time : Fin dim → ℝ) :
    let new : Nat → Fin dim → ℝ := s.iterate lu_solve system old_time
    let x : Nat → Fin dim → ℝ := fun i =>
      lu_solve (s.dT_ • system.jacobian (new i) - 1)
        (fun r => (old_time r - new i r) + s.dT_ * system.call (new i) r)
    let G : (Fin dim → ℝ) → (Fin dim → ℝ) := fun y r =>
      y r - old_time r - s.dT_ * system.call y r
    new 0 = old_time ∧
      (∀ i, new (i + 1) = fun r => new i r - x i r) ∧
      (∀ (epsilon : ℝ) (fuel : Nat) (y : Fin dim → ℝ), ¬ s.passes epsilon system old_time y →
        EulerBackward.loop s epsilon lu_solve system old_time (fuel + 1) y
          = EulerBackward.loop s epsilon lu_solve system old_time fuel
              (fun r => y r - lu_solve (s.dT_ • system.jacobian y - 1)
                (fun r => (old_time r - y r) + s.dT_ * system.call y r) r)) ∧
      (∀ i, (s.dT_ • system.jacobian (new i) - 1).det ≠ 0 →
        (s.dT_ • system.jacobian (new i) - 1).mulVec (x i)
            = (fun r => (old_time r - new i r) + s.dT_ * system.call (new i) r) ∧
          (1 - s.dT_ • system.jacobian (new i)).mulVec (x i) = G (new i)) ∧
      ((∀ y, HasFDerivAt system.call
          (LinearMap.toContinuousLinearMap (Matrix.mulVecLin (system.jacobian y))) y) →
        ∀ y, HasFDerivAt G
          (LinearMap.toContinuousLinearMap
            (Matrix.mulVecLin (1 - s.dT_ • system.jacobian y))) y) := by
  intro new x G
  have hsolve : ∀ i, (s.dT_ • system.jacobian (new i) - 1).det ≠ 0 →
      (s.dT_ • system.jacobian (new i) - 1).mulVec (x i)
        = (fun r => (old_time r - new i r) + s.dT_ * system.call (new i) r) :=
    fun i hdet => hlu _ _ hdet
  refine ⟨rfl, fun i => ?_, fun epsilon fuel y hp => ?_, fun i hdet => ⟨hsolve i hdet, ?_⟩,
    fun hJ y => hasFDerivAt_G system s.dT_ old_time hJ y⟩
  · simp only [new, x, EulerBackward.iterate_succ, EulerBackward.update, jacG_eq]
    rfl
  · simp only [EulerBackward.loop, if_neg hp, EulerBackward.update, jacG_eq]
    rfl
  · have h := hsolve i hdet
    have hneg : (1 - s.dT_ • system.jacobian (new i))
        = -(s.dT_ • system.jacobian (new i) - 1) := by
      rw [neg_sub]
    rw [hneg, Matrix.neg_mulVec, h]
    funext r
    simp only [G, Pi.neg_apply]
    ring

set_option maxRecDepth 8000 in
/-- C29, amended, at the sample epidemic model over the reals with `dt = 1/8` and Cramer's rule
as the linear solve: the iteration starts at the old state. -/
theorem C29_newton_iteration_witness :
    (EulerBackward.create 8 (1 : ℝ)).iterate cramer_solve
        (siqrd.sample_model_in ℝ).toOdeSystem ![100, 5, 0, 0, 0] 0 = ![100, 5, 0, 0, 0] := by
  have h := C29_newton_iteration (siqrd.sample_model_in ℝ).toOdeSystem
    (EulerBackward.create 8 (1 : ℝ)) cramer_solve (fun A b h => cramer_solve_correct A b h)
    ![100, 5, 0, 0, 0]
  obtain ⟨h0, -⟩ := h
  exact h0

end ode

namespace siqrd

section NewtonConservation

variable {K : Type} [LinearOrderedField K]

open OdeSys_SIQRD

/-- Every column of the matrix written by `jacobian` sums to zero. -/
theorem jacobian_col_sum (m : OdeSys_SIQRD K) (x : Fin 5 → K) (c : Fin 5) :
    ∑ r, m.jacobian x r c = 0 := by
  rw [jacobian_rows, Fin.sum_univ_five]
  fin_cases c <;>
    simp [dSdS, dSdI, dSdR, dIdS, dIdI, dIdR, Matrix.vecHead, Matrix.vecTail] <;> ring

/-- Every column of the Newton matrix of the epidemic model sums to `-1`. -/
theorem jacG_col_sum (m : OdeSys_SIQRD K) (s : ode.EulerBackward K) (x : Fin 5 → K)
    (c : Fin 5) : ∑ r, s.jacG x m.toOdeSystem r c = -1 := by
  have h := jacobian_col_sum m x c
  have h2 : ∀ r, s.jacG x m.toOdeSystem r c
      = m.jacobian x r c * s.dT_ - (if r = c then 1 else 0) := by
    intro r
    by_cases hrc : r = c
    · simp [ode.EulerBackward.jacG, hrc, toOdeSystem]
    · simp [ode.EulerBackward.jacG, hrc, toOdeSystem]
  simp only [h2, Finset.sum_sub_distrib, ← Finset.sum_mul, h, zero_mul, Finset.sum_ite_eq',
    Finset.mem_univ, if_true, zero_sub]

/-- A Newton update with an exact solution of the linear system brings the component sum to that
of the old state. -/
theorem total_newton_update (m : OdeSys_SIQRD K) (s : ode.EulerBackward K)
    (old_time new_time sol : Fin 5 → K)
    (hsol : optimization.prod_mv (s.jacG new_time m.toOdeSystem) sol
      = s.residual m.toOdeSystem old_time new_time) :
    total (fun r => new_time r - sol r) = total old_time := by
  have h1 : ∑ r, optimization.prod_mv (s.jacG new_time m.toOdeSystem) sol r = -∑ c, sol c := by
    simp only [optimization.prod_mv]
    rw [Finset.sum_comm]
    simp only [← Finset.sum_mul, jacG_col_sum, neg_one_mul, Finset.sum_neg_distrib]
  have h2 : ∑ r, s.residual m.toOdeSystem old_time new_time r
      = ∑ r, old_time r - ∑ r, new_time r := by
    have hz := call_sum_zero m new_time
    simp only [ode.EulerBackward.residual, toOdeSystem, Finset.sum_add_distrib,
      Finset.sum_sub_distrib, ← Finset.mul_sum, hz, mul_zero, add_zero]
  rw [hsol, h2] at h1
  simp only [total, Finset.sum_sub_distrib]
  linarith

/-- Every Newton iterate of the epidemic model has the component sum of the old state, as long as
the Newton matrices met so far are invertible. -/
theorem total_iterate (m : OdeSys_SIQRD K) (s : ode.EulerBackward K)
    (lu_solve : Matrix (Fin 5) (Fin 5) K → (Fin 5 → K) → (Fin 5 → K))
    (hlu : ∀ A b, A.det ≠ 0 → optimization.prod_mv A (lu_solve A b) = b)
    (old_time : Fin 5 → K) :
    ∀ i, (∀ j, j < i → (s.jacG (s.iterate lu_solve m.toOdeSystem old_time j)
        m.toOdeSystem).det ≠ 0) →
      total (s.iterate lu_solve m.toOdeSystem old_time i) = total old_time := by
  intro i
  cases i with
  | zero => intro _; rfl
  | succ i =>
    intro hdet
    rw [ode.EulerBackward.iterate_succ]
    exact total_newton_update m s old_time _ _ (hlu _ _ (hdet i (Nat.lt_succ_self i)))

end NewtonConservation

end siqrd

namespace siqrd

section ImplicitConservation

variable {K : Type} [LinearOrderedField K]

open OdeSys_SIQRD

/-- One Newton update with an invertible Newton matrix brings the component sum to that of the
old state, whatever the sum was before. -/
theorem total_update (m : OdeSys_SIQRD K) (s : ode.EulerBackward K)
    (lu_solve : Matrix (Fin 5) (Fin 5) K → (Fin 5 → K) → (Fin 5 → K))
    (hlu : ∀ A b, A.det ≠ 0 → optimization.prod_mv A (lu_solve A b) = b)
    (old_time x : Fin 5 → K) (hdet : (s.jacG x m.toOdeSystem).det ≠ 0) :
    total (s.update lu_solve m.toOdeSystem old_time x) = total old_time :=
  total_newton_update m s old_time x _ (hlu _ _ hdet)

/-- The loop of `time_step` keeps the component sum of the old state when the Newton matrices of
the iterates it goes through are invertible. -/
theorem total_loop (m : OdeSys_SIQRD K) (s : ode.EulerBackward K) (epsilon : K)
    (lu_solve : Matrix (Fin 5) (Fin 5) K → (Fin 5 → K) → (Fin 5 → K))
    (hlu : ∀ A b, A.det ≠ 0 → optimization.prod_mv A (lu_solve A b) = b)
    (old_time : Fin 5 → K) (fuel : Nat)
    (hdet : ∀ i, i < fuel →
      (s.jacG (s.iterate lu_solve m.toOdeSystem old_time i) m.toOdeSystem).det ≠ 0) :
    total (ode.EulerBackward.loop s epsilon lu_solve m.toOdeSystem old_time fuel old_time)
      = total old_time := by
  obtain ⟨i, hi, hloop⟩ := ode.loop_is_iterate s epsilon lu_solve m.toOdeSystem old_time fuel
    old_time
  rw [hloop]
  cases i with
  | zero => rfl
  | succ i =>
    rw [Function.iterate_succ_apply']
    have hi2 : i < fuel := by omega
    have hd := hdet i hi2
    simp only [ode.EulerBackward.iterate] at hd
    exact total_update m s lu_solve hlu old_time _ hd

/-- The entries of the sample model's Jacobian at its initial condition. -/
theorem sample_rates :
    sample_model.dSdS 100 5 0 = -1/882 ∧ sample_model.dSdI 100 5 0 = -200/441 ∧
    sample_model.dSdR 100 5 0 = 641/8820 ∧ sample_model.dIdS 100 5 0 = 1/882 ∧
    sample_model.dIdI 100 5 0 = 6329/44100 ∧ sample_model.dIdR 100 5 0 = -10/441 := by
  simp only [dSdS, dSdI, dSdR, dIdS, dIdI, dIdR, sample_model, sample_model_in]
  norm_num

/-- The Newton matrix of the sample model at its initial condition with `dt = 1/8`. -/
theorem sample_jacG :
    (ode.EulerBackward.create 8 (1 : ℚ)).jacG sample_model.initial_condition
        sample_model.toOdeSystem
      = !![-7057/7056, -25/441, 0, 641/70560, 0;
           1/7056, -346471/352800, 0, -5/1764, 0;
           0, 1/40, -811/800, 0, 0;
           0, 1/80, 1/80, -161/160, 0;
           0, 1/800, 1/800, 0, -1] := by
  have hJ : sample_model.toOdeSystem.jacobian sample_model.initial_condition
      = !![-1/882, -200/441, 0, 641/8820, 0;
           1/882, 6329/44100, 0, -10/441, 0;
           0, 1/5, -11/100, 0, 0;
           0, 1/10, 1/10, -1/20, 0;
           0, 1/100, 1/100, 0, 0] := by
    show sample_model.jacobian sample_model.initial_condition = _
    rw [jacobian_rows]
    obtain ⟨h1, h2, h3, h4, h5, h6⟩ := sample_rates
    have e0 : sample_model.initial_condition 0 = 100 := rfl
    have e1 : sample_model.initial_condition 1 = 5 := rfl
    have e3 : sample_model.initial_condition 3 = 0 := rfl
    rw [e0, e1, e3, h1, h2, h3, h4, h5, h6]
    simp only [sample_model, sample_model_in]
    ext i j
    fin_cases i <;> fin_cases j <;> norm_num
  rw [ode.jacG_eq, hJ]
  ext i j
  fin_cases i <;> fin_cases j <;> simp [ode.EulerBackward.create] <;>
    (try dsimp only [Matrix.vecHead, Matrix.vecTail]) <;> norm_num



set_option maxHeartbeats 800000 in
/-- The Newton matrix of the sample model at its initial condition is invertible. -/
theorem sample_jacG_det :
    ((ode.EulerBackward.create 8 (1 : ℚ)).jacG sample_model.initial_condition
        sample_model.toOdeSystem).det
      ≠ 0 := by
  rw [sample_jacG]
  apply Matrix.det_ne_zero_of_left_inverse
    (B := !![-723851631056/723960127247, 41697492640/723960127247, -82027360/723960127247, -6652418896/723960127247, 0; -14922400/103422875321, -105307376800/103422875321, 3656000/103422875321, 296501600/103422875321, 0; -368000/103422875321, -2596976000/103422875321, -102020008800/103422875321, 7312000/103422875321, 0; -1329600/723960127247, -9382987200/723960127247, -8870987200/723960127247, -719437061920/723960127247, 0; -19113/103422875321, -134880441/103422875321, -127520441/103422875321, 379767/103422875321, -1])
  ext i j
  fin_cases i <;> fin_cases j <;>
    simp [Matrix.mul_apply, Fin.sum_univ_five] <;>
    (try dsimp only [Matrix.vecHead, Matrix.vecTail]) <;> norm_num

end ImplicitConservation

/-- C30: for the epidemic model with any parameters and any `dt`, every Newton iterate of the
implicit Euler step after an update whose Newton matrix `dt*J - I` is invertible has the same
component sum `S+I+Q+R+D` as the old state; so every column of a trajectory that
`OdeSolver::solve` returns with the implicit Euler scheme has the component sum of the initial
condition, when the Newton matrices met on the way are invertible; and in the build without
`DMETHODS` `solve` does return on a buffer of 5 rows and `N+1` columns.  The linear solve is
assumed to solve every invertible system. -/
theorem C30_implicit_euler_conserves_total {K : Type} [LinearOrderedField K]
    (m : OdeSys_SIQRD K)
    (lu_solve : Matrix (Fin 5) (Fin 5) K → (Fin 5 → K) → (Fin 5 → K))
    (hlu : ∀ A b, A.det ≠ 0 → optimization.prod_mv A (lu_solve A b) = b) :
    (∀ (s : ode.EulerBackward K) (old_time : Fin 5 → K) (i : Nat),
        (s.jacG (s.iterate lu_solve m.toOdeSystem old_time i) m.toOdeSystem).det ≠ 0 →
        total (s.iterate lu_solve m.toOdeSystem old_time (i + 1)) = total old_time) ∧
    (∀ (DMETHODS : Bool) (epsilon : K) (N : Nat) (T quiet_NaN : K) (buf out : ode.Buffer K),
        (ode.OdeSolver.create
            (fun n t => (ode.EulerBackward.create n t).scheme DMETHODS epsilon lu_solve) N T).solve
          quiet_NaN m.toOdeSystem buf = .ok out →
        (∀ j i, j < N → i < 1000 →
          ((ode.EulerBackward.create N T).jacG
            ((ode.EulerBackward.create N T).iterate lu_solve m.toOdeSystem (out.column 5 j) i)
            m.toOdeSystem).det ≠ 0) →
        ∀ j, j ≤ N → total (out.column 5 j) = total m.initial_condition) ∧
    (∀ (epsilon : K) (N : Nat) (T quiet_NaN : K) (buf : ode.Buffer K),
        buf.size1 = 5 → buf.size2 = N + 1 →
        ∃ out, (ode.OdeSolver.create
            (fun n t => (ode.EulerBackward.create n t).scheme false epsilon lu_solve) N T).solve
          quiet_NaN m.toOdeSystem buf = .ok out) := by
  refine ⟨fun s old_time i hdet => ?_, ?_, ?_⟩
  · rw [ode.EulerBackward.iterate_succ]
    exact total_update m s lu_solve hlu old_time _ hdet
  · intro DMETHODS epsilon N T quiet_NaN buf out hout hdet
    obtain ⟨h0, hstep⟩ := ode.solve_spec _ quiet_NaN m.toOdeSystem buf out hout
    intro j
    induction j with
    | zero => intro _; rw [h0]; rfl
    | succ j ih =>
      intro hj
      have hjN : j < N := by omega
      rw [← ih (by omega)]
      have hs := hstep j hjN
      cases DMETHODS with
      | true =>
        have hfail := ode.time_step_dmethods (ode.EulerBackward.create N T) epsilon lu_solve
          m.toOdeSystem (out.column 5 j)
        have hs2 : (ode.EulerBackward.create N T).time_step true epsilon lu_solve
            m.toOdeSystem (out.column 5 j) = .ok (out.column 5 (j + 1)) := hs
        rw [hfail] at hs2
        cases hs2
      | false =>
        have hs2 : (Except.ok (ode.EulerBackward.loop (ode.EulerBackward.create N T) epsilon
            lu_solve m.toOdeSystem (out.column 5 j) 1000 (out.column 5 j)) :
              Except ode.Failure (Fin 5 → K)) = .ok (out.column 5 (j + 1)) := hs
        rw [← Except.ok.inj hs2]
        exact total_loop m _ epsilon lu_solve hlu _ 1000 (fun i hi => hdet j i hjN hi)
  · intro epsilon N T quiet_NaN buf h1 h2
    exact ode.solve_total _ quiet_NaN m.toOdeSystem buf h1 h2 (fun x => ⟨_, rfl⟩)

set_option maxRecDepth 8000 in
/-- C30 at the sample model with `dt = 1/8` and Cramer's rule as the linear solve: the Newton
matrix at the initial condition is invertible, the first Newton iterate has the component sum of
the old state, and `solve` returns on a zero buffer of shape 5 by 9. -/
theorem C30_implicit_euler_conserves_total_witness :
    ((ode.EulerBackward.create 8 (1 : ℚ)).jacG sample_model.initial_condition
        sample_model.toOdeSystem).det ≠ 0 ∧
      total ((ode.EulerBackward.create 8 (1 : ℚ)).iterate ode.cramer_solve
        sample_model.toOdeSystem sample_model.initial_condition 1)
        = total sample_model.initial_condition ∧
      ∃ out, (ode.OdeSolver.create
          (fun n t => (ode.EulerBackward.create n t).scheme false ode.epsilon_double
            ode.cramer_solve) 8 1).solve 0 sample_model.toOdeSystem (ode.zero_buffer 5 9)
        = .ok out := by
  have h := C30_implicit_euler_conserves_total sample_model ode.cramer_solve
    (fun A b h => ode.cramer_solve_correct A b h)
  have hdet : ((ode.EulerBackward.create 8 (1 : ℚ)).jacG
      ((ode.EulerBackward.create 8 (1 : ℚ)).iterate ode.cramer_solve sample_model.toOdeSystem
        sample_model.initial_condition 0) sample_model.toOdeSystem).det ≠ 0 := by
    simp only [ode.EulerBackward.iterate, Function.iterate_zero, id_eq]
    exact sample_jacG_det
  have h1 : (ode.zero_buffer 5 9).size1 = 5 := rfl
  have h2 : (ode.zero_buffer 5 9).size2 = 8 + 1 := rfl
  exact ⟨sample_jacG_det,
    h.1 (ode.EulerBackward.create 8 (1 : ℚ)) sample_model.initial_condition 0 hdet,
    h.2.2 ode.epsilon_double 8 1 0 _ h1 h2⟩

end siqrd

namespace optimization

section Symmetry

variable {K : Type} [LinearOrderedField K] {dim : Nat}

/-- For a symmetric matrix the products `d^T*H` and `H*d` are the same vector. -/
theorem prod_vm_eq_prod_mv (H : Matrix (Fin dim) (Fin dim) K) (hH : H.IsSymm)
    (d : Fin dim → K) : prod_vm d H = prod_mv H d := by
  funext j
  simp only [prod_vm, prod_mv]
  refine Finset.sum_congr rfl (fun i _ => ?_)
  rw [mul_comm, hH.apply j i]

/-- The matrix assigned to `hessian` by the update is symmetric when `hessian` is. -/
theorem update_formula_symm (H : Matrix (Fin dim) (Fin dim) K) (hH : H.IsSymm)
    (d y : Fin dim → K) (s : K) :
    Matrix.IsSymm (fun i j => H i j + (-outer_prod (prod_mv H d) (prod_vm d H) i j
      / inner_prod (prod_vm d H) d + outer_prod y y i j / (inner_prod d y * s))) := by
  rw [prod_vm_eq_prod_mv H hH d]
  apply Matrix.IsSymm.ext
  intro i j
  simp only [outer_prod]
  rw [hH.apply i j, mul_comm (prod_mv H d j) (prod_mv H d i), mul_comm (y j) (y i)]

end Symmetry

/-- C21: the BFGS Hessian approximation is symmetric throughout a run: the identity matrix, with
which a run starts by default, is symmetric; for every symmetric `H`, direction `d`, step `s` and
vector `y` the matrix `H - outer(H*d, d^T*H)/((d^T*H) . d) + outer(y, y)/((d . y) * s)` is
symmetric; so the update of every iteration takes a symmetric `hessian` to a symmetric one, and
at the top of every iteration `k` of a run started from a symmetric matrix, the identity among
them, `hessian` is symmetric. -/
theorem C21_hessian_symmetric {K : Type} [LinearOrderedField K] {dim : Nat} :
    (1 : Matrix (Fin dim) (Fin dim) K).IsSymm ∧
      (∀ (H : Matrix (Fin dim) (Fin dim) K) (d y : Fin dim → K) (s : K), H.IsSymm →
        Matrix.IsSymm (fun i j => H i j + (-outer_prod (prod_mv H d) (prod_vm d H) i j
          / inner_prod (prod_vm d H) d + outer_prod y y i j / (inner_prod d y * s)))) ∧
      (∀ (lu_solve : Matrix (Fin dim) (Fin dim) K → (Fin dim → K) → (Fin dim → K))
          (target_fun : target_functor K dim) (tolerance : K) (st : BFGS_state K dim),
        st.hessian.IsSymm → (BFGS_update lu_solve target_fun tolerance st).hessian.IsSymm) ∧
      (∀ (lu_solve : Matrix (Fin dim) (Fin dim) K → (Fin dim → K) → (Fin dim → K))
          (target_fun : target_functor K dim) (tolerance : K) (x0 : Fin dim → K)
          (H0 : Matrix (Fin dim) (Fin dim) K), H0.IsSymm →
        ∀ k, (BFGS_iterate lu_solve target_fun tolerance x0 H0 k).hessian.IsSymm) ∧
      (∀ (lu_solve : Matrix (Fin dim) (Fin dim) K → (Fin dim → K) → (Fin dim → K))
          (target_fun : target_functor K dim) (tolerance : K) (x0 : Fin dim → K) (k : Nat),
        (BFGS_iterate lu_solve target_fun tolerance x0 1 k).hessian.IsSymm) := by
  have hupd : ∀ (lu_solve : Matrix (Fin dim) (Fin dim) K → (Fin dim → K) → (Fin dim → K))
      (target_fun : target_functor K dim) (tolerance : K) (st : BFGS_state K dim),
      st.hessian.IsSymm → (BFGS_update lu_solve target_fun tolerance st).hessian.IsSymm :=
    fun lu_solve target_fun tolerance st hst => update_formula_symm st.hessian hst _ _ _
  have hrun : ∀ (lu_solve : Matrix (Fin dim) (Fin dim) K → (Fin dim → K) → (Fin dim → K))
      (target_fun : target_functor K dim) (tolerance : K) (x0 : Fin dim → K)
      (H0 : Matrix (Fin dim) (Fin dim) K), H0.IsSymm →
      ∀ k, (BFGS_iterate lu_solve target_fun tolerance x0 H0 k).hessian.IsSymm := by
    intro lu_solve target_fun tolerance x0 H0 hH0 k
    induction k with
    | zero => exact hH0
    | succ k ih =>
      rw [BFGS_iterate_succ]
      exact hupd lu_solve target_fun tolerance _ ih
  exact ⟨Matrix.isSymm_one, fun H d y s hH => update_formula_symm H hH d y s, hupd, hrun,
    fun lu_solve target_fun tolerance x0 k =>
      hrun lu_solve target_fun tolerance x0 1 Matrix.isSymm_one k⟩

end optimization

namespace optimization

section LoopExit

variable {K : Type} [LinearOrderedField K] {dim : Nat}
variable (norm_2 : (Fin dim → K) → K)
variable (lu_solve : Matrix (Fin dim) (Fin dim) K → (Fin dim → K) → (Fin dim → K))
variable (formula_nu_k : (Fin dim → K) → (Fin dim → K) → K)
variable (target_fun : target_functor K dim) (tolerance : K)

/-- The loop of `BFGS`, entered at the top of iteration `k` of a run in which no earlier check has
passed, is left at the top of an iteration `m` at most `fuel` later: the first one whose check
passes, or the one at which the counter runs out. -/
theorem BFGS_loop_exit (x0 : Fin dim → K) (H0 : Matrix (Fin dim) (Fin dim) K) :
    ∀ (fuel k : Nat),
      (∀ j, j < k → ¬ BFGS_converged norm_2 lu_solve target_fun tolerance
        (BFGS_iterate lu_solve target_fun tolerance x0 H0 j)) →
      ∃ m, k ≤ m ∧ m ≤ k + fuel ∧
        BFGS_loop norm_2 lu_solve target_fun tolerance fuel
            (BFGS_iterate lu_solve target_fun tolerance x0 H0 k)
          = BFGS_iterate lu_solve target_fun tolerance x0 H0 m ∧
        (∀ j, j < m → ¬ BFGS_converged norm_2 lu_solve target_fun tolerance
          (BFGS_iterate lu_solve target_fun tolerance x0 H0 j)) ∧
        (m < k + fuel → BFGS_converged norm_2 lu_solve target_fun tolerance
          (BFGS_iterate lu_solve target_fun tolerance x0 H0 m)) := by
  intro fuel
  induction fuel with
  | zero =>
    intro k hfail
    exact ⟨k, le_rfl, le_rfl, rfl, hfail, fun h => absurd h (by omega)⟩
  | succ fuel ih =>
    intro k hfail
    by_cases hp : BFGS_converged norm_2 lu_solve target_fun tolerance
        (BFGS_iterate lu_solve target_fun tolerance x0 H0 k)
    · exact ⟨k, le_rfl, by omega, by simp only [BFGS_loop, if_pos hp], hfail, fun _ => hp⟩
    · have hfail2 : ∀ j, j < k + 1 → ¬ BFGS_converged norm_2 lu_solve target_fun tolerance
          (BFGS_iterate lu_solve target_fun tolerance x0 H0 j) := by
        intro j hj
        by_cases hjk : j = k
        · rw [hjk]; exact hp
        · exact hfail j (by omega)
      obtain ⟨m, hkm, hmf, hloop, hm1, hm2⟩ := ih (k + 1) hfail2
      refine ⟨m, by omega, by omega, ?_, hm1, fun h => hm2 (by omega)⟩
      simp only [BFGS_loop, if_neg hp]
      rw [← BFGS_iterate_succ]
      exact hloop

/-- The loop of `CGM`, entered at the top of iteration `k` of a run in which no earlier check has
passed, is left at the top of an iteration `m` at most `fuel` later: the first one whose real
convergence check passes, or the one at which the counter runs out. -/
theorem CGM_loop_exit (x0 : Fin dim → K) (quiet_NaN : K) :
    ∀ (fuel k : Nat),
      (∀ j, j < k → ¬ CGM_converged norm_2 formula_nu_k target_fun tolerance j
        (CGM_iterate norm_2 formula_nu_k target_fun tolerance x0 quiet_NaN j)) →
      ∃ m, k ≤ m ∧ m ≤ k + fuel ∧
        CGM_loop norm_2 formula_nu_k target_fun tolerance fuel k
            (CGM_iterate norm_2 formula_nu_k target_fun tolerance x0 quiet_NaN k)
          = CGM_iterate norm_2 formula_nu_k target_fun tolerance x0 quiet_NaN m ∧
        (∀ j, j < m → ¬ CGM_converged norm_2 formula_nu_k target_fun tolerance j
          (CGM_iterate norm_2 formula_nu_k target_fun tolerance x0 quiet_NaN j)) ∧
        (m < k + fuel → CGM_converged norm_2 formula_nu_k target_fun tolerance m
          (CGM_iterate norm_2 formula_nu_k target_fun tolerance x0 quiet_NaN m)) := by
  intro fuel
  induction fuel with
  | zero =>
    intro k hfail
    exact ⟨k, le_rfl, le_rfl, rfl, hfail, fun h => absurd h (by omega)⟩
  | succ fuel ih =>
    intro k hfail
    by_cases hp : CGM_converged norm_2 formula_nu_k target_fun tolerance k
        (CGM_iterate norm_2 formula_nu_k target_fun tolerance x0 quiet_NaN k)
    · exact ⟨k, le_rfl, by omega, by simp only [CGM_loop, if_pos hp], hfail, fun _ => hp⟩
    · have hfail2 : ∀ j, j < k + 1 → ¬ CGM_converged norm_2 formula_nu_k target_fun tolerance j
          (CGM_iterate norm_2 formula_nu_k target_fun tolerance x0 quiet_NaN j) := by
        intro j hj
        by_cases hjk : j = k
        · rw [hjk]; exact hp
        · exact hfail j (by omega)
      obtain ⟨m, hkm, hmf, hloop, hm1, hm2⟩ := ih (k + 1) hfail2
      refine ⟨m, by omega, by omega, ?_, hm1, fun h => hm2 (by omega)⟩
      simp only [CGM_loop, if_neg hp]
      exact hloop

/-- The function `BFGS` returns the variables at the top of the iteration at which its loop is
left. -/
theorem BFGS_exit (x0 : Fin dim → K) (H0 : Matrix (Fin dim) (Fin dim) K) :
    ∃ m, m ≤ 1000 ∧
      BFGS norm_2 lu_solve target_fun tolerance x0 H0
        = (BFGS_iterate lu_solve target_fun tolerance x0 H0 m).vars ∧
      (∀ j, j < m → ¬ BFGS_converged norm_2 lu_solve target_fun tolerance
        (BFGS_iterate lu_solve target_fun tolerance x0 H0 j)) ∧
      (m < 1000 → BFGS_converged norm_2 lu_solve target_fun tolerance
        (BFGS_iterate lu_solve target_fun tolerance x0 H0 m)) := by
  obtain ⟨m, _, hm, hloop, h1, h2⟩ := BFGS_loop_exit norm_2 lu_solve target_fun tolerance x0 H0
    1000 0 (fun j hj => absurd hj (by omega))
  refine ⟨m, by omega, ?_, h1, fun h => h2 (by omega)⟩
  have h0 : BFGS_iterate lu_solve target_fun tolerance x0 H0 0 = BFGS_init target_fun x0 H0 :=
    rfl
  rw [BFGS, BFGS_max_iters, ← h0, hloop]

/-- The function `CGM` returns the variables at the top of the iteration at which its loop is
left. -/
theorem CGM_exit (x0 : Fin dim → K) (quiet_NaN : K) :
    ∃ m, m ≤ 1000 ∧
      CGM norm_2 formula_nu_k target_fun tolerance x0 quiet_NaN
        = (CGM_iterate norm_2 formula_nu_k target_fun tolerance x0 quiet_NaN m).vars ∧
      (∀ j, j < m → ¬ CGM_converged norm_2 formula_nu_k target_fun tolerance j
        (CGM_iterate norm_2 formula_nu_k target_fun tolerance x0 quiet_NaN j)) ∧
      (m < 1000 → CGM_converged norm_2 formula_nu_k target_fun tolerance m
        (CGM_iterate norm_2 formula_nu_k target_fun tolerance x0 quiet_NaN m)) := by
  obtain ⟨m, _, hm, hloop, h1, h2⟩ := CGM_loop_exit norm_2 formula_nu_k target_fun tolerance x0
    quiet_NaN 1000 0 (fun j hj => absurd hj (by omega))
  refine ⟨m, by omega, ?_, h1, fun h => h2 (by omega)⟩
  have h0 : CGM_iterate norm_2 formula_nu_k target_fun tolerance x0 quiet_NaN 0
      = CGM_init x0 quiet_NaN := rfl
  rw [CGM, CGM_max_iters, ← h0, hloop]

/-- When no real convergence check passes, `CGM` returns the variables after the 1000th
update. -/
theorem CGM_all_fail (x0 : Fin dim → K) (quiet_NaN : K)
    (hfail : ∀ j, j < 1000 → ¬ CGM_converged norm_2 formula_nu_k target_fun tolerance j
      (CGM_iterate norm_2 formula_nu_k target_fun tolerance x0 quiet_NaN j)) :
    CGM norm_2 formula_nu_k target_fun tolerance x0 quiet_NaN
      = (CGM_iterate norm_2 formula_nu_k target_fun tolerance x0 quiet_NaN 1000).vars := by
  obtain ⟨m, hm, hret, _, h2⟩ := CGM_exit norm_2 formula_nu_k target_fun tolerance x0 quiet_NaN
  by_cases hlt : m < 1000
  · exact absurd (h2 hlt) (hfail m hlt)
  · obtain rfl : m = 1000 := by omega
    exact hret

/-- When the real convergence check passes first at iteration `k` below the cap, `CGM` returns
the variables at the top of iteration `k`. -/
theorem CGM_first_pass (x0 : Fin dim → K) (quiet_NaN : K) (k : Nat) (hk : k < 1000)
    (hp : CGM_converged norm_2 formula_nu_k target_fun tolerance k
      (CGM_iterate norm_2 formula_nu_k target_fun tolerance x0 quiet_NaN k))
    (hfail : ∀ j, j < k → ¬ CGM_converged norm_2 formula_nu_k target_fun tolerance j
      (CGM_iterate norm_2 formula_nu_k target_fun tolerance x0 quiet_NaN j)) :
    CGM norm_2 formula_nu_k target_fun tolerance x0 quiet_NaN
      = (CGM_iterate norm_2 formula_nu_k target_fun tolerance x0 quiet_NaN k).vars := by
  obtain ⟨m, hm, hret, h1, h2⟩ := CGM_exit norm_2 formula_nu_k target_fun tolerance x0 quiet_NaN
  have hmk : m = k := by
    rcases Nat.lt_trichotomy m k with h | h | h
    · exact absurd (h2 (by omega)) (hfail m h)
    · exact h
    · exact absurd hp (h1 k h)
  rw [hret, hmk]

end LoopExit

/-- C22: for every objective, start and tolerance, both BFGS and CGM leave their loop after at
most 1000 outer iterations and return a parameter vector: the variables at the top of an
iteration `m ≤ 1000`, which is the first iteration whose convergence check passes when `m < 1000`;
if the check never passes they return the variables reached after the 1000th update.  For CGM
the dimension is positive, as the remainder `k % dim` in its loop requires. -/
theorem C22_at_most_1000_iterations {K : Type} [LinearOrderedField K] {dim : Nat}
    (norm_2 : (Fin dim → K) → K)
    (lu_solve : Matrix (Fin dim) (Fin dim) K → (Fin dim → K) → (Fin dim → K))
    (formula_nu_k : (Fin dim → K) → (Fin dim → K) → K)
    (target_fun : target_functor K dim) (tolerance : K) (x0 : Fin dim → K)
    (H0 : Matrix (Fin dim) (Fin dim) K) (quiet_NaN : K) :
    (∃ m, m ≤ 1000 ∧
        BFGS norm_2 lu_solve target_fun tolerance x0 H0
          = (BFGS_iterate lu_solve target_fun tolerance x0 H0 m).vars ∧
        (∀ j, j < m → ¬ BFGS_converged norm_2 lu_solve target_fun tolerance
          (BFGS_iterate lu_solve target_fun tolerance x0 H0 j)) ∧
        (m < 1000 → BFGS_converged norm_2 lu_solve target_fun tolerance
          (BFGS_iterate lu_solve target_fun tolerance x0 H0 m))) ∧
      ((∀ j, j < 1000 → ¬ BFGS_converged norm_2 lu_solve target_fun tolerance
          (BFGS_iterate lu_solve target_fun tolerance x0 H0 j)) →
        BFGS norm_2 lu_solve target_fun tolerance x0 H0
          = (BFGS_iterate lu_solve target_fun tolerance x0 H0 1000).vars) ∧
      (0 < dim →
        (∃ m, m ≤ 1000 ∧
          CGM norm_2 formula_nu_k target_fun tolerance x0 quiet_NaN
            = (CGM_iterate norm_2 formula_nu_k target_fun tolerance x0 quiet_NaN m).vars ∧
          (∀ j, j < m → ¬ CGM_converged norm_2 formula_nu_k target_fun tolerance j
            (CGM_iterate norm_2 formula_nu_k target_fun tolerance x0 quiet_NaN j)) ∧
          (m < 1000 → CGM_converged norm_2 formula_nu_k target_fun tolerance m
            (CGM_iterate norm_2 formula_nu_k target_fun tolerance x0 quiet_NaN m))) ∧
        ((∀ j, j < 1000 → ¬ CGM_converged norm_2 formula_nu_k target_fun tolerance j
            (CGM_iterate norm_2 formula_nu_k target_fun tolerance x0 quiet_NaN j)) →
          CGM norm_2 formula_nu_k target_fun tolerance x0 quiet_NaN
            = (CGM_iterate norm_2 formula_nu_k target_fun tolerance x0 quiet_NaN 1000).vars)) := by
  refine ⟨BFGS_exit norm_2 lu_solve target_fun tolerance x0 H0, fun hfail => ?_,
    fun _ => ⟨CGM_exit norm_2 formula_nu_k target_fun tolerance x0 quiet_NaN,
      CGM_all_fail norm_2 formula_nu_k target_fun tolerance x0 quiet_NaN⟩⟩
  rw [BFGS, BFGS_max_iters, BFGS_loop_all_fail norm_2 lu_solve target_fun tolerance 1000 _ hfail]
  rfl

end optimization

namespace optimization

/-- C23: for all gradient vectors `g_new` and `g_old` with `g_old ≠ 0`, `FR_formula::nu_k`
returns `(g_new . g_new)/(g_old . g_old)` and `PR_formula::nu_k` returns
`(g_new . (g_new - g_old))/(g_old . g_old)`, and `g_old . g_old` is not zero; `norm_2` is the
Euclidean norm, the non-negative number whose square is the sum of the squares of the entries. -/
theorem C23_nu_k_formulas {K : Type} [LinearOrderedField K] {dim : Nat}
    (norm_2 : (Fin dim → K) → K) (hnorm : ∀ v, norm_2 v ^ 2 = ∑ i, v i ^ 2)
    (g_new g_old : Fin dim → K) (hold : g_old ≠ 0) :
    FR_formula.nu_k norm_2 g_new g_old = inner_prod g_new g_new / inner_prod g_old g_old ∧
      PR_formula.nu_k norm_2 g_new g_old
        = inner_prod g_new (fun i => g_new i - g_old i) / inner_prod g_old g_old ∧
      inner_prod g_old g_old ≠ 0 := by
  have hsq : ∀ v : Fin dim → K, inner_prod v v = norm_2 v ^ 2 := by
    intro v
    rw [hnorm]
    simp only [inner_prod, pow_two]
  refine ⟨?_, ?_, ?_⟩
  · rw [FR_formula.nu_k, div_pow, hsq, hsq]
  · rw [PR_formula.nu_k, hsq]
  · intro h0
    apply hold
    funext i
    have hsum : ∑ i, g_old i * g_old i = 0 := h0
    have hi := (Finset.sum_eq_zero_iff_of_nonneg
      (fun j _ => mul_self_nonneg (g_old j))).1 hsum i (Finset.mem_univ i)
    exact mul_self_eq_zero.1 hi

/-- C23 over the reals in two dimensions with the Euclidean norm, at `g_new = [3, 4]` and
`g_old = [1, 2]`: the Fletcher-Reeves coefficient is `25/5` and the Polak-Ribiere coefficient is
`(3*2 + 4*2)/5`. -/
theorem C23_nu_k_formulas_witness :
    FR_formula.nu_k (fun v : Fin 2 → ℝ => Real.sqrt (∑ i, v i ^ 2)) ![3, 4] ![1, 2] = 5 ∧
      PR_formula.nu_k (fun v : Fin 2 → ℝ => Real.sqrt (∑ i, v i ^ 2)) ![3, 4] ![1, 2]
        = 14 / 5 := by
  have h := C23_nu_k_formulas (fun v : Fin 2 → ℝ => Real.sqrt (∑ i, v i ^ 2))
    (fun v => Real.sq_sqrt (Finset.sum_nonneg (fun i _ => sq_nonneg (v i))))
    ![3, 4] ![1, 2] (fun h0 => by
      have h1 := congrFun h0 0
      simp at h1)
  obtain ⟨hFR, hPR, -⟩ := h
  rw [hFR, hPR]
  simp only [inner_prod, Fin.sum_univ_two, Matrix.cons_val_zero, Matrix.cons_val_one,
    Matrix.head_cons]
  norm_num

end optimization

namespace optimization

section SearchValue

variable {K : Type} [LinearOrderedField K] {dim : Nat}

/-- The line search returns the trial `s / 2^k` after `k` halvings when the `k` trials before it
are above `min_step_` and refused and the loop stops at trial `k`: the counter is at 100, the
trial is not above `min_step_`, or the trial is accepted. -/
theorem LineSearch.search_eq (ls : LineSearch K) (pk dk : Fin dim → K) (target_k : K)
    (grad_target_k : Fin dim → K) (target : target_functor K dim) (s : K) (k : Nat)
    (hk : k ≤ 100)
    (hrej : ∀ j, j < k → s / 2 ^ j > ls.min_step_ ∧
      ¬ LineSearch.accepts pk dk target_k grad_target_k target (s / 2 ^ j))
    (hstop : k < 100 → ¬ s / 2 ^ k > ls.min_step_ ∨
      LineSearch.accepts pk dk target_k grad_target_k target (s / 2 ^ k)) :
    ls.search pk dk target_k grad_target_k target s = (s / 2 ^ k, k) := by
  obtain ⟨m, hm, hval, hrejm, hlast⟩ :=
    LineSearch.search_spec ls pk dk target_k grad_target_k target s
  have hmk : m = k := by
    rcases Nat.lt_trichotomy m k with h | h | h
    · exact absurd (hlast (by omega) (hrej m h).1) (hrej m h).2
    · exact h
    · rcases hstop (by omega) with h1 | h1
      · exact absurd (hrejm k h).1 h1
      · exact absurd h1 (hrejm k h).2
  rw [hval, hmk]

end SearchValue

section CGMLemmas

variable {K : Type} [LinearOrderedField K] {dim : Nat}
variable (norm_2 : (Fin dim → K) → K)
variable (formula_nu_k : (Fin dim → K) → (Fin dim → K) → K)
variable (target_fun : target_functor K dim) (tolerance : K)

/-- The direction of a restart iteration. -/
theorem CGM_new_direction_restart (k : Nat) (st : CGM_state K dim) (hk : k % dim = 0) :
    CGM_new_direction formula_nu_k target_fun k st
      = fun i => -target_fun.gradient st.vars (target_fun.call st.vars) i := by
  funext i
  simp only [CGM_new_direction, hk, ne_eq, not_true_eq_false, if_false, CGM_gradient,
    neg_one_mul]

/-- The direction of an iteration that is not a restart. -/
theorem CGM_new_direction_conjugate (k : Nat) (st : CGM_state K dim) (hk : k % dim ≠ 0) :
    CGM_new_direction formula_nu_k target_fun k st
      = fun i => -target_fun.gradient st.vars (target_fun.call st.vars) i
          + formula_nu_k (target_fun.gradient st.vars (target_fun.call st.vars))
              st.grad_target_k * st.direction i := by
  funext i
  simp only [CGM_new_direction, hk, ne_eq, not_false_eq_true, if_true, CGM_gradient,
    neg_one_mul]

theorem CGM_steepest_direction_eq (st : CGM_state K dim) :
    CGM_steepest_direction target_fun st
      = fun i => -target_fun.gradient st.vars (target_fun.call st.vars) i := by
  funext i
  simp only [CGM_steepest_direction, CGM_gradient, neg_one_mul]

end CGMLemmas

/-- C24: in CGM, at every iteration `k` with `k mod dim = 0`, iteration 0 among them, the search
direction, along which the first line search of the iteration runs, is exactly
`-gradient(variables)` and does not depend on the previous direction or the previous gradient; at
every other iteration it is `-gradient(variables) + nu_k * previous_direction` with `nu_k`
computed by the selected formula from the current and the previous gradient.  In a run the
previous direction and the previous gradient at the top of iteration `j + 1` are the direction on
which iteration `j` ended and the gradient at the variables of iteration `j`. -/
theorem C24_cgm_direction {K : Type} [LinearOrderedField K] {dim : Nat}
    (formula_nu_k : (Fin dim → K) → (Fin dim → K) → K) (target_fun : target_functor K dim)
    (k : Nat) (st : CGM_state K dim) :
    (k % dim = 0 →
        CGM_new_direction formula_nu_k target_fun k st
            = (fun i => -target_fun.gradient st.vars (target_fun.call st.vars) i) ∧
          ∀ previous_direction previous_gradient : Fin dim → K,
            CGM_new_direction formula_nu_k target_fun k
                ⟨st.vars, previous_direction, previous_gradient⟩
              = CGM_new_direction formula_nu_k target_fun k st) ∧
      (k % dim ≠ 0 →
        CGM_new_direction formula_nu_k target_fun k st
          = fun i => -target_fun.gradient st.vars (target_fun.call st.vars) i
              + formula_nu_k (target_fun.gradient st.vars (target_fun.call st.vars))
                  st.grad_target_k * st.direction i) ∧
      CGM_new_direction formula_nu_k target_fun 0 st
        = (fun i => -target_fun.gradient st.vars (target_fun.call st.vars) i) ∧
      ∀ (norm_2 : (Fin dim → K) → K) (tolerance : K) (x0 : Fin dim → K) (quiet_NaN : K)
        (j : Nat),
        (CGM_iterate norm_2 formula_nu_k target_fun tolerance x0 quiet_NaN (j + 1)).direction
            = CGM_direction norm_2 formula_nu_k target_fun tolerance j
                (CGM_iterate norm_2 formula_nu_k target_fun tolerance x0 quiet_NaN j) ∧
          (CGM_iterate norm_2 formula_nu_k target_fun tolerance x0 quiet_NaN
              (j + 1)).grad_target_k
            = target_fun.gradient
                (CGM_iterate norm_2 formula_nu_k target_fun tolerance x0 quiet_NaN j).vars
                (target_fun.call
                  (CGM_iterate norm_2 formula_nu_k target_fun tolerance x0 quiet_NaN j).vars) := by
  refine ⟨fun hk => ⟨CGM_new_direction_restart formula_nu_k target_fun k st hk,
      fun d g => ?_⟩,
    fun hk => CGM_new_direction_conjugate formula_nu_k target_fun k st hk,
    CGM_new_direction_restart formula_nu_k target_fun 0 st (Nat.zero_mod dim),
    fun norm_2 tolerance x0 quiet_NaN j => ⟨rfl, rfl⟩⟩
  rw [CGM_new_direction_restart formula_nu_k target_fun k st hk,
    CGM_new_direction_restart formula_nu_k target_fun k _ hk]

end optimization

namespace optimization

/-- C25: in CGM, when at an iteration that is not a restart the residual
`step*norm2(direction)/norm2(variables)` of the conjugate direction is below `tolerance`, the
direction is replaced by `-gradient(variables)`, the line search is run again along it from the
step `0.01`, and the residual of this second pass alone decides convergence: when it is below
`tolerance` the loop is left with the variables unchanged; when it is not, the variables are
advanced by the second step along the steepest-descent direction, and that direction is the
previous direction of the next iteration. -/
theorem C25_cgm_second_pass {K : Type} [LinearOrderedField K] {dim : Nat}
    (norm_2 : (Fin dim → K) → K) (formula_nu_k : (Fin dim → K) → (Fin dim → K) → K)
    (target_fun : target_functor K dim) (tolerance : K) (k : Nat) (st : CGM_state K dim)
    (hk : k % dim ≠ 0)
    (hres : norm_2 st.vars ≠ 0 ∧
      (LineSearch.create tolerance).call st.vars (CGM_new_direction formula_nu_k target_fun k st)
          (target_fun.call st.vars) (target_fun.gradient st.vars (target_fun.call st.vars))
          target_fun 0.01
        * norm_2 (CGM_new_direction formula_nu_k target_fun k st) / norm_2 st.vars
        < tolerance) :
    let g : Fin dim → K := target_fun.gradient st.vars (target_fun.call st.vars)
    let d : Fin dim → K := fun i => -g i
    let s : K := (LineSearch.create tolerance).call st.vars d (target_fun.call st.vars) g
      target_fun 0.01
    CGM_direction norm_2 formula_nu_k target_fun tolerance k st = d ∧
      CGM_step_size norm_2 formula_nu_k target_fun tolerance k st = s ∧
      (CGM_converged norm_2 formula_nu_k target_fun tolerance k st
        ↔ s * norm_2 d / norm_2 st.vars < tolerance) ∧
      (s * norm_2 d / norm_2 st.vars < tolerance →
        ∀ fuel, (CGM_loop norm_2 formula_nu_k target_fun tolerance (fuel + 1) k st).vars
          = st.vars) ∧
      (¬ s * norm_2 d / norm_2 st.vars < tolerance →
        CGM_update norm_2 formula_nu_k target_fun tolerance k st
            = ⟨fun i => st.vars i + s * d i, d, g⟩ ∧
          ∀ fuel, CGM_loop norm_2 formula_nu_k target_fun tolerance (fuel + 1) k st
            = CGM_loop norm_2 formula_nu_k target_fun tolerance fuel (k + 1)
                ⟨fun i => st.vars i + s * d i, d, g⟩) := by
  intro g d s
  have hretry : CGM_retry norm_2 formula_nu_k target_fun tolerance k st := ⟨hres, hk⟩
  have hdir : CGM_direction norm_2 formula_nu_k target_fun tolerance k st = d := by
    rw [CGM_direction, if_pos hretry, CGM_steepest_direction_eq]
  have hstep : CGM_step_size norm_2 formula_nu_k target_fun tolerance k st = s := by
    rw [CGM_step_size, hdir]
    rfl
  have hconv : CGM_converged norm_2 formula_nu_k target_fun tolerance k st
      ↔ s * norm_2 d / norm_2 st.vars < tolerance := by
    rw [CGM_converged, hdir]
    exact ⟨fun h => h.2, fun h => ⟨hres.1, h⟩⟩
  have hupd : CGM_update norm_2 formula_nu_k target_fun tolerance k st
      = ⟨fun i => st.vars i + s * d i, d, g⟩ := by
    simp only [CGM_update, hdir, hstep]
    rfl
  refine ⟨hdir, hstep, hconv, fun h fuel => ?_, fun h => ⟨hupd, fun fuel => ?_⟩⟩
  · simp only [CGM_loop, if_pos (hconv.2 h)]
  · simp only [CGM_loop, if_neg (fun hc => h (hconv.1 hc)), hupd]

end optimization

namespace optimization

section CGMExample

variable {K : Type} [LinearOrderedField K]

theorem steep_bowl_call : (steep_bowl K).call ![6, 8] = 250 := by
  simp [steep_bowl]
  norm_num

theorem steep_bowl_gradient (t : K) : (steep_bowl K).gradient ![6, 8] t = ![60, 80] := by
  funext i
  fin_cases i <;> simp [steep_bowl] <;> norm_num

/-- At the state with variables `[6, 8]`, previous direction `[60, 80]` and previous gradient
`[60, 80]`, the Fletcher-Reeves coefficient is one and the conjugate direction of iteration 1 is
zero. -/
theorem steep_bowl_new_direction (norm_2 : (Fin 2 → K) → K) (hg : norm_2 ![60, 80] = 100) :
    CGM_new_direction (FR_formula.nu_k norm_2) (steep_bowl K) 1
      ⟨![6, 8], ![60, 80], ![60, 80]⟩ = fun _ => 0 := by
  rw [CGM_new_direction_conjugate _ _ _ _ (by decide)]
  funext i
  simp only [steep_bowl_gradient, FR_formula.nu_k, hg]
  norm_num

/-- Along the zero direction the first trial `1/100` is accepted. -/
theorem steep_bowl_first_step :
    (LineSearch.create (1 / 1000 : K)).call ![6, 8] (fun _ => 0) ((steep_bowl K).call ![6, 8])
      ((steep_bowl K).gradient ![6, 8] ((steep_bowl K).call ![6, 8])) (steep_bowl K) 0.01
      = 1 / 100 := by
  rw [LineSearch.call, LineSearch.search_first_trial]
  · norm_num
  · norm_num [LineSearch.create]
  · rw [LineSearch.accepts_iff]
    simp

/-- Along the steepest-descent direction `[-60, -80]` the first trial `1/100` is accepted. -/
theorem steep_bowl_second_step :
    (LineSearch.create (1 / 1000 : K)).call ![6, 8]
      (fun i => -(steep_bowl K).gradient ![6, 8] ((steep_bowl K).call ![6, 8]) i)
      ((steep_bowl K).call ![6, 8])
      ((steep_bowl K).gradient ![6, 8] ((steep_bowl K).call ![6, 8])) (steep_bowl K) 0.01
      = 1 / 100 := by
  rw [LineSearch.call, LineSearch.search_first_trial]
  · norm_num
  · norm_num [LineSearch.create]
  · rw [LineSearch.accepts_iff]
    simp only [steep_bowl_gradient, steep_bowl_call]
    simp [steep_bowl, Fin.sum_univ_two]
    norm_num

end CGMExample

end optimization

namespace optimization

section EuclideanNorm

/-- The Euclidean norm of `[a, b]` is `c` when `c` is non-negative and `a^2 + b^2 = c^2`. -/
theorem sqrt_sum_two (v : Fin 2 → ℝ) (c : ℝ) (hc : 0 ≤ c) (h : v 0 ^ 2 + v 1 ^ 2 = c ^ 2) :
    Real.sqrt (∑ i, v i ^ 2) = c := by
  rw [Fin.sum_univ_two, h, Real.sqrt_sq hc]

end EuclideanNorm

/-- C25 over the reals with the Euclidean norm and the Fletcher-Reeves formula, on
`f(x) = 10*((x_0 - 3)^2 + (x_1 - 4)^2)` with tolerance `1/1000`, at iteration 1 with variables
`[6, 8]`, previous direction `[60, 80]` and previous gradient `[60, 80]`: the conjugate direction
is zero, so its residual is `0`; the second pass runs along `[-60, -80]` with step `1/100` and
residual `1/10`, the check fails, and the variables advance to `[27/5, 36/5]`. -/
theorem C25_cgm_second_pass_witness :
    CGM_direction (fun v : Fin 2 → ℝ => Real.sqrt (∑ i, v i ^ 2))
        (FR_formula.nu_k (fun v : Fin 2 → ℝ => Real.sqrt (∑ i, v i ^ 2))) (steep_bowl ℝ)
        (1 / 1000) 1 ⟨![6, 8], ![60, 80], ![60, 80]⟩ = ![-60, -80] ∧
      CGM_step_size (fun v : Fin 2 → ℝ => Real.sqrt (∑ i, v i ^ 2))
        (FR_formula.nu_k (fun v : Fin 2 → ℝ => Real.sqrt (∑ i, v i ^ 2))) (steep_bowl ℝ)
        (1 / 1000) 1 ⟨![6, 8], ![60, 80], ![60, 80]⟩ = 1 / 100 ∧
      ¬ CGM_converged (fun v : Fin 2 → ℝ => Real.sqrt (∑ i, v i ^ 2))
        (FR_formula.nu_k (fun v : Fin 2 → ℝ => Real.sqrt (∑ i, v i ^ 2))) (steep_bowl ℝ)
        (1 / 1000) 1 ⟨![6, 8], ![60, 80], ![60, 80]⟩ ∧
      CGM_update (fun v : Fin 2 → ℝ => Real.sqrt (∑ i, v i ^ 2))
        (FR_formula.nu_k (fun v : Fin 2 → ℝ => Real.sqrt (∑ i, v i ^ 2))) (steep_bowl ℝ)
        (1 / 1000) 1 ⟨![6, 8], ![60, 80], ![60, 80]⟩
        = ⟨![27 / 5, 36 / 5], ![-60, -80], ![60, 80]⟩ := by
  have hEv : Real.sqrt (∑ i : Fin 2, (![6, 8] : Fin 2 → ℝ) i ^ 2) = 10 :=
    sqrt_sum_two _ 10 (by norm_num) (by simp; norm_num)
  have hEg : Real.sqrt (∑ i : Fin 2, (![60, 80] : Fin 2 → ℝ) i ^ 2) = 100 :=
    sqrt_sum_two _ 100 (by norm_num) (by simp; norm_num)
  have hEd : Real.sqrt (∑ i : Fin 2, (-(![60, 80] : Fin 2 → ℝ) i) ^ 2) = 100 :=
    sqrt_sum_two (fun i => -(![60, 80] : Fin 2 → ℝ) i) 100 (by norm_num) (by simp; norm_num)
  have hE0 : Real.sqrt (∑ i : Fin 2, (fun _ => (0 : ℝ) : Fin 2 → ℝ) i ^ 2) = 0 := by simp
  have hd : (fun i => -(![60, 80] : Fin 2 → ℝ) i) = ![-60, -80] := by
    funext i
    fin_cases i <;> simp
  have h := C25_cgm_second_pass (fun v : Fin 2 → ℝ => Real.sqrt (∑ i, v i ^ 2))
    (FR_formula.nu_k (fun v : Fin 2 → ℝ => Real.sqrt (∑ i, v i ^ 2))) (steep_bowl ℝ)
    (1 / 1000) 1 ⟨![6, 8], ![60, 80], ![60, 80]⟩ (by decide)
    (by
      dsimp only
      rw [steep_bowl_new_direction _ hEg, steep_bowl_first_step, hE0, hEv]
      norm_num)
  dsimp only at h
  rw [steep_bowl_second_step, steep_bowl_gradient, hEd, hEv] at h
  obtain ⟨h1, h2, h3, -, h5⟩ := h
  have hnot : ¬ (1 / 100 : ℝ) * 100 / 10 < 1 / 1000 := by norm_num
  refine ⟨by rw [h1, hd], h2, fun hc => hnot (h3.1 hc), ?_⟩
  rw [(h5 hnot).1, hd]
  congr 1
  funext i
  fin_cases i <;> simp <;> norm_num

end optimization

namespace optimization

section StopExamples

/-- The objective `(x - 3)^2` has its only minimizer at `[3]`. -/
theorem shifted_parabola_minimizer (x : Fin 1 → ℚ) :
    shifted_parabola.call ![3] ≤ shifted_parabola.call x ∧
      (shifted_parabola.call x ≤ shifted_parabola.call ![3] → x = ![3]) := by
  have h3 : shifted_parabola.call ![3] = 0 := by simp [shifted_parabola]
  have hx : shifted_parabola.call x = (x 0 - 3) ^ 2 := rfl
  rw [h3, hx]
  refine ⟨sq_nonneg _, fun h => ?_⟩
  apply ode.vec_one_eq
  have h0 : (x 0 - 3) ^ 2 = 0 := le_antisymm h (sq_nonneg _)
  have h1 : x 0 - 3 = 0 := pow_eq_zero_iff (two_ne_zero) |>.1 h0
  linarith

/-- The objective `(x - 3)^2 / 10000` has its only minimizer at `[3]`. -/
theorem flat_parabola_minimizer (x : Fin 1 → ℚ) :
    flat_parabola.call ![3] ≤ flat_parabola.call x ∧
      (flat_parabola.call x ≤ flat_parabola.call ![3] → x = ![3]) := by
  have h3 : flat_parabola.call ![3] = 0 := by simp [flat_parabola]
  have hx : flat_parabola.call x = (x 0 - 3) ^ 2 / 10000 := rfl
  rw [h3, hx]
  refine ⟨div_nonneg (sq_nonneg _) (by norm_num), fun h => ?_⟩
  apply ode.vec_one_eq
  have h0 : (x 0 - 3) ^ 2 ≤ 0 := by
    have := mul_le_mul_of_nonneg_right h (show (0 : ℚ) ≤ 10000 by norm_num)
    simpa using this
  have h1 : x 0 - 3 = 0 :=
    pow_eq_zero_iff (two_ne_zero) |>.1 (le_antisymm h0 (sq_nonneg _))
  linarith

/-- In CGM on `(x - 3)^2` from `[2]` the direction of iteration 0 is `[2]`. -/
theorem cgm_example_direction (formula_nu_k : (Fin 1 → ℚ) → (Fin 1 → ℚ) → ℚ) :
    CGM_new_direction formula_nu_k shifted_parabola 0 (CGM_init ![2] 0) = ![2] := by
  rw [CGM_new_direction_restart _ _ _ _ (Nat.zero_mod 1)]
  apply ode.vec_one_eq
  simp [CGM_init, shifted_parabola]
  norm_num

/-- In CGM on `(x - 3)^2` from `[2]` with tolerance `1/1000` the line search along `[2]` refuses
the trials `1/100`, `1/200`, `1/400` and `1/800` and stops at `1/1600`, which is not above
`min_step_ = 1/1000`. -/
theorem cgm_example_step :
    CGM_line_search shifted_parabola (1 / 1000) (CGM_init ![2] 0) ![2] = 1 / 1600 := by
  rw [CGM_line_search, LineSearch.call, LineSearch.search_eq _ _ _ _ _ _ _ 4 (by norm_num)]
  · norm_num [CGM_max_step_size]
  · intro j hj
    rw [LineSearch.accepts_iff]
    interval_cases j <;>
      simp [CGM_init, CGM_gradient, shifted_parabola, CGM_max_step_size, LineSearch.create] <;>
      norm_num
  · intro _
    left
    norm_num [CGM_max_step_size, LineSearch.create]

/-- In CGM on `(x - 3)^2` from `[2]` with tolerance `1/1000` the real convergence check passes
at iteration 0, with residual `1/1600`. -/
theorem cgm_example_converged :
    CGM_converged norm_2_1 (FR_formula.nu_k norm_2_1) shifted_parabola (1 / 1000) 0
      (CGM_init ![2] 0) := by
  have hretry : ¬ CGM_retry norm_2_1 (FR_formula.nu_k norm_2_1) shifted_parabola (1 / 1000) 0
      (CGM_init ![2] 0) := fun h => h.2 (Nat.zero_mod 1)
  rw [CGM_converged, CGM_direction, if_neg hretry, cgm_example_direction, CGM_below, CGM_res,
    cgm_example_step]
  norm_num [norm_2_1, CGM_init]

theorem cgm_example_returns :
    CGM norm_2_1 (FR_formula.nu_k norm_2_1) shifted_parabola (1 / 1000) ![2] 0 = ![2] := by
  rw [CGM_first_pass norm_2_1 (FR_formula.nu_k norm_2_1) shifted_parabola (1 / 1000) ![2] 0 0
    (by norm_num) cgm_example_converged (fun j hj => absurd hj (by omega))]
  rfl

/-- In BFGS on `(x - 3)^2 / 10000` from `[1]` the first direction is `[1/2500]`. -/
theorem flat_example_direction :
    BFGS_direction ode.lu_solve_1 (BFGS_init flat_parabola ![1] 1) = ![1 / 2500] := by
  apply ode.vec_one_eq
  simp only [BFGS_direction, BFGS_init, ode.lu_solve_1, flat_parabola]
  norm_num

/-- In BFGS on `(x - 3)^2 / 10000` from `[1]` with tolerance `1/1000` the line search refuses the
trials `1`, `1/2`, `1/4` and `1/8` and stops at `1/16`, which is not above
`min_step_ = 1/10`. -/
theorem flat_example_step :
    BFGS_step_size ode.lu_solve_1 flat_parabola (1 / 1000) (BFGS_init flat_parabola ![1] 1)
      = 1 / 16 := by
  rw [BFGS_step_size, flat_example_direction, LineSearch.call,
    LineSearch.search_eq _ _ _ _ _ _ _ 4 (by norm_num)]
  · norm_num [BFGS_max_step_size]
  · intro j hj
    rw [LineSearch.accepts_iff]
    interval_cases j <;>
      simp [BFGS_init, flat_parabola, BFGS_max_step_size, LineSearch.create] <;>
      norm_num
  · intro _
    left
    norm_num [BFGS_max_step_size, LineSearch.create]

/-- In BFGS on `(x - 3)^2 / 10000` from `[1]` with tolerance `1/1000` the convergence check
passes at iteration 0, with residual `1/40000`. -/
theorem flat_example_converged :
    BFGS_converged norm_2_1 ode.lu_solve_1 flat_parabola (1 / 1000)
      (BFGS_init flat_parabola ![1] 1) := by
  rw [BFGS_converged, BFGS_res, flat_example_step, flat_example_direction]
  have habs : |(1 / 2500 : ℚ)| = 1 / 2500 := abs_of_pos (by norm_num)
  norm_num [norm_2_1, BFGS_init, habs]

theorem flat_example_returns :
    BFGS norm_2_1 ode.lu_solve_1 flat_parabola (1 / 1000) ![1] 1 = ![1] := by
  rw [BFGS, BFGS_max_iters, BFGS_loop_first_pass norm_2_1 ode.lu_solve_1 flat_parabola
    (1 / 1000) 1000 0 (BFGS_init flat_parabola ![1] 1) (by norm_num) flat_example_converged
    (fun j hj => absurd hj (by omega))]
  rfl

end StopExamples

end optimization

namespace optimization

/-- C26, as stated, fails for both optimizers.  On the strictly convex quadratic
`f(x) = (x - 3)^2`, whose only minimizer is `[3]`, CGM from `[2]` with tolerance `1/1000` passes
its convergence check at iteration 0 and returns `[2]`, at distance `1` from the minimizer: the
line search from step `1/100` stops at `1/1600`, which is not above `min_step = 1/1000`, and the
residual is `1/1600`.  On the strictly convex quadratic `f(x) = (x - 3)^2 / 10000`, whose only
minimizer is `[3]`, BFGS from `[1]` with tolerance `1/1000` passes its check at iteration 0 and
returns `[1]`, at distance `2` from the minimizer. -/
theorem C26_stops_away_from_minimizer :
    ((∀ x : Fin 1 → ℚ, shifted_parabola.call ![3] ≤ shifted_parabola.call x ∧
          (shifted_parabola.call x ≤ shifted_parabola.call ![3] → x = ![3])) ∧
        CGM_converged norm_2_1 (FR_formula.nu_k norm_2_1) shifted_parabola (1 / 1000) 0
          (CGM_init ![2] 0) ∧
        CGM norm_2_1 (FR_formula.nu_k norm_2_1) shifted_parabola (1 / 1000) ![2] 0 = ![2] ∧
        norm_2_1 (fun i => (![2] : Fin 1 → ℚ) i - (![3] : Fin 1 → ℚ) i) = 1) ∧
      ((∀ x : Fin 1 → ℚ, flat_parabola.call ![3] ≤ flat_parabola.call x ∧
          (flat_parabola.call x ≤ flat_parabola.call ![3] → x = ![3])) ∧
        BFGS_converged norm_2_1 ode.lu_solve_1 flat_parabola (1 / 1000)
          (BFGS_init flat_parabola ![1] 1) ∧
        BFGS norm_2_1 ode.lu_solve_1 flat_parabola (1 / 1000) ![1] 1 = ![1] ∧
        norm_2_1 (fun i => (![1] : Fin 1 → ℚ) i - (![3] : Fin 1 → ℚ) i) = 2) := by
  refine ⟨⟨shifted_parabola_minimizer, cgm_example_converged, cgm_example_returns, ?_⟩,
    ⟨flat_parabola_minimizer, flat_example_converged, flat_example_returns, ?_⟩⟩
  · norm_num [norm_2_1]
  · norm_num [norm_2_1]

/-- C26, amended: for every objective, start and tolerance, when BFGS stops through its
convergence check at an iteration `k < 1000` it returns the variables `x_k` at the top of that
iteration, and what the check bounds by the tolerance is `step*norm2(direction)/norm2(x_k)`, the
relative length of the step that is not taken; likewise for CGM, with the step and the direction
of its real convergence check.  No bound on the distance to a minimizer is part of it. -/
theorem C26_stop_bounds_last_step {K : Type} [LinearOrderedField K] {dim : Nat}
    (norm_2 : (Fin dim → K) → K)
    (lu_solve : Matrix (Fin dim) (Fin dim) K → (Fin dim → K) → (Fin dim → K))
    (formula_nu_k : (Fin dim → K) → (Fin dim → K) → K)
    (target_fun : target_functor K dim) (tolerance : K) :
    (∀ (x0 : Fin dim → K) (H0 : Matrix (Fin dim) (Fin dim) K) (k : Nat), k < 1000 →
        BFGS_converged norm_2 lu_solve target_fun tolerance
          (BFGS_iterate lu_solve target_fun tolerance x0 H0 k) →
        (∀ j, j < k → ¬ BFGS_converged norm_2 lu_solve target_fun tolerance
          (BFGS_iterate lu_solve target_fun tolerance x0 H0 j)) →
        BFGS norm_2 lu_solve target_fun tolerance x0 H0
            = (BFGS_iterate lu_solve target_fun tolerance x0 H0 k).vars ∧
          BFGS_step_size lu_solve target_fun tolerance
              (BFGS_iterate lu_solve target_fun tolerance x0 H0 k)
            * norm_2 (BFGS_direction lu_solve (BFGS_iterate lu_solve target_fun tolerance x0 H0 k))
            / norm_2 (BFGS_iterate lu_solve target_fun tolerance x0 H0 k).vars < tolerance) ∧
      (∀ (x0 : Fin dim → K) (quiet_NaN : K) (k : Nat), k < 1000 →
        CGM_converged norm_2 formula_nu_k target_fun tolerance k
          (CGM_iterate norm_2 formula_nu_k target_fun tolerance x0 quiet_NaN k) →
        (∀ j, j < k → ¬ CGM_converged norm_2 formula_nu_k target_fun tolerance j
          (CGM_iterate norm_2 formula_nu_k target_fun tolerance x0 quiet_NaN j)) →
        CGM norm_2 formula_nu_k target_fun tolerance x0 quiet_NaN
            = (CGM_iterate norm_2 formula_nu_k target_fun tolerance x0 quiet_NaN k).vars ∧
          CGM_step_size norm_2 formula_nu_k target_fun tolerance k
              (CGM_iterate norm_2 formula_nu_k target_fun tolerance x0 quiet_NaN k)
            * norm_2 (CGM_direction norm_2 formula_nu_k target_fun tolerance k
                (CGM_iterate norm_2 formula_nu_k target_fun tolerance x0 quiet_NaN k))
            / norm_2 (CGM_iterate norm_2 formula_nu_k target_fun tolerance x0 quiet_NaN k).vars
            < tolerance) := by
  constructor
  · intro x0 H0 k hk hp hfail
    refine ⟨?_, hp.2⟩
    rw [BFGS, BFGS_max_iters,
      BFGS_loop_first_pass norm_2 lu_solve target_fun tolerance 1000 k _ hk hp hfail]
    rfl
  · intro x0 quiet_NaN k hk hp hfail
    exact ⟨CGM_first_pass norm_2 formula_nu_k target_fun tolerance x0 quiet_NaN k hk hp hfail,
      hp.2⟩

/-- C26, amended, on `f(x) = (x - 3)^2` with tolerance `1/1000`: BFGS from `[1]` stops at
iteration 1 and returns `[3]`, the minimizer; CGM from `[2]` stops at iteration 0 and returns
`[2]`. -/
theorem C26_stop_bounds_last_step_witness :
    (BFGS norm_2_1 ode.lu_solve_1 shifted_parabola (1 / 1000) ![1] 1
          = (BFGS_iterate ode.lu_solve_1 shifted_parabola (1 / 1000) ![1] 1 1).vars ∧
        (BFGS_iterate ode.lu_solve_1 shifted_parabola (1 / 1000) ![1] 1 1).vars = ![3]) ∧
      (CGM norm_2_1 (FR_formula.nu_k norm_2_1) shifted_parabola (1 / 1000) ![2] 0
          = (CGM_iterate norm_2_1 (FR_formula.nu_k norm_2_1) shifted_parabola (1 / 1000)
              ![2] 0 0).vars ∧
        (CGM_iterate norm_2_1 (FR_formula.nu_k norm_2_1) shifted_parabola (1 / 1000)
          ![2] 0 0).vars = ![2]) := by
  have h := C26_stop_bounds_last_step norm_2_1 ode.lu_solve_1 (FR_formula.nu_k norm_2_1)
    shifted_parabola (1 / 1000)
  refine ⟨⟨(h.1 ![1] 1 1 (by norm_num) ?_ ?_).1, by rw [example_iterate_1]⟩,
    ⟨(h.2 ![2] 0 0 (by norm_num) cgm_example_converged
      (fun j hj => absurd hj (by omega))).1, rfl⟩⟩
  · rw [BFGS_converged, BFGS_res, example_step_1, example_direction_1, example_iterate_1]
    norm_num [norm_2_1]
  · intro j hj
    obtain rfl : j = 0 := by omega
    have h0 : BFGS_iterate ode.lu_solve_1 shifted_parabola (1 / 1000) ![1] 1 0
        = BFGS_init shifted_parabola ![1] 1 := rfl
    rw [BFGS_converged, BFGS_res, h0, example_step_0, example_direction_0]
    norm_num [norm_2_1, BFGS_init]

end optimization

namespace ode

section ConvergenceOrder

theorem le_of_sq_le_sq_nonneg (a b : ℝ) (hb : 0 ≤ b) (h : a ^ 2 ≤ b ^ 2) : a ≤ b := by
  by_contra hlt
  push_neg at hlt
  nlinarith

/-- With `v^2 (1 + x) = u^2`: a non-negative factor `q` with `1 ≤ (1 + x) q^2` gives
`v ≤ u q`. -/
theorem upper_of_rel (u v x q : ℝ) (hu : 0 < u) (hx : 0 ≤ x) (hrel : v ^ 2 * (1 + x) = u ^ 2)
    (hq : 0 ≤ q) (h1 : 1 ≤ (1 + x) * q ^ 2) : v ≤ u * q := by
  have h2 : v ^ 2 * (1 + x) ≤ (u * q) ^ 2 * (1 + x) := by
    rw [hrel]
    have := mul_le_mul_of_nonneg_left h1 (sq_nonneg u)
    calc u ^ 2 = u ^ 2 * 1 := by ring
      _ ≤ u ^ 2 * ((1 + x) * q ^ 2) := this
      _ = (u * q) ^ 2 * (1 + x) := by ring
  have hsq : v ^ 2 ≤ (u * q) ^ 2 := le_of_mul_le_mul_right h2 (by linarith)
  exact le_of_sq_le_sq_nonneg _ _ (mul_nonneg hu.le hq) hsq

/-- With `v^2 (1 + x) = u^2` and `v` positive: a non-negative factor `q` with
`(1 + x) q^2 ≤ 1` gives `u q ≤ v`. -/
theorem lower_of_rel (u v x q : ℝ) (hv : 0 < v) (hx : 0 ≤ x)
    (hrel : v ^ 2 * (1 + x) = u ^ 2) (h1 : (1 + x) * q ^ 2 ≤ 1) : u * q ≤ v := by
  have h2 : (u * q) ^ 2 * (1 + x) ≤ v ^ 2 * (1 + x) := by
    rw [hrel]
    have := mul_le_mul_of_nonneg_left h1 (sq_nonneg u)
    calc (u * q) ^ 2 * (1 + x) = u ^ 2 * ((1 + x) * q ^ 2) := by ring
      _ ≤ u ^ 2 * 1 := this
      _ = u ^ 2 := by ring
  have hsq : (u * q) ^ 2 ≤ v ^ 2 := le_of_mul_le_mul_right h2 (by linarith)
  exact le_of_sq_le_sq_nonneg _ _ hv.le hsq

theorem heun_poly_lower (x : ℝ) (hx : 0 ≤ x) (hx1 : x ≤ 1) :
    (1 + x) * (1 - x / 2 + 3 / 8 * x ^ 2 - 3 / 16 * x ^ 3 + 1 / 32 * x ^ 4
      - 1 / 4 * x ^ 3) ^ 2 ≤ 1 := by
  have e : (1 + x) * (1 - x / 2 + 3 / 8 * x ^ 2 - 3 / 16 * x ^ 3 + 1 / 32 * x ^ 4
      - 1 / 4 * x ^ 3) ^ 2
      = 1 - x ^ 3 * (1 / 4 + 39 / 64 * x - 9 / 32 * x ^ 2 + 37 / 256 * x ^ 3
          - 3 / 16 * x ^ 4 + 27 / 1024 * x ^ 5 - 1 / 1024 * x ^ 6) := by ring
  rw [e]
  have h1 : 0 ≤ 1 - x := by linarith
  have hpos : 0 ≤ 1 / 4 + 39 / 64 * x - 9 / 32 * x ^ 2 + 37 / 256 * x ^ 3
      - 3 / 16 * x ^ 4 + 27 / 1024 * x ^ 5 - 1 / 1024 * x ^ 6 := by
    have t1 : 0 ≤ x * (1 - x) := mul_nonneg hx h1
    have t2 : 0 ≤ x ^ 3 * (1 - x) := mul_nonneg (pow_nonneg hx 3) h1
    have t3 : 0 ≤ x ^ 5 * (1 - x) := mul_nonneg (pow_nonneg hx 5) h1
    have t4 : 0 ≤ x ^ 3 := pow_nonneg hx 3
    have t5 : 0 ≤ x ^ 5 := pow_nonneg hx 5
    have e2 : 1 / 4 + 39 / 64 * x - 9 / 32 * x ^ 2 + 37 / 256 * x ^ 3
        - 3 / 16 * x ^ 4 + 27 / 1024 * x ^ 5 - 1 / 1024 * x ^ 6
        = 1 / 4 + 21 / 64 * x + 9 / 32 * (x * (1 - x)) + 3 / 16 * (x ^ 3 * (1 - x))
          + 1 / 1024 * (x ^ 5 * (1 - x)) + (37 / 256 - 3 / 16) * x ^ 3
          + (27 / 1024 - 1 / 1024) * x ^ 5 := by ring
    rw [e2]
    have t6 : x ^ 3 ≤ x := by
      have : x ^ 3 = x * (x * x) := by ring
      rw [this]
      have hxx : x * x ≤ 1 := by nlinarith
      nlinarith
    nlinarith
  have := mul_nonneg (pow_nonneg hx 3) hpos
  linarith

theorem heun_poly_upper (x : ℝ) (hx : 0 ≤ x) (hx1 : x ≤ 1) :
    1 ≤ (1 + x) * (1 - x / 2 + 3 / 8 * x ^ 2 - 3 / 16 * x ^ 3 + 1 / 32 * x ^ 4
      + 1 / 4 * x ^ 3) ^ 2 := by
  have e : (1 + x) * (1 - x / 2 + 3 / 8 * x ^ 2 - 3 / 16 * x ^ 3 + 1 / 32 * x ^ 4
      + 1 / 4 * x ^ 3) ^ 2
      = 1 + x ^ 3 * (3 / 4 - 7 / 64 * x + 5 / 32 * x ^ 2 + 11 / 256 * x ^ 3
          + 1 / 32 * x ^ 4 + 5 / 1024 * x ^ 5 + 1 / 1024 * x ^ 6) := by ring
  rw [e]
  have hpos : 0 ≤ 3 / 4 - 7 / 64 * x + 5 / 32 * x ^ 2 + 11 / 256 * x ^ 3
      + 1 / 32 * x ^ 4 + 5 / 1024 * x ^ 5 + 1 / 1024 * x ^ 6 := by
    have t2 : 0 ≤ x ^ 2 := pow_nonneg hx 2
    have t3 : 0 ≤ x ^ 3 := pow_nonneg hx 3
    have t4 : 0 ≤ x ^ 4 := pow_nonneg hx 4
    have t5 : 0 ≤ x ^ 5 := pow_nonneg hx 5
    have t6 : 0 ≤ x ^ 6 := pow_nonneg hx 6
    linarith
  have := mul_nonneg (pow_nonneg hx 3) hpos
  linarith

theorem heun_poly_nonneg (x : ℝ) (hx : 0 ≤ x) (hx1 : x ≤ 1) :
    0 ≤ 1 - x / 2 + 3 / 8 * x ^ 2 - 3 / 16 * x ^ 3 + 1 / 32 * x ^ 4 + 1 / 4 * x ^ 3 := by
  have t2 : 0 ≤ x ^ 2 := pow_nonneg hx 2
  have t3 : 0 ≤ x ^ 3 := pow_nonneg hx 3
  have t4 : 0 ≤ x ^ 4 := pow_nonneg hx 4
  linarith

/-- One Heun step on `u' = -10 u^3` from a point of the exact solution misses the exact solution
after the step by at most `2000 h^3 u^7`, when `20 h u^2 ≤ 1`. -/
theorem local_error_heun (u v h : ℝ) (hu : 0 < u) (hv : 0 < v) (hh : 0 ≤ h)
    (hsmall : 20 * h * u ^ 2 ≤ 1)
    (hrel : v ^ 2 * (1 + 20 * h * u ^ 2) = u ^ 2) :
    |v - (u - 5 * h * (u ^ 3 + (u - 10 * h * u ^ 3) ^ 3))| ≤ 2000 * h ^ 3 * u ^ 7 := by
  have hx : 0 ≤ 20 * h * u ^ 2 := by positivity
  generalize hxdef : 20 * h * u ^ 2 = x at hx hrel hsmall
  have e1 : u - 5 * h * (u ^ 3 + (u - 10 * h * u ^ 3) ^ 3)
      = u * (1 - x / 2 + 3 / 8 * x ^ 2 - 3 / 16 * x ^ 3 + 1 / 32 * x ^ 4) := by
    rw [← hxdef]; ring
  have e2 : 2000 * h ^ 3 * u ^ 7 = u * (1 / 4 * x ^ 3) := by rw [← hxdef]; ring
  rw [e1, e2, abs_le]
  have hlo := lower_of_rel u v x _ hv hx hrel (heun_poly_lower x hx hsmall)
  have hup := upper_of_rel u v x _ hu hx hrel (heun_poly_nonneg x hx hsmall)
    (heun_poly_upper x hx hsmall)
  constructor
  · have e3 : u * (1 - x / 2 + 3 / 8 * x ^ 2 - 3 / 16 * x ^ 3 + 1 / 32 * x ^ 4 - 1 / 4 * x ^ 3)
        = u * (1 - x / 2 + 3 / 8 * x ^ 2 - 3 / 16 * x ^ 3 + 1 / 32 * x ^ 4)
          - u * (1 / 4 * x ^ 3) := by ring
    linarith
  · have e3 : u * (1 - x / 2 + 3 / 8 * x ^ 2 - 3 / 16 * x ^ 3 + 1 / 32 * x ^ 4 + 1 / 4 * x ^ 3)
        = u * (1 - x / 2 + 3 / 8 * x ^ 2 - 3 / 16 * x ^ 3 + 1 / 32 * x ^ 4)
          + u * (1 / 4 * x ^ 3) := by ring
    linarith

/-- One explicit Euler step on `u' = -10 u^3` from a point of the exact solution misses the
exact solution after the step by at most `150 h^2 u^5`, when `20 h u^2 ≤ 1`. -/
theorem local_error_euler (u v h : ℝ) (hu : 0 < u) (hv : 0 < v) (hh : 0 ≤ h)
    (hsmall : 20 * h * u ^ 2 ≤ 1)
    (hrel : v ^ 2 * (1 + 20 * h * u ^ 2) = u ^ 2) :
    |v - (u - 10 * h * u ^ 3)| ≤ 150 * h ^ 2 * u ^ 5 := by
  have hx : 0 ≤ 20 * h * u ^ 2 := by positivity
  generalize hxdef : 20 * h * u ^ 2 = x at hx hrel hsmall
  have e1 : u - 10 * h * u ^ 3 = u * (1 - x / 2) := by rw [← hxdef]; ring
  have e2 : 150 * h ^ 2 * u ^ 5 = u * (3 / 8 * x ^ 2) := by rw [← hxdef]; ring
  rw [e1, e2, abs_le]
  have hlo : u * (1 - x / 2) ≤ v := by
    apply lower_of_rel u v x _ hv hx hrel
    have e : (1 + x) * (1 - x / 2) ^ 2 = 1 - x ^ 2 * (3 / 4 - x / 4) := by ring
    rw [e]
    have := mul_nonneg (pow_nonneg hx 2) (show (0 : ℝ) ≤ 3 / 4 - x / 4 by linarith)
    linarith
  have hup : v ≤ u * (1 - x / 2 + 3 / 8 * x ^ 2) := by
    apply upper_of_rel u v x _ hu hx hrel
    · have := pow_nonneg hx 2
      linarith
    · have e : (1 + x) * (1 - x / 2 + 3 / 8 * x ^ 2) ^ 2
          = 1 + x ^ 3 * (5 / 8 - 15 / 64 * x + 9 / 64 * x ^ 2) := by ring
      rw [e]
      have hpos : 0 ≤ 5 / 8 - 15 / 64 * x + 9 / 64 * x ^ 2 := by
        have := pow_nonneg hx 2
        linarith
      have := mul_nonneg (pow_nonneg hx 3) hpos
      linarith
  have hnn : 0 ≤ u * (3 / 8 * x ^ 2) := by positivity
  constructor
  · linarith
  · have e3 : u * (1 - x / 2 + 3 / 8 * x ^ 2) = u * (1 - x / 2) + u * (3 / 8 * x ^ 2) := by ring
    linarith

/-- The explicit Euler map of `u' = -10 u^3` with `30 h a^2 ≤ 1` maps `[0, a]` into itself and
does not increase distances there. -/
theorem euler_map_stable (a h : ℝ) (hh : 0 ≤ h) (hsmall : 30 * h * a ^ 2 ≤ 1)
    (u U : ℝ) (hu0 : 0 ≤ u) (hua : u ≤ a) (hU0 : 0 ≤ U) (hUa : U ≤ a) :
    (0 ≤ u - 10 * h * u ^ 3 ∧ u - 10 * h * u ^ 3 ≤ a) ∧
      |(u - 10 * h * u ^ 3) - (U - 10 * h * U ^ 3)| ≤ |u - U| := by
  have ha : 0 ≤ a := le_trans hu0 hua
  have huu : u ^ 2 ≤ a ^ 2 := pow_le_pow_left₀ hu0 hua 2
  have hUU : U ^ 2 ≤ a ^ 2 := pow_le_pow_left₀ hU0 hUa 2
  have huU : u * U ≤ a ^ 2 := by nlinarith
  have hθ0 : 0 ≤ 10 * h * (u ^ 2 + u * U + U ^ 2) := by positivity
  have hθ1 : 10 * h * (u ^ 2 + u * U + U ^ 2) ≤ 1 := by
    have : 10 * h * (u ^ 2 + u * U + U ^ 2) ≤ 10 * h * (a ^ 2 + a ^ 2 + a ^ 2) := by
      apply mul_le_mul_of_nonneg_left _ (by positivity)
      linarith
    linarith
  refine ⟨⟨?_, ?_⟩, ?_⟩
  · have e : u - 10 * h * u ^ 3 = u * (1 - 10 * h * u ^ 2) := by ring
    rw [e]
    apply mul_nonneg hu0
    have : 10 * h * u ^ 2 ≤ 10 * h * a ^ 2 := mul_le_mul_of_nonneg_left huu (by positivity)
    nlinarith [mul_nonneg hh (sq_nonneg a)]
  · have : 0 ≤ 10 * h * u ^ 3 := by positivity
    linarith
  · have e : (u - 10 * h * u ^ 3) - (U - 10 * h * U ^ 3)
        = (u - U) * (1 - 10 * h * (u ^ 2 + u * U + U ^ 2)) := by ring
    rw [e, abs_mul]
    have : |1 - 10 * h * (u ^ 2 + u * U + U ^ 2)| ≤ 1 := by
      rw [abs_le]
      constructor <;> linarith
    calc |u - U| * |1 - 10 * h * (u ^ 2 + u * U + U ^ 2)| ≤ |u - U| * 1 :=
          mul_le_mul_of_nonneg_left this (abs_nonneg _)
      _ = |u - U| := mul_one _

/-- The Heun map of `u' = -10 u^3` with `30 h a^2 ≤ 1` maps `[0, a]` into itself and does not
increase distances there. -/
theorem heun_map_stable (a h : ℝ) (hh : 0 ≤ h) (hsmall : 30 * h * a ^ 2 ≤ 1)
    (u U : ℝ) (hu0 : 0 ≤ u) (hua : u ≤ a) (hU0 : 0 ≤ U) (hUa : U ≤ a) :
    (0 ≤ u - 5 * h * (u ^ 3 + (u - 10 * h * u ^ 3) ^ 3) ∧
        u - 5 * h * (u ^ 3 + (u - 10 * h * u ^ 3) ^ 3) ≤ a) ∧
      |(u - 5 * h * (u ^ 3 + (u - 10 * h * u ^ 3) ^ 3))
          - (U - 5 * h * (U ^ 3 + (U - 10 * h * U ^ 3) ^ 3))| ≤ |u - U| := by
  have ha : 0 ≤ a := le_trans hu0 hua
  obtain ⟨⟨hg0, hga⟩, -⟩ := euler_map_stable a h hh hsmall u U hu0 hua hU0 hUa
  obtain ⟨⟨hG0, hGa⟩, -⟩ := euler_map_stable a h hh hsmall U u hU0 hUa hu0 hua
  generalize hgdef : u - 10 * h * u ^ 3 = g at hg0 hga
  generalize hGdef : U - 10 * h * U ^ 3 = G at hG0 hGa
  have huu : u ^ 2 ≤ a ^ 2 := pow_le_pow_left₀ hu0 hua 2
  have hUU : U ^ 2 ≤ a ^ 2 := pow_le_pow_left₀ hU0 hUa 2
  have huU : u * U ≤ a ^ 2 := by nlinarith
  have hgg : g ^ 2 ≤ a ^ 2 := pow_le_pow_left₀ hg0 hga 2
  have hGG : G ^ 2 ≤ a ^ 2 := pow_le_pow_left₀ hG0 hGa 2
  have hgG : g * G ≤ a ^ 2 := by nlinarith
  have hS1 : 0 ≤ u ^ 2 + u * U + U ^ 2 := by positivity
  have hS2 : 0 ≤ g ^ 2 + g * G + G ^ 2 := by positivity
  have hθ0 : 0 ≤ 10 * h * (u ^ 2 + u * U + U ^ 2) := by positivity
  have hha : 0 ≤ h * a ^ 2 := by positivity
  have hθ1 : 10 * h * (u ^ 2 + u * U + U ^ 2) ≤ 1 := by
    have : 10 * h * (u ^ 2 + u * U + U ^ 2) ≤ 10 * h * (a ^ 2 + a ^ 2 + a ^ 2) := by
      apply mul_le_mul_of_nonneg_left _ (by positivity)
      linarith
    linarith
  have hdiff : g - G = (u - U) * (1 - 10 * h * (u ^ 2 + u * U + U ^ 2)) := by
    rw [← hgdef, ← hGdef]; ring
  -- the factor of `u - U` in the difference of the two images
  have hfac : (u - 5 * h * (u ^ 3 + g ^ 3)) - (U - 5 * h * (U ^ 3 + G ^ 3))
      = (u - U) * (1 - 5 * h * (u ^ 2 + u * U + U ^ 2)
          - 5 * h * (1 - 10 * h * (u ^ 2 + u * U + U ^ 2)) * (g ^ 2 + g * G + G ^ 2)) := by
    have : g ^ 3 - G ^ 3 = (g - G) * (g ^ 2 + g * G + G ^ 2) := by ring
    have e : (u - 5 * h * (u ^ 3 + g ^ 3)) - (U - 5 * h * (U ^ 3 + G ^ 3))
        = (u - U) * (1 - 5 * h * (u ^ 2 + u * U + U ^ 2)) - 5 * h * (g ^ 3 - G ^ 3) := by ring
    rw [e, this, hdiff]
    ring
  have hψ1 : 1 - 5 * h * (u ^ 2 + u * U + U ^ 2)
      - 5 * h * (1 - 10 * h * (u ^ 2 + u * U + U ^ 2)) * (g ^ 2 + g * G + G ^ 2) ≤ 1 := by
    have t1 : 0 ≤ 5 * h * (u ^ 2 + u * U + U ^ 2) := by positivity
    have t2 : 0 ≤ 5 * h * (1 - 10 * h * (u ^ 2 + u * U + U ^ 2)) * (g ^ 2 + g * G + G ^ 2) := by
      apply mul_nonneg (mul_nonneg (by positivity) (by linarith)) hS2
    linarith
  have hψ0 : 0 ≤ 1 - 5 * h * (u ^ 2 + u * U + U ^ 2)
      - 5 * h * (1 - 10 * h * (u ^ 2 + u * U + U ^ 2)) * (g ^ 2 + g * G + G ^ 2) := by
    have t1 : 5 * h * (u ^ 2 + u * U + U ^ 2) ≤ 15 * (h * a ^ 2) := by
      have : h * (u ^ 2 + u * U + U ^ 2) ≤ h * (a ^ 2 + a ^ 2 + a ^ 2) :=
        mul_le_mul_of_nonneg_left (by linarith) hh
      linarith
    have t2 : 5 * h * (1 - 10 * h * (u ^ 2 + u * U + U ^ 2)) * (g ^ 2 + g * G + G ^ 2)
        ≤ 15 * (h * a ^ 2) := by
      have s1 : 5 * h * (1 - 10 * h * (u ^ 2 + u * U + U ^ 2)) ≤ 5 * h := by
        have : 0 ≤ 5 * h * (10 * h * (u ^ 2 + u * U + U ^ 2)) := by positivity
        linarith
      have s2 : 0 ≤ 5 * h * (1 - 10 * h * (u ^ 2 + u * U + U ^ 2)) :=
        mul_nonneg (by positivity) (by linarith)
      calc 5 * h * (1 - 10 * h * (u ^ 2 + u * U + U ^ 2)) * (g ^ 2 + g * G + G ^ 2)
          ≤ 5 * h * (g ^ 2 + g * G + G ^ 2) := mul_le_mul_of_nonneg_right s1 hS2
        _ ≤ 5 * h * (a ^ 2 + a ^ 2 + a ^ 2) :=
            mul_le_mul_of_nonneg_left (by linarith) (by positivity)
        _ = 15 * (h * a ^ 2) := by ring
    linarith
  refine ⟨⟨?_, ?_⟩, ?_⟩
  · -- the image of `u` is the image of `0`, which is `0`, plus a non-negative multiple of `u`
    have e : u - 5 * h * (u ^ 3 + g ^ 3)
        = u * (1 - 5 * h * u ^ 2 - 5 * h * (1 - 10 * h * u ^ 2) ^ 3 * u ^ 2) := by
      rw [← hgdef]; ring
    rw [e]
    apply mul_nonneg hu0
    have hz0 : 0 ≤ 10 * h * u ^ 2 := by positivity
    have hz1 : 10 * h * u ^ 2 ≤ 1 / 3 := by
      have : h * u ^ 2 ≤ h * a ^ 2 := mul_le_mul_of_nonneg_left huu hh
      linarith
    have hc : (1 - 10 * h * u ^ 2) ^ 3 ≤ 1 := by
      apply pow_le_one₀ (by linarith) (by linarith)
    have hc0 : 0 ≤ (1 - 10 * h * u ^ 2) ^ 3 := pow_nonneg (by linarith) 3
    have t : 5 * h * (1 - 10 * h * u ^ 2) ^ 3 * u ^ 2 ≤ 5 * h * u ^ 2 := by
      have : 5 * h * (1 - 10 * h * u ^ 2) ^ 3 * u ^ 2
          = (5 * h * u ^ 2) * (1 - 10 * h * u ^ 2) ^ 3 := by ring
      rw [this]
      have h5 : 0 ≤ 5 * h * u ^ 2 := by positivity
      calc (5 * h * u ^ 2) * (1 - 10 * h * u ^ 2) ^ 3 ≤ (5 * h * u ^ 2) * 1 :=
            mul_le_mul_of_nonneg_left hc h5
        _ = 5 * h * u ^ 2 := mul_one _
    linarith
  · have : 0 ≤ 5 * h * (u ^ 3 + g ^ 3) := by positivity
    linarith
  · rw [hfac, abs_mul]
    have : |1 - 5 * h * (u ^ 2 + u * U + U ^ 2)
        - 5 * h * (1 - 10 * h * (u ^ 2 + u * U + U ^ 2)) * (g ^ 2 + g * G + G ^ 2)| ≤ 1 := by
      rw [abs_le]
      constructor <;> linarith
    calc |u - U| * _ ≤ |u - U| * 1 := mul_le_mul_of_nonneg_left this (abs_nonneg _)
      _ = |u - U| := mul_one _

/-- Errors of a non-expansive one-step map add up: when `F` maps `[0, a]` into itself without
increasing distances, `v` is the orbit of `F` from `V 0`, and `V` stays in `[0, a]` and satisfies
the recurrence of `F` up to `τ` in each of the first `N` steps, then `v n` is within `n τ` of
`V n` for `n ≤ N`. -/
theorem error_accumulates (F : ℝ → ℝ) (a τ : ℝ) (N : ℕ) (v V : ℕ → ℝ)
    (hF : ∀ u U, 0 ≤ u → u ≤ a → 0 ≤ U → U ≤ a →
      (0 ≤ F u ∧ F u ≤ a) ∧ |F u - F U| ≤ |u - U|)
    (hv0 : v 0 = V 0) (hv : ∀ n, n < N → v (n + 1) = F (v n))
    (hV : ∀ n, n ≤ N → 0 ≤ V n ∧ V n ≤ a)
    (hτ : ∀ n, n < N → |V (n + 1) - F (V n)| ≤ τ) :
    ∀ n, n ≤ N → (0 ≤ v n ∧ v n ≤ a) ∧ |v n - V n| ≤ n * τ := by
  intro n
  induction n with
  | zero =>
    intro _
    rw [hv0]
    refine ⟨hV 0 (Nat.zero_le N), ?_⟩
    simp
  | succ n ih =>
    intro hn
    obtain ⟨⟨h0, ha⟩, herr⟩ := ih (by omega)
    obtain ⟨hV0, hVa⟩ := hV n (by omega)
    obtain ⟨hin, hst⟩ := hF (v n) (V n) h0 ha hV0 hVa
    rw [hv n (by omega)]
    refine ⟨hin, ?_⟩
    have hloc := hτ n (by omega)
    have htri : |F (v n) - V (n + 1)| ≤ |F (v n) - F (V n)| + |V (n + 1) - F (V n)| := by
      have e : F (v n) - V (n + 1) = (F (v n) - F (V n)) - (V (n + 1) - F (V n)) := by ring
      rw [e]
      exact abs_sub _ _
    push_cast
    linarith

/-- The value `sqrt(1/(20 t + 1/a^2))` of the solution of `u' = -10 u^3` started at `a > 0`:
it is positive, at most `a`, and equal to `a` at `t = 0`. -/
theorem exact_value_bounds (a t : ℝ) (ha : 0 < a) (ht : 0 ≤ t) :
    0 < Real.sqrt (1 / (20 * t + 1 / a ^ 2)) ∧ Real.sqrt (1 / (20 * t + 1 / a ^ 2)) ≤ a ∧
      Real.sqrt (1 / (20 * 0 + 1 / a ^ 2)) = a := by
  have hc : 0 < 1 / a ^ 2 := by positivity
  have hW : 0 < 20 * t + 1 / a ^ 2 := by positivity
  refine ⟨Real.sqrt_pos.2 (by positivity), ?_, ?_⟩
  · rw [Real.sqrt_le_left ha.le]
    rw [div_le_iff₀ hW]
    have : a ^ 2 * (1 / a ^ 2) = 1 := by field_simp
    nlinarith [mul_nonneg (sq_nonneg a) ht]
  · have : 1 / (20 * 0 + 1 / a ^ 2) = a ^ 2 := by field_simp
    rw [this, Real.sqrt_sq ha.le]

/-- The values of the solution of `u' = -10 u^3` at two times `h` apart. -/
theorem exact_value_rel (a t h : ℝ) (ha : 0 < a) (ht : 0 ≤ t) (hh : 0 ≤ h) :
    Real.sqrt (1 / (20 * (t + h) + 1 / a ^ 2)) ^ 2
        * (1 + 20 * h * Real.sqrt (1 / (20 * t + 1 / a ^ 2)) ^ 2)
      = Real.sqrt (1 / (20 * t + 1 / a ^ 2)) ^ 2 := by
  have hc : 0 < 1 / a ^ 2 := by positivity
  have hW : 0 < 20 * t + 1 / a ^ 2 := by positivity
  have hW2 : 0 < 20 * (t + h) + 1 / a ^ 2 := by positivity
  rw [Real.sq_sqrt (by positivity), Real.sq_sqrt (by positivity)]
  field_simp
  ring

/-- Explicit Euler on `u' = -10 u^3` from `a > 0` with `N` steps of size `T/N`, small enough
that `30 (T/N) a^2 ≤ 1`, ends within `150 a^5 T (T/N)` of the solution at time `T`. -/
theorem euler_scalar_small_step (a T : ℝ) (ha : 0 < a) (hT : 0 < T) (N : ℕ) (hN : 1 ≤ N)
    (hsmall : 30 * (T / N) * a ^ 2 ≤ 1) :
    |(fun u : ℝ => u - 10 * (T / N) * u ^ 3)^[N] a - Real.sqrt (1 / (20 * T + 1 / a ^ 2))|
      ≤ 150 * a ^ 5 * T * (T / N) := by
  have hNpos : (0 : ℝ) < N := by exact_mod_cast hN
  have hh : 0 ≤ T / N := by positivity
  have hV : ∀ n : ℕ, 0 < Real.sqrt (1 / (20 * (n * (T / N)) + 1 / a ^ 2)) ∧
      Real.sqrt (1 / (20 * (n * (T / N)) + 1 / a ^ 2)) ≤ a := fun n =>
    ⟨(exact_value_bounds a (n * (T / N)) ha (by positivity)).1,
      (exact_value_bounds a (n * (T / N)) ha (by positivity)).2.1⟩
  have hacc := error_accumulates (fun u : ℝ => u - 10 * (T / N) * u ^ 3) a
    (150 * (T / N) ^ 2 * a ^ 5) N
    (fun n => (fun u : ℝ => u - 10 * (T / N) * u ^ 3)^[n] a)
    (fun n => Real.sqrt (1 / (20 * (n * (T / N)) + 1 / a ^ 2)))
    (fun u U h1 h2 h3 h4 => euler_map_stable a (T / N) hh hsmall u U h1 h2 h3 h4)
    (by
      simp only [Function.iterate_zero, id_eq, Nat.cast_zero, zero_mul]
      exact (exact_value_bounds a 0 ha le_rfl).2.2.symm)
    (fun n _ => Function.iterate_succ_apply' _ n a)
    (fun n _ => ⟨(hV n).1.le, (hV n).2⟩)
    (fun n _ => by
      have hrel := exact_value_rel a (n * (T / N)) (T / N) ha (by positivity) hh
      have e : ((n + 1 : ℕ) : ℝ) * (T / N) = n * (T / N) + T / N := by push_cast; ring
      have hVn := hV n
      have hsm : 20 * (T / N) * Real.sqrt (1 / (20 * (n * (T / N)) + 1 / a ^ 2)) ^ 2 ≤ 1 := by
        have h2 : Real.sqrt (1 / (20 * (n * (T / N)) + 1 / a ^ 2)) ^ 2 ≤ a ^ 2 :=
          pow_le_pow_left₀ hVn.1.le hVn.2 2
        have h3 : 20 * (T / N) * Real.sqrt (1 / (20 * (n * (T / N)) + 1 / a ^ 2)) ^ 2
            ≤ 20 * (T / N) * a ^ 2 := mul_le_mul_of_nonneg_left h2 (by positivity)
        have h4 : 0 ≤ T / N * a ^ 2 := by positivity
        linarith
      have hloc := local_error_euler _ (Real.sqrt (1 / (20 * (n * (T / N) + T / N) + 1 / a ^ 2)))
        (T / N) hVn.1 (Real.sqrt_pos.2 (by positivity)) hh hsm hrel
      show |Real.sqrt (1 / (20 * (((n + 1 : ℕ) : ℝ) * (T / N)) + 1 / a ^ 2)) - _| ≤ _
      rw [e]
      have h5 : Real.sqrt (1 / (20 * (n * (T / N)) + 1 / a ^ 2)) ^ 5 ≤ a ^ 5 :=
        pow_le_pow_left₀ hVn.1.le hVn.2 5
      have h6 : 150 * (T / N) ^ 2 * Real.sqrt (1 / (20 * (n * (T / N)) + 1 / a ^ 2)) ^ 5
          ≤ 150 * (T / N) ^ 2 * a ^ 5 := mul_le_mul_of_nonneg_left h5 (by positivity)
      exact le_trans hloc h6)
    N le_rfl
  have hNT : (N : ℝ) * (T / N) = T := by field_simp
  have hfin := hacc.2
  simp only [hNT] at hfin
  have e2 : (N : ℝ) * (150 * (T / N) ^ 2 * a ^ 5) = 150 * a ^ 5 * T * (T / N) := by
    have : (N : ℝ) * (150 * (T / N) ^ 2 * a ^ 5)
        = 150 * a ^ 5 * ((N : ℝ) * (T / N)) * (T / N) := by ring
    rw [this, hNT]
  rw [e2] at hfin
  exact hfin

/-- Heun on `u' = -10 u^3` from `a > 0` with `N` steps of size `T/N`, small enough that
`30 (T/N) a^2 ≤ 1`, ends within `2000 a^7 T (T/N)^2` of the solution at time `T`. -/
theorem heun_scalar_small_step (a T : ℝ) (ha : 0 < a) (hT : 0 < T) (N : ℕ) (hN : 1 ≤ N)
    (hsmall : 30 * (T / N) * a ^ 2 ≤ 1) :
    |(fun u : ℝ => u - 5 * (T / N) * (u ^ 3 + (u - 10 * (T / N) * u ^ 3) ^ 3))^[N] a
        - Real.sqrt (1 / (20 * T + 1 / a ^ 2))|
      ≤ 2000 * a ^ 7 * T * (T / N) ^ 2 := by
  have hNpos : (0 : ℝ) < N := by exact_mod_cast hN
  have hh : 0 ≤ T / N := by positivity
  have hV : ∀ n : ℕ, 0 < Real.sqrt (1 / (20 * (n * (T / N)) + 1 / a ^ 2)) ∧
      Real.sqrt (1 / (20 * (n * (T / N)) + 1 / a ^ 2)) ≤ a := fun n =>
    ⟨(exact_value_bounds a (n * (T / N)) ha (by positivity)).1,
      (exact_value_bounds a (n * (T / N)) ha (by positivity)).2.1⟩
  have hacc := error_accumulates
    (fun u : ℝ => u - 5 * (T / N) * (u ^ 3 + (u - 10 * (T / N) * u ^ 3) ^ 3)) a
    (2000 * (T / N) ^ 3 * a ^ 7) N
    (fun n => (fun u : ℝ => u - 5 * (T / N) * (u ^ 3 + (u - 10 * (T / N) * u ^ 3) ^ 3))^[n] a)
    (fun n => Real.sqrt (1 / (20 * (n * (T / N)) + 1 / a ^ 2)))
    (fun u U h1 h2 h3 h4 => heun_map_stable a (T / N) hh hsmall u U h1 h2 h3 h4)
    (by
      simp only [Function.iterate_zero, id_eq, Nat.cast_zero, zero_mul]
      exact (exact_value_bounds a 0 ha le_rfl).2.2.symm)
    (fun n _ => Function.iterate_succ_apply' _ n a)
    (fun n _ => ⟨(hV n).1.le, (hV n).2⟩)
    (fun n _ => by
      have hrel := exact_value_rel a (n * (T / N)) (T / N) ha (by positivity) hh
      have e : ((n + 1 : ℕ) : ℝ) * (T / N) = n * (T / N) + T / N := by push_cast; ring
      have hVn := hV n
      have hsm : 20 * (T / N) * Real.sqrt (1 / (20 * (n * (T / N)) + 1 / a ^ 2)) ^ 2 ≤ 1 := by
        have h2 : Real.sqrt (1 / (20 * (n * (T / N)) + 1 / a ^ 2)) ^ 2 ≤ a ^ 2 :=
          pow_le_pow_left₀ hVn.1.le hVn.2 2
        have h3 : 20 * (T / N) * Real.sqrt (1 / (20 * (n * (T / N)) + 1 / a ^ 2)) ^ 2
            ≤ 20 * (T / N) * a ^ 2 := mul_le_mul_of_nonneg_left h2 (by positivity)
        have h4 : 0 ≤ T / N * a ^ 2 := by positivity
        linarith
      have hloc := local_error_heun _ (Real.sqrt (1 / (20 * (n * (T / N) + T / N) + 1 / a ^ 2)))
        (T / N) hVn.1 (Real.sqrt_pos.2 (by positivity)) hh hsm hrel
      show |Real.sqrt (1 / (20 * (((n + 1 : ℕ) : ℝ) * (T / N)) + 1 / a ^ 2)) - _| ≤ _
      rw [e]
      have h5 : Real.sqrt (1 / (20 * (n * (T / N)) + 1 / a ^ 2)) ^ 7 ≤ a ^ 7 :=
        pow_le_pow_left₀ hVn.1.le hVn.2 7
      have h6 : 2000 * (T / N) ^ 3 * Real.sqrt (1 / (20 * (n * (T / N)) + 1 / a ^ 2)) ^ 7
          ≤ 2000 * (T / N) ^ 3 * a ^ 7 := mul_le_mul_of_nonneg_left h5 (by positivity)
      exact le_trans hloc h6)
    N le_rfl
  have hNT : (N : ℝ) * (T / N) = T := by field_simp
  have hfin := hacc.2
  simp only [hNT] at hfin
  have e2 : (N : ℝ) * (2000 * (T / N) ^ 3 * a ^ 7) = 2000 * a ^ 7 * T * (T / N) ^ 2 := by
    have : (N : ℝ) * (2000 * (T / N) ^ 3 * a ^ 7)
        = 2000 * a ^ 7 * ((N : ℝ) * (T / N)) * (T / N) ^ 2 := by ring
    rw [this, hNT]
  rw [e2] at hfin
  exact hfin

/-- A bound that holds from some index on holds from index 1 on with a larger constant, when the
comparison sequence is positive. -/
theorem bound_all_of_bound_large (E H : ℕ → ℝ) (hH : ∀ N, 1 ≤ N → 0 < H N) (C1 : ℝ) (N0 : ℕ)
    (hlarge : ∀ N, N0 ≤ N → 1 ≤ N → E N ≤ C1 * H N) :
    ∃ C, 0 ≤ C ∧ ∀ N, 1 ≤ N → E N ≤ C * H N := by
  refine ⟨|C1| + ∑ n in Finset.range N0, |E n / H n|,
    add_nonneg (abs_nonneg _) (Finset.sum_nonneg (fun _ _ => abs_nonneg _)), ?_⟩
  intro N hN
  have hHN := hH N hN
  have hsum_nonneg : 0 ≤ ∑ n in Finset.range N0, |E n / H n| :=
    Finset.sum_nonneg (fun _ _ => abs_nonneg _)
  by_cases hlt : N < N0
  · have hmem : N ∈ Finset.range N0 := Finset.mem_range.2 hlt
    have hterm : |E N / H N| ≤ ∑ n in Finset.range N0, |E n / H n| :=
      Finset.single_le_sum (f := fun n => |E n / H n|) (fun _ _ => abs_nonneg _) hmem
    have h1 : E N = E N / H N * H N := by field_simp
    have h2 : E N / H N ≤ |E N / H N| := le_abs_self _
    calc E N = E N / H N * H N := h1
      _ ≤ |E N / H N| * H N := mul_le_mul_of_nonneg_right h2 hHN.le
      _ ≤ (|C1| + ∑ n in Finset.range N0, |E n / H n|) * H N := by
          apply mul_le_mul_of_nonneg_right _ hHN.le
          linarith [abs_nonneg C1]
  · have h1 := hlarge N (by omega) hN
    calc E N ≤ C1 * H N := h1
      _ ≤ (|C1| + ∑ n in Finset.range N0, |E n / H n|) * H N := by
          apply mul_le_mul_of_nonneg_right _ hHN.le
          linarith [le_abs_self C1]

/-- The iterates of an odd map are odd. -/
theorem iterate_odd (F : ℝ → ℝ) (hodd : ∀ u, F (-u) = -F u) (n : ℕ) (u : ℝ) :
    F^[n] (-u) = -F^[n] u := by
  induction n generalizing u with
  | zero => rfl
  | succ n ih => rw [Function.iterate_succ_apply, Function.iterate_succ_apply, hodd, ih]

/-- Explicit Euler on `u' = -10 u^3` from `u0 ≠ 0` over the horizon `T` has order one: the error
at `T` after `N` steps is at most `C (T/N)` with `C` independent of `N`. -/
theorem euler_scalar_order (u0 T : ℝ) (hu0 : u0 ≠ 0) (hT : 0 < T) :
    ∃ C, 0 ≤ C ∧ ∀ N : ℕ, 1 ≤ N →
      |(fun u : ℝ => u - 10 * (T / N) * u ^ 3)^[N] u0
          - (if u0 > 0 then Real.sqrt (1 / (20 * T + 1 / u0 ^ 2))
              else -Real.sqrt (1 / (20 * T + 1 / u0 ^ 2)))| ≤ C * (T / N) := by
  have ha : 0 < |u0| := abs_pos.2 hu0
  apply bound_all_of_bound_large _ (fun N : ℕ => T / N)
    (fun N hN => div_pos hT (by exact_mod_cast hN)) (150 * |u0| ^ 5 * T) ⌈30 * |u0| ^ 2 * T⌉₊
  intro N hN0 hN
  have hNpos : (0 : ℝ) < N := by exact_mod_cast hN
  have hsmall : 30 * (T / N) * |u0| ^ 2 ≤ 1 := by
    have h1 : 30 * |u0| ^ 2 * T ≤ N := le_trans (Nat.le_ceil _) (by exact_mod_cast hN0)
    have e : 30 * (T / N) * |u0| ^ 2 = 30 * |u0| ^ 2 * T / N := by ring
    rw [e, div_le_one hNpos]
    exact h1
  have hmain := euler_scalar_small_step |u0| T ha hT N hN hsmall
  rw [sq_abs] at hmain
  by_cases hpos : u0 > 0
  · rw [if_pos hpos]
    have habs : |u0| = u0 := abs_of_pos hpos
    rw [habs] at hmain ⊢
    exact hmain
  · rw [if_neg hpos]
    have hneg : u0 < 0 := lt_of_le_of_ne (not_lt.1 hpos) hu0
    have e1 : u0 = -|u0| := by rw [abs_of_neg hneg, neg_neg]
    have hodd : ∀ u : ℝ, (fun u : ℝ => u - 10 * (T / N) * u ^ 3) (-u)
        = -(fun u : ℝ => u - 10 * (T / N) * u ^ 3) u := by
      intro u
      ring
    have e2 : (fun u : ℝ => u - 10 * (T / N) * u ^ 3)^[N] u0
        = -(fun u : ℝ => u - 10 * (T / N) * u ^ 3)^[N] |u0| := by
      conv_lhs => rw [e1]
      exact iterate_odd _ hodd N |u0|
    rw [e2]
    have e3 : -(fun u : ℝ => u - 10 * (T / N) * u ^ 3)^[N] |u0|
        - -Real.sqrt (1 / (20 * T + 1 / u0 ^ 2))
        = -((fun u : ℝ => u - 10 * (T / N) * u ^ 3)^[N] |u0|
          - Real.sqrt (1 / (20 * T + 1 / u0 ^ 2))) := by ring
    rw [e3, abs_neg]
    exact hmain

/-- Heun on `u' = -10 u^3` from `u0 ≠ 0` over the horizon `T` has order two: the error at `T`
after `N` steps is at most `C (T/N)^2` with `C` independent of `N`. -/
theorem heun_scalar_order (u0 T : ℝ) (hu0 : u0 ≠ 0) (hT : 0 < T) :
    ∃ C, 0 ≤ C ∧ ∀ N : ℕ, 1 ≤ N →
      |(fun u : ℝ => u - 5 * (T / N) * (u ^ 3 + (u - 10 * (T / N) * u ^ 3) ^ 3))^[N] u0
          - (if u0 > 0 then Real.sqrt (1 / (20 * T + 1 / u0 ^ 2))
              else -Real.sqrt (1 / (20 * T + 1 / u0 ^ 2)))| ≤ C * (T / N) ^ 2 := by
  have ha : 0 < |u0| := abs_pos.2 hu0
  apply bound_all_of_bound_large _ (fun N : ℕ => (T / N) ^ 2)
    (fun N hN => pow_pos (div_pos hT (by exact_mod_cast hN)) 2) (2000 * |u0| ^ 7 * T)
    ⌈30 * |u0| ^ 2 * T⌉₊
  intro N hN0 hN
  have hNpos : (0 : ℝ) < N := by exact_mod_cast hN
  have hsmall : 30 * (T / N) * |u0| ^ 2 ≤ 1 := by
    have h1 : 30 * |u0| ^ 2 * T ≤ N := le_trans (Nat.le_ceil _) (by exact_mod_cast hN0)
    have e : 30 * (T / N) * |u0| ^ 2 = 30 * |u0| ^ 2 * T / N := by ring
    rw [e, div_le_one hNpos]
    exact h1
  have hmain := heun_scalar_small_step |u0| T ha hT N hN hsmall
  rw [sq_abs] at hmain
  by_cases hpos : u0 > 0
  · rw [if_pos hpos]
    have habs : |u0| = u0 := abs_of_pos hpos
    rw [habs] at hmain ⊢
    exact hmain
  · rw [if_neg hpos]
    have hneg : u0 < 0 := lt_of_le_of_ne (not_lt.1 hpos) hu0
    have e1 : u0 = -|u0| := by rw [abs_of_neg hneg, neg_neg]
    have hodd : ∀ u : ℝ,
        (fun u : ℝ => u - 5 * (T / N) * (u ^ 3 + (u - 10 * (T / N) * u ^ 3) ^ 3)) (-u)
        = -(fun u : ℝ => u - 5 * (T / N) * (u ^ 3 + (u - 10 * (T / N) * u ^ 3) ^ 3)) u := by
      intro u
      ring
    have e2 : (fun u : ℝ => u - 5 * (T / N) * (u ^ 3 + (u - 10 * (T / N) * u ^ 3) ^ 3))^[N] u0
        = -(fun u : ℝ => u - 5 * (T / N) * (u ^ 3 + (u - 10 * (T / N) * u ^ 3) ^ 3))^[N]
            |u0| := by
      conv_lhs => rw [e1]
      exact iterate_odd _ hodd N |u0|
    rw [e2]
    have e3 : ∀ p q : ℝ, -p - -q = -(p - q) := fun p q => by ring
    rw [e3, abs_neg]
    exact hmain

end ConvergenceOrder

section ConvergenceProgram

/-- The columns of a trajectory computed by a scheme that cannot fail are the iterates of its
step function on the initial condition. -/
theorem solve_column_iterate {K : Type} {dim : Nat} (s : OdeSolver K dim) (quiet_NaN : K)
    (ode_sys : OdeSystem K dim) (results_matrix out : Buffer K)
    (f : (Fin dim → K) → (Fin dim → K))
    (hf : ∀ x, s.method_.time_step ode_sys x = .ok (f x))
    (h : s.solve quiet_NaN ode_sys results_matrix = .ok out) :
    ∀ j, j ≤ s.N_ → out.column dim j = f^[j] ode_sys.initial_condition := by
  obtain ⟨h0, hstep⟩ := solve_spec s quiet_NaN ode_sys results_matrix out h
  intro j
  induction j with
  | zero => intro _; exact h0
  | succ j ih =>
    intro hj
    have h1 := hstep j (by omega)
    rw [hf] at h1
    rw [Function.iterate_succ_apply', ← ih (by omega)]
    exact (Except.ok.inj h1).symm

/-- The offset of entry `i` of the initial condition of the test model from `0.1 * i` is
`1/100 - 9/100 * i`, of absolute value at least `1/100`. -/
theorem test_offset (i : Fin 50) :
    (OdeSys_test.initial_condition i : ℝ) - 0.1 * ((i : ℕ) : ℝ) = 1 / 100 - 9 / 100 * ((i : ℕ) : ℝ)
      ∧ 1 / 100 ≤ |(OdeSys_test.initial_condition i : ℝ) - 0.1 * ((i : ℕ) : ℝ)| := by
  have e : (OdeSys_test.initial_condition i : ℝ) - 0.1 * ((i : ℕ) : ℝ)
      = 1 / 100 - 9 / 100 * ((i : ℕ) : ℝ) := by
    simp only [OdeSys_test.initial_condition]
    push_cast
    norm_num
    ring
  refine ⟨e, ?_⟩
  rw [e]
  rcases Nat.eq_zero_or_pos (i : ℕ) with h0 | hpos
  · rw [h0]
    norm_num [abs_of_pos]
  · have h1 : (1 : ℝ) ≤ ((i : ℕ) : ℝ) := by exact_mod_cast hpos
    rw [abs_of_neg (by linarith)]
    linarith

/-- With `epsilon ≤ 1/100` the degenerate branch of `analytic_solution` is never taken, and
entry `i` is `0.1 * i` plus or minus `sqrt(1/(20 t + 1/u0^2))`, with the sign of the initial
offset `u0`. -/
theorem analytic_solution_spec (epsilon : ℝ) (heps : epsilon ≤ 1 / 100) (t : ℝ) (i : Fin 50) :
    OdeSys_test.analytic_solution Real.sqrt epsilon t i
      = 0.1 * ((i : ℕ) : ℝ)
        + (if (OdeSys_test.initial_condition i : ℝ) - 0.1 * ((i : ℕ) : ℝ) > 0 then
            Real.sqrt (1 / (20 * t
              + 1 / ((OdeSys_test.initial_condition i : ℝ) - 0.1 * ((i : ℕ) : ℝ)) ^ 2))
          else -Real.sqrt (1 / (20 * t
              + 1 / ((OdeSys_test.initial_condition i : ℝ) - 0.1 * ((i : ℕ) : ℝ)) ^ 2))) := by
  have hoff := (test_offset i).2
  have hnot : ¬ |(OdeSys_test.initial_condition i : ℝ) - 0.1 * ((i : ℕ) : ℝ)| < epsilon := by
    linarith
  simp only [OdeSys_test.analytic_solution, if_neg hnot]
  by_cases hpos : (OdeSys_test.initial_condition i : ℝ) > 0.1 * ((i : ℕ) : ℝ)
  · have h2 : (OdeSys_test.initial_condition i : ℝ) - 0.1 * ((i : ℕ) : ℝ) > 0 := by linarith
    rw [if_pos hpos, if_pos h2]
  · have h2 : ¬ (OdeSys_test.initial_condition i : ℝ) - 0.1 * ((i : ℕ) : ℝ) > 0 := by
      intro h
      apply hpos
      linarith
    rw [if_neg hpos, if_neg h2]
    ring

/-- Entry `i` of the explicit Euler iterates of the test model follows the scalar Euler map of
`u' = -10 u^3` in the offset from `0.1 * i`. -/
theorem euler_component (s : EulerForward ℝ) (n : ℕ) (x : Fin 50 → ℝ) (i : Fin 50) :
    ((fun y => s.time_step OdeSys_test.toOdeSystem y)^[n] x) i
      = 0.1 * ((i : ℕ) : ℝ)
        + (fun u : ℝ => u - 10 * s.dT_ * u ^ 3)^[n] (x i - 0.1 * ((i : ℕ) : ℝ)) := by
  induction n generalizing x with
  | zero => simp
  | succ n ih =>
    rw [Function.iterate_succ_apply, ih, Function.iterate_succ_apply]
    congr 2
    simp only [EulerForward.time_step, OdeSys_test.toOdeSystem, OdeSys_test.call]
    ring

/-- Entry `i` of the Heun iterates of the test model follows the scalar Heun map of
`u' = -10 u^3` in the offset from `0.1 * i`. -/
theorem heun_component (s : Heun ℝ) (n : ℕ) (x : Fin 50 → ℝ) (i : Fin 50) :
    ((fun y => s.time_step OdeSys_test.toOdeSystem y)^[n] x) i
      = 0.1 * ((i : ℕ) : ℝ)
        + (fun u : ℝ => u - 5 * s.dT_ * (u ^ 3 + (u - 10 * s.dT_ * u ^ 3) ^ 3))^[n]
            (x i - 0.1 * ((i : ℕ) : ℝ)) := by
  induction n generalizing x with
  | zero => simp
  | succ n ih =>
    rw [Function.iterate_succ_apply, ih, Function.iterate_succ_apply]
    congr 2
    simp only [Heun.time_step, OdeSys_test.toOdeSystem, OdeSys_test.call]
    norm_num
    ring

/-- The Euclidean norm of a vector of 50 entries, each of absolute value at most `B`, is at most
`50 B`. -/
theorem euclid_le_of_entries (e : Fin 50 → ℝ) (B : ℝ) (hB : 0 ≤ B) (h : ∀ i, |e i| ≤ B) :
    Real.sqrt (∑ i, e i ^ 2) ≤ 50 * B := by
  rw [Real.sqrt_le_left (by positivity)]
  have h1 : ∀ i ∈ (Finset.univ : Finset (Fin 50)), e i ^ 2 ≤ B ^ 2 := by
    intro i _
    have := pow_le_pow_left₀ (abs_nonneg (e i)) (h i) 2
    rwa [sq_abs] at this
  have h2 := Finset.sum_le_sum h1
  simp only [Finset.sum_const, Finset.card_univ, Fintype.card_fin, nsmul_eq_mul] at h2
  have h3 : (0 : ℝ) ≤ B ^ 2 := sq_nonneg B
  push_cast at h2
  nlinarith

/-- Explicit Euler on the test model: every entry of the state after `N` steps of size `T/N` is
within `C (T/N)` of the entry of `analytic_solution(T)`, with `C` independent of `N`. -/
theorem euler_entries_order (T : ℝ) (hT : 0 < T) (epsilon : ℝ) (heps : epsilon ≤ 1 / 100) :
    ∃ C, 0 ≤ C ∧ ∀ N : ℕ, 1 ≤ N → ∀ i : Fin 50,
      |((fun y => (EulerForward.create N T).time_step OdeSys_test.toOdeSystem y)^[N]
            OdeSys_test.toOdeSystem.initial_condition) i
          - OdeSys_test.analytic_solution Real.sqrt epsilon T i| ≤ C * (T / N) := by
  have hne : ∀ i : Fin 50, (OdeSys_test.initial_condition i : ℝ) - 0.1 * ((i : ℕ) : ℝ) ≠ 0 := by
    intro i h0
    have := (test_offset i).2
    rw [h0, abs_zero] at this
    norm_num at this
  choose Cf hCf0 hCf using fun i : Fin 50 => euler_scalar_order _ T (hne i) hT
  refine ⟨∑ i, Cf i, Finset.sum_nonneg (fun i _ => hCf0 i), ?_⟩
  intro N hN i
  have hNpos : (0 : ℝ) < N := by exact_mod_cast hN
  rw [euler_component, analytic_solution_spec epsilon heps T i]
  have hdt : (EulerForward.create N T).dT_ = T / N := rfl
  have hic : (OdeSys_test.toOdeSystem : OdeSystem ℝ 50).initial_condition i
      = OdeSys_test.initial_condition i := rfl
  rw [hdt, hic, add_sub_add_left_eq_sub]
  calc _ ≤ Cf i * (T / N) := hCf i N hN
    _ ≤ (∑ i, Cf i) * (T / N) := by
        apply mul_le_mul_of_nonneg_right _ (by positivity)
        exact Finset.single_le_sum (fun j _ => hCf0 j) (Finset.mem_univ i)

/-- Heun on the test model: every entry of the state after `N` steps of size `T/N` is within
`C (T/N)^2` of the entry of `analytic_solution(T)`, with `C` independent of `N`. -/
theorem heun_entries_order (T : ℝ) (hT : 0 < T) (epsilon : ℝ) (heps : epsilon ≤ 1 / 100) :
    ∃ C, 0 ≤ C ∧ ∀ N : ℕ, 1 ≤ N → ∀ i : Fin 50,
      |((fun y => (Heun.create N T).time_step OdeSys_test.toOdeSystem y)^[N]
            OdeSys_test.toOdeSystem.initial_condition) i
          - OdeSys_test.analytic_solution Real.sqrt epsilon T i| ≤ C * (T / N) ^ 2 := by
  have hne : ∀ i : Fin 50, (OdeSys_test.initial_condition i : ℝ) - 0.1 * ((i : ℕ) : ℝ) ≠ 0 := by
    intro i h0
    have := (test_offset i).2
    rw [h0, abs_zero] at this
    norm_num at this
  choose Cf hCf0 hCf using fun i : Fin 50 => heun_scalar_order _ T (hne i) hT
  refine ⟨∑ i, Cf i, Finset.sum_nonneg (fun i _ => hCf0 i), ?_⟩
  intro N hN i
  have hNpos : (0 : ℝ) < N := by exact_mod_cast hN
  rw [heun_component, analytic_solution_spec epsilon heps T i]
  have hdt : (Heun.create N T).dT_ = T / N := rfl
  have hic : (OdeSys_test.toOdeSystem : OdeSystem ℝ 50).initial_condition i
      = OdeSys_test.initial_condition i := rfl
  rw [hdt, hic, add_sub_add_left_eq_sub]
  calc _ ≤ Cf i * (T / N) ^ 2 := hCf i N hN
    _ ≤ (∑ i, Cf i) * (T / N) ^ 2 := by
        apply mul_le_mul_of_nonneg_right _ (by positivity)
        exact Finset.single_le_sum (fun j _ => hCf0 j) (Finset.mem_univ i)

/-- The Euclidean norm of `analytic_solution(T)` is positive: its entry 0 is. -/
theorem analytic_norm_pos (T : ℝ) (hT : 0 < T) (epsilon : ℝ) (heps : epsilon ≤ 1 / 100) :
    0 < Real.sqrt (∑ i, OdeSys_test.analytic_solution Real.sqrt epsilon T i ^ 2) := by
  apply Real.sqrt_pos.2
  have h0 : 0 < OdeSys_test.analytic_solution Real.sqrt epsilon T 0 := by
    rw [analytic_solution_spec epsilon heps T 0]
    have e := (test_offset 0).1
    have hpos : (OdeSys_test.initial_condition (0 : Fin 50) : ℝ)
        - 0.1 * (((0 : Fin 50) : ℕ) : ℝ) > 0 := by
      rw [e]
      norm_num
    rw [if_pos hpos]
    have hs : 0 < Real.sqrt (1 / (20 * T + 1 / ((OdeSys_test.initial_condition (0 : Fin 50) : ℝ)
        - 0.1 * (((0 : Fin 50) : ℕ) : ℝ)) ^ 2)) := by
      apply Real.sqrt_pos.2
      have := hpos
      positivity
    have h1 : (0 : ℝ) ≤ 0.1 * (((0 : Fin 50) : ℕ) : ℝ) := by norm_num
    linarith
  calc 0 < OdeSys_test.analytic_solution Real.sqrt epsilon T 0 ^ 2 := pow_pos h0 2
    _ ≤ ∑ i, OdeSys_test.analytic_solution Real.sqrt epsilon T i ^ 2 :=
        Finset.single_le_sum (f := fun i => OdeSys_test.analytic_solution Real.sqrt epsilon T i ^ 2)
          (fun j _ => sq_nonneg _) (Finset.mem_univ 0)

end ConvergenceProgram

/-- C27: on the 50-dimensional test model, for every horizon `T > 0` there is a constant `C`
such that for every step count `N ≥ 1` `OdeSolver::solve` returns on a buffer of 50 rows and
`N+1` columns and the Euclidean distance between the last trajectory column and
`analytic_solution(T)`, relative to the Euclidean norm of `analytic_solution(T)`, which is not
zero, is at most `C*(T/N)` for explicit Euler and at most `C*(T/N)^2` for Heun.  The arithmetic
is that of the real numbers, with `epsilon` at most `1/100`. -/
theorem C27_convergence_order (T : ℝ) (hT : 0 < T) (epsilon : ℝ) (heps : epsilon ≤ 1 / 100) :
    0 < Real.sqrt (∑ i, OdeSys_test.analytic_solution Real.sqrt epsilon T i ^ 2) ∧
      ∃ C : ℝ, ∀ N : ℕ, 1 ≤ N → ∀ (quiet_NaN : ℝ) (buf : Buffer ℝ),
        buf.size1 = 50 → buf.size2 = N + 1 →
        (∃ out, (OdeSolver.create (fun n t => (EulerForward.create n t).scheme) N T).solve
              quiet_NaN OdeSys_test.toOdeSystem buf = .ok out ∧
            Real.sqrt (∑ i, (out.column 50 N i
                - OdeSys_test.analytic_solution Real.sqrt epsilon T i) ^ 2)
              / Real.sqrt (∑ i, OdeSys_test.analytic_solution Real.sqrt epsilon T i ^ 2)
              ≤ C * (T / N)) ∧
        (∃ out, (OdeSolver.create (fun n t => (Heun.create n t).scheme) N T).solve
              quiet_NaN OdeSys_test.toOdeSystem buf = .ok out ∧
            Real.sqrt (∑ i, (out.column 50 N i
                - OdeSys_test.analytic_solution Real.sqrt epsilon T i) ^ 2)
              / Real.sqrt (∑ i, OdeSys_test.analytic_solution Real.sqrt epsilon T i ^ 2)
              ≤ C * (T / N) ^ 2) := by
  have hA := analytic_norm_pos T hT epsilon heps
  refine ⟨hA, ?_⟩
  obtain ⟨CE, hCE0, hCE⟩ := euler_entries_order T hT epsilon heps
  obtain ⟨CH, hCH0, hCH⟩ := heun_entries_order T hT epsilon heps
  generalize hAdef : Real.sqrt (∑ i, OdeSys_test.analytic_solution Real.sqrt epsilon T i ^ 2)
    = A at hA
  refine ⟨50 * CE / A + 50 * CH / A, ?_⟩
  intro N hN quiet_NaN buf h1 h2
  have hNpos : (0 : ℝ) < N := by exact_mod_cast hN
  have hh : 0 ≤ T / N := by positivity
  have hE0 : 0 ≤ 50 * CE / A := by positivity
  have hH0 : 0 ≤ 50 * CH / A := by positivity
  constructor
  · obtain ⟨out, hout⟩ := solve_total
      (OdeSolver.create (fun n t => (EulerForward.create n t).scheme) N T)
      quiet_NaN OdeSys_test.toOdeSystem buf h1 h2 (fun x => ⟨_, rfl⟩)
    refine ⟨out, hout, ?_⟩
    have hcol := solve_column_iterate _ quiet_NaN _ buf out
      (fun y => (EulerForward.create N T).time_step OdeSys_test.toOdeSystem y)
      (fun x => rfl) hout N le_rfl
    rw [hcol]
    have hnorm := euclid_le_of_entries
      (fun i => ((fun y => (EulerForward.create N T).time_step OdeSys_test.toOdeSystem y)^[N]
          OdeSys_test.toOdeSystem.initial_condition) i
        - OdeSys_test.analytic_solution Real.sqrt epsilon T i)
      (CE * (T / N)) (by positivity) (hCE N hN)
    calc _ ≤ 50 * (CE * (T / N)) / A := div_le_div_of_nonneg_right hnorm hA.le
      _ = 50 * CE / A * (T / N) := by ring
      _ ≤ (50 * CE / A + 50 * CH / A) * (T / N) :=
          mul_le_mul_of_nonneg_right (by linarith) hh
  · obtain ⟨out, hout⟩ := solve_total
      (OdeSolver.create (fun n t => (Heun.create n t).scheme) N T)
      quiet_NaN OdeSys_test.toOdeSystem buf h1 h2 (fun x => ⟨_, rfl⟩)
    refine ⟨out, hout, ?_⟩
    have hcol := solve_column_iterate _ quiet_NaN _ buf out
      (fun y => (Heun.create N T).time_step OdeSys_test.toOdeSystem y)
      (fun x => rfl) hout N le_rfl
    rw [hcol]
    have hnorm := euclid_le_of_entries
      (fun i => ((fun y => (Heun.create N T).time_step OdeSys_test.toOdeSystem y)^[N]
          OdeSys_test.toOdeSystem.initial_condition) i
        - OdeSys_test.analytic_solution Real.sqrt epsilon T i)
      (CH * (T / N) ^ 2) (by positivity) (hCH N hN)
    calc _ ≤ 50 * (CH * (T / N) ^ 2) / A := div_le_div_of_nonneg_right hnorm hA.le
      _ = 50 * CH / A * (T / N) ^ 2 := by ring
      _ ≤ (50 * CE / A + 50 * CH / A) * (T / N) ^ 2 :=
          mul_le_mul_of_nonneg_right (by linarith) (by positivity)

/-- C27 at the horizon `T = 1` with `epsilon = 2^-52`. -/
theorem C27_convergence_order_witness :
    0 < Real.sqrt (∑ i, OdeSys_test.analytic_solution Real.sqrt (1 / 2 ^ 52) 1 i ^ 2) ∧
      ∃ C : ℝ, ∀ N : ℕ, 1 ≤ N → ∀ (quiet_NaN : ℝ) (buf : Buffer ℝ),
        buf.size1 = 50 → buf.size2 = N + 1 →
        (∃ out, (OdeSolver.create (fun n t => (EulerForward.create n t).scheme) N 1).solve
              quiet_NaN OdeSys_test.toOdeSystem buf = .ok out ∧
            Real.sqrt (∑ i, (out.column 50 N i
                - OdeSys_test.analytic_solution Real.sqrt (1 / 2 ^ 52) 1 i) ^ 2)
              / Real.sqrt (∑ i, OdeSys_test.analytic_solution Real.sqrt (1 / 2 ^ 52) 1 i ^ 2)
              ≤ C * (1 / N)) ∧
        (∃ out, (OdeSolver.create (fun n t => (Heun.create n t).scheme) N 1).solve
              quiet_NaN OdeSys_test.toOdeSystem buf = .ok out ∧
            Real.sqrt (∑ i, (out.column 50 N i
                - OdeSys_test.analytic_solution Real.sqrt (1 / 2 ^ 52) 1 i) ^ 2)
              / Real.sqrt (∑ i, OdeSys_test.analytic_solution Real.sqrt (1 / 2 ^ 52) 1 i ^ 2)
              ≤ C * (1 / N) ^ 2) :=
  C27_convergence_order 1 (by norm_num) (1 / 2 ^ 52) (by norm_num)

end ode

namespace siqrd

/-- C33: for every parameter set and every state, each of the five columns of the matrix written
by `OdeSys_SIQRD::jacobian` sums to zero; with the columns written out, the entries of each
column are those of the partial derivatives of `fS`, `fI`, `fQ`, `fR`, `fD` with respect to one
variable, whose sum is the derivative of `fS + fI + fQ + fR + fD = 0`. -/
theorem C33_jacobian_columns_sum_zero {K : Type} [LinearOrderedField K] (m : OdeSys_SIQRD K)
    (x : Fin 5 → K) :
    (∀ c : Fin 5, ∑ r, m.jacobian x r c = 0) ∧
      (∀ c : Fin 5, m.jacobian x 0 c + m.jacobian x 1 c + m.jacobian x 2 c
        + m.jacobian x 3 c + m.jacobian x 4 c = 0) ∧
      m.dSdS (x 0) (x 1) (x 3) + m.dIdS (x 0) (x 1) (x 3) = 0 ∧
      m.dSdI (x 0) (x 1) (x 3) + m.dIdI (x 0) (x 1) (x 3) + m.delta_ + m.gamma_ + m.alpha_ = 0 ∧
      -(m.gamma_ + m.alpha_) + m.gamma_ + m.alpha_ = 0 ∧
      m.dSdR (x 0) (x 1) (x 3) + m.dIdR (x 0) (x 1) (x 3) + -m.mu_ = 0 := by
  have hcol := jacobian_col_sum m x
  refine ⟨hcol, fun c => ?_, ?_, ?_, ?_, ?_⟩
  · have h := hcol c
    rw [Fin.sum_univ_five] at h
    exact h
  · have h := hcol 0
    rw [jacobian_rows, Fin.sum_univ_five] at h
    simpa [Matrix.vecHead, Matrix.vecTail] using h
  · have h := hcol 1
    rw [jacobian_rows, Fin.sum_univ_five] at h
    simpa [Matrix.vecHead, Matrix.vecTail, add_assoc] using h
  · ring
  · have h := hcol 3
    rw [jacobian_rows, Fin.sum_univ_five] at h
    simpa [Matrix.vecHead, Matrix.vecTail] using h

end siqrd

namespace optimization

section UpdateAlgebra

variable {K : Type} [LinearOrderedField K] {dim : Nat}

/-- The step returned by the line search of BFGS is positive: it is `1 / 2^k`. -/
theorem BFGS_step_size_pos
    (lu_solve : Matrix (Fin dim) (Fin dim) K → (Fin dim → K) → (Fin dim → K))
    (target_fun : target_functor K dim) (tolerance : K) (st : BFGS_state K dim) :
    0 < BFGS_step_size lu_solve target_fun tolerance st := by
  obtain ⟨k, -, hs, -, -⟩ := LineSearch.search_spec (LineSearch.create (tolerance * 100))
    st.vars (BFGS_direction lu_solve st) st.target_k st.grad_target_k target_fun
    BFGS_max_step_size
  rw [BFGS_step_size, LineSearch.call, hs]
  simp only [BFGS_max_step_size]
  positivity

/-- The update of the code, with `d` and `s` apart, is the formula of the comment at the
displacement `s * d`, when `s` is not zero. -/
theorem update_eq_standard (B : Matrix (Fin dim) (Fin dim) K) (d y : Fin dim → K) (s : K)
    (hs : s ≠ 0) :
    (fun i j => B i j + (-outer_prod (prod_mv B d) (prod_vm d B) i j / inner_prod (prod_vm d B) d
        + outer_prod y y i j / (inner_prod d y * s)))
      = standard_BFGS_formula B (fun i => s * d i) y := by
  have h1 : prod_mv B (fun i => s * d i) = fun i => s * prod_mv B d i := by
    funext i
    simp only [prod_mv, Finset.mul_sum]
    exact Finset.sum_congr rfl (fun j _ => by ring)
  have h2 : prod_vm (fun i => s * d i) B = fun j => s * prod_vm d B j := by
    funext j
    simp only [prod_vm, Finset.mul_sum]
    exact Finset.sum_congr rfl (fun i _ => by ring)
  have h3 : inner_prod (fun j => s * prod_vm d B j) (fun i => s * d i)
      = s * s * inner_prod (prod_vm d B) d := by
    simp only [inner_prod, Finset.mul_sum]
    exact Finset.sum_congr rfl (fun i _ => by ring)
  have h4 : inner_prod (fun i => s * d i) y = inner_prod d y * s := by
    simp only [inner_prod, Finset.sum_mul]
    exact Finset.sum_congr rfl (fun i _ => by ring)
  funext i j
  simp only [standard_BFGS_formula, h1, h2, h3, h4, outer_prod]
  have h5 : s * prod_mv B d i * (s * prod_vm d B j) / (s * s * inner_prod (prod_vm d B) d)
      = prod_mv B d i * prod_vm d B j / inner_prod (prod_vm d B) d := by
    rw [show s * prod_mv B d i * (s * prod_vm d B j)
      = s * s * (prod_mv B d i * prod_vm d B j) by ring]
    exact mul_div_mul_left _ _ (mul_ne_zero hs hs)
  rw [h5]
  ring

/-- The secant equation: the updated matrix takes the displacement `s * d` to `y`. -/
theorem update_secant (H : Matrix (Fin dim) (Fin dim) K) (d y : Fin dim → K) (s : K)
    (h1 : inner_prod (prod_vm d H) d ≠ 0) (h2 : s * inner_prod d y ≠ 0) :
    prod_mv (fun i j => H i j + (-outer_prod (prod_mv H d) (prod_vm d H) i j
        / inner_prod (prod_vm d H) d + outer_prod y y i j / (inner_prod d y * s)))
      (fun i => s * d i) = y := by
  have hs : s ≠ 0 := left_ne_zero_of_mul h2
  have hdy : inner_prod d y ≠ 0 := right_ne_zero_of_mul h2
  funext i
  simp only [prod_mv, outer_prod]
  have e : ∀ j, (H i j + (-(prod_mv H d i * prod_vm d H j) / inner_prod (prod_vm d H) d
      + y i * y j / (inner_prod d y * s))) * (s * d j)
      = s * (H i j * d j)
        - s * prod_mv H d i / inner_prod (prod_vm d H) d * (prod_vm d H j * d j)
        + y i / inner_prod d y * (d j * y j) := by
    intro j
    field_simp
    ring
  simp only [prod_mv] at e
  rw [Finset.sum_congr rfl (fun j _ => e j), Finset.sum_add_distrib, Finset.sum_sub_distrib,
    ← Finset.mul_sum, ← Finset.mul_sum, ← Finset.mul_sum]
  have e1 : ∑ j, prod_vm d H j * d j = inner_prod (prod_vm d H) d := rfl
  have e2 : ∑ j, d j * y j = inner_prod d y := rfl
  rw [e1, e2]
  field_simp

end UpdateAlgebra

/-- C31: for every Hessian approximation `B`, direction `d`, step `s ≠ 0` and gradient difference
`y`, the update computed by BFGS equals the standard BFGS formula of the code comment,
`B - (B*s_vec)(s_vec^T*B)/(s_vec^T*B*s_vec) + (y y^T)/(s_vec . y)`, taken with the displacement
`s_vec = s*d`; and since the step of the line search is positive, the Hessian after every update
of a run is that formula at the displacement between the two points and the difference of their
gradients. -/
theorem C31_update_is_standard_formula {K : Type} [LinearOrderedField K] {dim : Nat} :
    (∀ (B : Matrix (Fin dim) (Fin dim) K) (d y : Fin dim → K) (s : K), s ≠ 0 →
        (fun i j => B i j + (-outer_prod (prod_mv B d) (prod_vm d B) i j
            / inner_prod (prod_vm d B) d + outer_prod y y i j / (inner_prod d y * s)))
          = standard_BFGS_formula B (fun i => s * d i) y) ∧
      ∀ (lu_solve : Matrix (Fin dim) (Fin dim) K → (Fin dim → K) → (Fin dim → K))
        (target_fun : target_functor K dim) (tolerance : K) (st : BFGS_state K dim),
        (BFGS_update lu_solve target_fun tolerance st).hessian
          = standard_BFGS_formula st.hessian
              (fun i => (BFGS_update lu_solve target_fun tolerance st).vars i - st.vars i)
              (fun i => (BFGS_update lu_solve target_fun tolerance st).grad_target_k i
                - st.grad_target_k i) := by
  refine ⟨fun B d y s hs => update_eq_standard B d y s hs,
    fun lu_solve target_fun tolerance st => ?_⟩
  have hpos := BFGS_step_size_pos lu_solve target_fun tolerance st
  have hdisp : (fun i => (BFGS_update lu_solve target_fun tolerance st).vars i - st.vars i)
      = fun i => BFGS_step_size lu_solve target_fun tolerance st
          * BFGS_direction lu_solve st i := by
    funext i
    simp only [BFGS_update]
    ring
  rw [hdisp, ← update_eq_standard _ _ _ _ hpos.ne']
  rfl

/-- C34: for every Hessian approximation `H`, direction `d`, step `s` and gradient difference `y`
with `(d^T*H) . d ≠ 0` and `s*(d . y) ≠ 0`, the matrix `H'` produced by the BFGS update satisfies
the secant equation `H' * (s*d) = y`; in a BFGS iteration, `s*d` is the displacement of the
variables and `y` the difference of the gradients. -/
theorem C34_secant_equation {K : Type} [LinearOrderedField K] {dim : Nat}
    (H : Matrix (Fin dim) (Fin dim) K) (d y : Fin dim → K) (s : K)
    (h1 : inner_prod (prod_vm d H) d ≠ 0) (h2 : s * inner_prod d y ≠ 0) :
    prod_mv (fun i j => H i j + (-outer_prod (prod_mv H d) (prod_vm d H) i j
          / inner_prod (prod_vm d H) d + outer_prod y y i j / (inner_prod d y * s)))
        (fun i => s * d i) = y ∧
      ∀ (lu_solve : Matrix (Fin dim) (Fin dim) K → (Fin dim → K) → (Fin dim → K))
        (target_fun : target_functor K dim) (tolerance : K) (st : BFGS_state K dim),
        st.hessian = H → BFGS_direction lu_solve st = d →
        BFGS_step_size lu_solve target_fun tolerance st = s →
        (fun i => (BFGS_update lu_solve target_fun tolerance st).grad_target_k i
          - st.grad_target_k i) = y →
        prod_mv (BFGS_update lu_solve target_fun tolerance st).hessian
            (fun i => (BFGS_update lu_solve target_fun tolerance st).vars i - st.vars i)
          = (fun i => (BFGS_update lu_solve target_fun tolerance st).grad_target_k i
              - st.grad_target_k i) := by
  refine ⟨update_secant H d y s h1 h2, ?_⟩
  intro lu_solve target_fun tolerance st hH hd hs hy
  have hdisp : (fun i => (BFGS_update lu_solve target_fun tolerance st).vars i - st.vars i)
      = fun i => s * d i := by
    funext i
    simp only [BFGS_update, hs, hd]
    ring
  have hhess : (BFGS_update lu_solve target_fun tolerance st).hessian
      = fun i j => H i j + (-outer_prod (prod_mv H d) (prod_vm d H) i j
          / inner_prod (prod_vm d H) d + outer_prod y y i j / (inner_prod d y * s)) := by
    rw [← hy, ← hH, ← hd, ← hs]
    rfl
  rw [hdisp, hhess, hy]
  exact update_secant H d y s h1 h2

end optimization

namespace optimization

/-- C34 on the first update of BFGS on `f(x) = (x - 3)^2` from `[1]`: with `H = [1]`, `d = [4]`,
`s = 1/2` and `y = [4]` the updated matrix takes `s*d = [2]` to `[4]`. -/
theorem C34_secant_equation_witness :
    prod_mv (fun i j => (1 : Matrix (Fin 1) (Fin 1) ℚ) i j
          + (-outer_prod (prod_mv (1 : Matrix (Fin 1) (Fin 1) ℚ) ![4])
              (prod_vm ![4] (1 : Matrix (Fin 1) (Fin 1) ℚ)) i j
            / inner_prod (prod_vm ![4] (1 : Matrix (Fin 1) (Fin 1) ℚ)) ![4]
          + outer_prod ![4] ![4] i j / (inner_prod ![4] ![4] * (1 / 2))))
        (fun i => 1 / 2 * (![4] : Fin 1 → ℚ) i) = ![4] :=
  (C34_secant_equation (1 : Matrix (Fin 1) (Fin 1) ℚ) ![4] ![4] (1 / 2)
    (by simp [inner_prod, prod_vm]) (by simp [inner_prod])).1

/-- C35: in a BFGS iteration whose direction `d` is a descent direction
(`gradient(x) . d < 0`) and whose line search returned its step `s` by accepting it, the gradient
difference `y = gradient(x + s*d) - gradient(x)` used in the Hessian update satisfies
`d . y ≥ -0.1 * (gradient(x) . d) > 0`, and the second denominator `(d . y)*s` of the update is
strictly positive. -/
theorem C35_second_denominator_positive {K : Type} [LinearOrderedField K] {dim : Nat}
    (lu_solve : Matrix (Fin dim) (Fin dim) K → (Fin dim → K) → (Fin dim → K))
    (target_fun : target_functor K dim) (tolerance : K) (st : BFGS_state K dim)
    (hdescent : inner_prod st.grad_target_k (BFGS_direction lu_solve st) < 0)
    (haccepted : LineSearch.accepts st.vars (BFGS_direction lu_solve st) st.target_k
      st.grad_target_k target_fun (BFGS_step_size lu_solve target_fun tolerance st)) :
    let d := BFGS_direction lu_solve st
    let s := BFGS_step_size lu_solve target_fun tolerance st
    let x_new : Fin dim → K := fun i => st.vars i + s * d i
    let y : Fin dim → K := fun i =>
      target_fun.gradient x_new (target_fun.call x_new) i - st.grad_target_k i
    y = (fun i => (BFGS_update lu_solve target_fun tolerance st).grad_target_k i
          - st.grad_target_k i) ∧
      inner_prod d y ≥ -0.1 * inner_prod st.grad_target_k d ∧
      -0.1 * inner_prod st.grad_target_k d > 0 ∧
      0 < inner_prod d y * s := by
  intro d s x_new y
  have hs : 0 < s := BFGS_step_size_pos lu_solve target_fun tolerance st
  have hcurv := haccepted.2
  have hcomm : inner_prod d st.grad_target_k = inner_prod st.grad_target_k d :=
    inner_prod_comm _ _
  have hsplit : inner_prod d y
      = inner_prod d (target_fun.gradient x_new (target_fun.call x_new))
        - inner_prod st.grad_target_k d := by
    rw [← hcomm]
    simp only [inner_prod, y, mul_sub, Finset.sum_sub_distrib]
  have h1 : inner_prod d (target_fun.gradient x_new (target_fun.call x_new))
      ≥ 0.9 * inner_prod st.grad_target_k d := by
    have h := hcurv
    simp only [LineSearch.C2] at h
    rw [hcomm] at h
    have e : (-1 : K) * inner_prod (BFGS_direction lu_solve st)
        (target_fun.gradient
          (fun i => st.vars i + BFGS_step_size lu_solve target_fun tolerance st
            * BFGS_direction lu_solve st i)
          (target_fun.call fun i => st.vars i
            + BFGS_step_size lu_solve target_fun tolerance st * BFGS_direction lu_solve st i))
        = -inner_prod d (target_fun.gradient x_new (target_fun.call x_new)) := by
      rw [neg_one_mul]
    rw [e] at h
    linarith
  have h2 : inner_prod d y ≥ -0.1 * inner_prod st.grad_target_k d := by
    rw [hsplit]
    have e : (0.9 : K) = 1 - 0.1 := by norm_num
    rw [e] at h1
    linarith
  have h3 : -0.1 * inner_prod st.grad_target_k d > 0 := by
    have : (0 : K) < 0.1 := by norm_num
    nlinarith
  exact ⟨rfl, h2, h3, mul_pos (lt_of_lt_of_le h3 h2) hs⟩

/-- C35 on the first iteration of BFGS on `f(x) = (x - 3)^2` from `[1]` with tolerance
`1/1000`: the direction is `[4]`, the gradient `[-4]`, the accepted step `1/2`. -/
theorem C35_second_denominator_positive_witness :
    inner_prod (BFGS_direction ode.lu_solve_1 (BFGS_init shifted_parabola ![1] 1))
        (fun i => shifted_parabola.gradient
            (fun i => (BFGS_init shifted_parabola ![1] 1).vars i
              + BFGS_step_size ode.lu_solve_1 shifted_parabola (1 / 1000)
                  (BFGS_init shifted_parabola ![1] 1)
                * BFGS_direction ode.lu_solve_1 (BFGS_init shifted_parabola ![1] 1) i)
            (shifted_parabola.call
              (fun i => (BFGS_init shifted_parabola ![1] 1).vars i
                + BFGS_step_size ode.lu_solve_1 shifted_parabola (1 / 1000)
                    (BFGS_init shifted_parabola ![1] 1)
                  * BFGS_direction ode.lu_solve_1 (BFGS_init shifted_parabola ![1] 1) i)) i
          - (BFGS_init shifted_parabola ![1] 1).grad_target_k i)
      ≥ -0.1 * inner_prod (BFGS_init shifted_parabola ![1] 1).grad_target_k
          (BFGS_direction ode.lu_solve_1 (BFGS_init shifted_parabola ![1] 1)) :=
  (C35_second_denominator_positive ode.lu_solve_1 shifted_parabola (1 / 1000)
    (BFGS_init shifted_parabola ![1] 1)
    (by
      rw [example_direction_0]
      simp [inner_prod, BFGS_init, shifted_parabola]
      norm_num)
    (by
      rw [example_step_0, example_direction_0, LineSearch.accepts_iff]
      simp [BFGS_init, shifted_parabola]
      norm_num)).2.1

end optimization

namespace optimization

section SkippedSearch

variable {K : Type} [LinearOrderedField K] {dim : Nat}

/-- A first trial that is not above `min_step_` is returned at once: the loop condition fails at
`i = 0` and the body is not entered. -/
theorem LineSearch.search_not_entered (ls : LineSearch K) (pk dk : Fin dim → K) (target_k : K)
    (grad_target_k : Fin dim → K) (target : target_functor K dim) (s : K)
    (h : s ≤ ls.min_step_) :
    ls.search pk dk target_k grad_target_k target s = (s, 0) := by
  rw [LineSearch.search, show (100 : ℕ) = 99 + 1 from rfl, LineSearch.loop_succ,
    if_neg (not_lt.mpr h)]

/-- A first trial above `min_step_` is returned with the counter at zero exactly when it is
accepted. -/
theorem LineSearch.search_entered (ls : LineSearch K) (pk dk : Fin dim → K) (target_k : K)
    (grad_target_k : Fin dim → K) (target : target_functor K dim) (s : K)
    (h : s > ls.min_step_) :
    ls.search pk dk target_k grad_target_k target s = (s, 0)
      ↔ LineSearch.accepts pk dk target_k grad_target_k target s := by
  constructor
  · intro heq
    obtain ⟨k, hk, hval, -, hlast⟩ :=
      LineSearch.search_spec ls pk dk target_k grad_target_k target s
    rw [heq] at hval
    have hk0 : k = 0 := (congrArg Prod.snd hval).symm
    subst hk0
    have := hlast (by norm_num) (by simpa using h)
    simpa using this
  · intro hacc
    exact LineSearch.search_first_trial ls pk dk target_k grad_target_k target s h hacc

end SkippedSearch

/-- C40: for every objective, position and direction, if `initial_step ≤ min_step` then
`LineSearch::operator()` returns `initial_step` with its loop counter at zero, so the body that
evaluates the gradient and tests the two conditions is not entered, and the result is the same
for every other objective, target value and gradient; the step returned need not satisfy the
Armijo inequality, as for `f(x) = x^2` at `[1]` along `[-2]` with `min_step = 1`.  In BFGS the
search is called with `initial_step = 1` and `min_step = tolerance*100`, so this happens exactly
when `tolerance*100 ≥ 1`; in CGM it is called with `0.01` and `tolerance`, so exactly when
`tolerance ≥ 0.01`; below these thresholds the first trial is returned with the counter at zero
only when it passes the test. -/
theorem C40_initial_step_not_above_min_step {K : Type} [LinearOrderedField K] {dim : Nat}
    (ls : LineSearch K) (pk dk : Fin dim → K) (target_k : K) (grad_target_k : Fin dim → K)
    (target : target_functor K dim) (initial_step : K)
    (hmin : initial_step ≤ ls.min_step_) :
    ls.search pk dk target_k grad_target_k target initial_step = (initial_step, 0) ∧
      ls.call pk dk target_k grad_target_k target initial_step = initial_step ∧
      (∀ (other : target_functor K dim) (t : K) (g : Fin dim → K),
        ls.search pk dk t g other initial_step = (initial_step, 0)) ∧
      (∀ (lu_solve : Matrix (Fin dim) (Fin dim) K → (Fin dim → K) → (Fin dim → K))
          (tolerance : K) (st : BFGS_state K dim),
        ((BFGS_max_step_size : K) ≤ (LineSearch.create (tolerance * 100)).min_step_
            ↔ tolerance * 100 ≥ 1) ∧
          (tolerance * 100 ≥ 1 → BFGS_step_size lu_solve target tolerance st = 1) ∧
          (¬ tolerance * 100 ≥ 1 →
            ((LineSearch.create (tolerance * 100)).search st.vars (BFGS_direction lu_solve st)
                st.target_k st.grad_target_k target BFGS_max_step_size
                  = (BFGS_max_step_size, 0)
              ↔ LineSearch.accepts st.vars (BFGS_direction lu_solve st) st.target_k
                  st.grad_target_k target BFGS_max_step_size))) ∧
      (∀ (tolerance : K) (st : CGM_state K dim) (direction : Fin dim → K),
        ((CGM_max_step_size : K) ≤ (LineSearch.create tolerance).min_step_
            ↔ tolerance ≥ 0.01) ∧
          (tolerance ≥ 0.01 → CGM_line_search target tolerance st direction = 0.01) ∧
          (¬ tolerance ≥ 0.01 →
            ((LineSearch.create tolerance).search st.vars direction (target.call st.vars)
                (CGM_gradient target st) target CGM_max_step_size = (CGM_max_step_size, 0)
              ↔ LineSearch.accepts st.vars direction (target.call st.vars)
                  (CGM_gradient target st) target CGM_max_step_size))) ∧
      (LineSearch.create (1 : ℚ)).call ![1] ![-2] (parabola.call ![1])
          (parabola.gradient ![1] (parabola.call ![1])) parabola 1 = 1 ∧
      ¬ parabola.call (fun i => (![1] : Fin 1 → ℚ) i + 1 * (![-2] : Fin 1 → ℚ) i)
          ≤ parabola.call ![1] + LineSearch.C1 * 1
              * inner_prod ![-2] (parabola.gradient ![1] (parabola.call ![1])) := by
  refine ⟨LineSearch.search_not_entered ls pk dk target_k grad_target_k target initial_step hmin,
    ?_, fun other t g => LineSearch.search_not_entered ls pk dk t g other initial_step hmin,
    fun lu_solve tolerance st => ⟨?_, fun h => ?_, fun h => ?_⟩,
    fun tolerance st direction => ⟨?_, fun h => ?_, fun h => ?_⟩, ?_, ?_⟩
  · rw [LineSearch.call,
      LineSearch.search_not_entered ls pk dk target_k grad_target_k target initial_step hmin]
  · simp only [BFGS_max_step_size, LineSearch.create, ge_iff_le]
  · rw [BFGS_step_size, LineSearch.call, LineSearch.search_not_entered]
    · rfl
    · simpa only [BFGS_max_step_size, LineSearch.create, ge_iff_le] using h
  · exact LineSearch.search_entered _ _ _ _ _ _ _
      (by simpa only [BFGS_max_step_size, LineSearch.create, ge_iff_le, not_le, gt_iff_lt]
        using h)
  · simp only [CGM_max_step_size, LineSearch.create, ge_iff_le]
  · rw [CGM_line_search, LineSearch.call, LineSearch.search_not_entered]
    · rfl
    · simpa only [CGM_max_step_size, LineSearch.create, ge_iff_le] using h
  · exact LineSearch.search_entered _ _ _ _ _ _ _
      (by simpa only [CGM_max_step_size, LineSearch.create, ge_iff_le, not_le, gt_iff_lt]
        using h)
  · rw [LineSearch.call, LineSearch.search_not_entered]
    exact le_refl _
  · simp [parabola, LineSearch.C1, inner_prod]
    norm_num

/-- C40 on `f(x) = x^2` at `[1]` along `[-2]` with `initial_step = 1` and `min_step = 1`: the
search returns `(1, 0)`. -/
theorem C40_initial_step_not_above_min_step_witness :
    (1 : ℚ) ≤ (LineSearch.create (1 : ℚ)).min_step_ ∧
      (LineSearch.create (1 : ℚ)).search ![1] ![-2] (parabola.call ![1])
        (parabola.gradient ![1] (parabola.call ![1])) parabola 1 = (1, 0) :=
  ⟨le_refl _, (C40_initial_step_not_above_min_step (LineSearch.create (1 : ℚ)) ![1] ![-2]
    (parabola.call ![1]) (parabola.gradient ![1] (parabola.call ![1])) parabola 1
    (le_refl _)).1⟩

section ZeroGradientStart

variable {K : Type} [LinearOrderedField K] {dim : Nat}
variable (norm_2 : (Fin dim → K) → K)
variable (lu_solve : Matrix (Fin dim) (Fin dim) K → (Fin dim → K) → (Fin dim → K))
variable (formula_nu_k : (Fin dim → K) → (Fin dim → K) → K)
variable (target_fun : target_functor K dim) (tolerance : K)

/-- The Euclidean norm of the zero vector is zero. -/
theorem norm_2_zero (hnorm : ∀ v : Fin dim → K, norm_2 v ^ 2 = ∑ i, v i ^ 2) :
    norm_2 (fun _ => 0) = 0 := by
  have h := hnorm (fun _ => 0)
  simp only [ne_eq, OfNat.ofNat_ne_zero, not_false_eq_true, zero_pow, Finset.sum_const_zero]
    at h
  exact pow_eq_zero_iff (two_ne_zero) |>.mp h

/-- With the identity as Hessian approximation and a zero gradient the direction of BFGS is the
zero vector. -/
theorem BFGS_direction_zero_gradient
    (hlu : ∀ (A : Matrix (Fin dim) (Fin dim) K) (b : Fin dim → K), A.det ≠ 0 →
      prod_mv A (lu_solve A b) = b)
    (x0 : Fin dim → K)
    (hgrad : target_fun.gradient x0 (target_fun.call x0) = fun _ => 0) :
    BFGS_direction lu_solve (BFGS_init target_fun x0 1) = fun _ => 0 := by
  have h := hlu (1 : Matrix (Fin dim) (Fin dim) K)
    (fun i => -(BFGS_init target_fun x0 1).grad_target_k i) (by simp)
  rw [prod_mv_one] at h
  have hH : (BFGS_init target_fun x0 1).hessian = 1 := rfl
  rw [BFGS_direction, hH, h]
  funext i
  simp only [BFGS_init, hgrad, neg_zero]

/-- With a zero gradient the direction of iteration 0 of CGM is the zero vector. -/
theorem CGM_direction_zero_gradient (x0 : Fin dim → K) (quiet_NaN : K)
    (hgrad : target_fun.gradient x0 (target_fun.call x0) = fun _ => 0) :
    CGM_direction norm_2 formula_nu_k target_fun tolerance 0 (CGM_init x0 quiet_NaN)
      = fun _ => 0 := by
  have hretry : ¬ CGM_retry norm_2 formula_nu_k target_fun tolerance 0
      (CGM_init x0 quiet_NaN) := by
    intro h
    exact h.2 (Nat.zero_mod dim)
  rw [CGM_direction, if_neg hretry,
    CGM_new_direction_restart formula_nu_k target_fun 0 _ (Nat.zero_mod dim)]
  funext i
  simp only [CGM_init, hgrad, neg_zero]

end ZeroGradientStart

/-- C37: for every objective whose `gradient` returns the zero vector at the starting point,
every starting point with nonzero norm and every tolerance `> 0`, BFGS with the identity as
Hessian approximation and CGM with any formula for `nu_k` (FR and PR among them) pass their
convergence check in iteration 0 and return the starting variables; the Euclidean norm and the
LU solve are assumed to meet their contracts. -/
theorem C37_zero_gradient_start {K : Type} [LinearOrderedField K] {dim : Nat}
    (norm_2 : (Fin dim → K) → K)
    (lu_solve : Matrix (Fin dim) (Fin dim) K → (Fin dim → K) → (Fin dim → K))
    (target_fun : target_functor K dim) (tolerance : K) (x0 : Fin dim → K)
    (hnorm : ∀ v : Fin dim → K, norm_2 v ^ 2 = ∑ i, v i ^ 2)
    (hlu : ∀ (A : Matrix (Fin dim) (Fin dim) K) (b : Fin dim → K), A.det ≠ 0 →
      prod_mv A (lu_solve A b) = b)
    (hgrad : target_fun.gradient x0 (target_fun.call x0) = fun _ => 0)
    (hx0 : norm_2 x0 ≠ 0) (htol : 0 < tolerance) :
    BFGS_converged norm_2 lu_solve target_fun tolerance (BFGS_init target_fun x0 1) ∧
      BFGS norm_2 lu_solve target_fun tolerance x0 1 = x0 ∧
      ∀ (formula_nu_k : (Fin dim → K) → (Fin dim → K) → K) (quiet_NaN : K),
        CGM_converged norm_2 formula_nu_k target_fun tolerance 0 (CGM_init x0 quiet_NaN) ∧
          CGM norm_2 formula_nu_k target_fun tolerance x0 quiet_NaN = x0 ∧
          CGM norm_2 (FR_formula.nu_k norm_2) target_fun tolerance x0 quiet_NaN = x0 ∧
          CGM norm_2 (PR_formula.nu_k norm_2) target_fun tolerance x0 quiet_NaN = x0 := by
  have hzero := norm_2_zero norm_2 hnorm
  have hB : BFGS_converged norm_2 lu_solve target_fun tolerance (BFGS_init target_fun x0 1) := by
    refine ⟨hx0, ?_⟩
    rw [BFGS_res, BFGS_direction_zero_gradient lu_solve target_fun hlu x0 hgrad, hzero,
      mul_zero, zero_div]
    exact htol
  have hC : ∀ (formula_nu_k : (Fin dim → K) → (Fin dim → K) → K) (quiet_NaN : K),
      CGM_converged norm_2 formula_nu_k target_fun tolerance 0 (CGM_init x0 quiet_NaN) := by
    intro formula_nu_k quiet_NaN
    refine ⟨hx0, ?_⟩
    rw [CGM_res, CGM_direction_zero_gradient norm_2 formula_nu_k target_fun tolerance x0
      quiet_NaN hgrad, hzero, mul_zero, zero_div]
    exact htol
  have hCret : ∀ (formula_nu_k : (Fin dim → K) → (Fin dim → K) → K) (quiet_NaN : K),
      CGM norm_2 formula_nu_k target_fun tolerance x0 quiet_NaN = x0 := by
    intro formula_nu_k quiet_NaN
    rw [CGM_first_pass norm_2 formula_nu_k target_fun tolerance x0 quiet_NaN 0 (by norm_num)
      (hC formula_nu_k quiet_NaN) (fun j hj => absurd hj (by omega))]
    rfl
  refine ⟨hB, ?_, fun formula_nu_k quiet_NaN =>
    ⟨hC formula_nu_k quiet_NaN, hCret formula_nu_k quiet_NaN, hCret _ quiet_NaN,
      hCret _ quiet_NaN⟩⟩
  rw [BFGS, BFGS_max_iters,
    BFGS_loop_first_pass norm_2 lu_solve target_fun tolerance 1000 0
      (BFGS_init target_fun x0 1) (by norm_num) hB (fun j hj => absurd hj (by omega))]
  rfl

/-- C37 on `f(x) = (x - 3)^2` started at its minimizer `[3]` with tolerance `1/1000`: BFGS
returns `[3]`. -/
theorem C37_zero_gradient_start_witness :
    norm_2_1 ![3] ≠ 0 ∧ (0 : ℚ) < 1 / 1000 ∧
      BFGS norm_2_1 ode.lu_solve_1 shifted_parabola (1 / 1000) ![3] 1 = ![3] :=
  ⟨by simp [norm_2_1], by norm_num,
    (C37_zero_gradient_start norm_2_1 ode.lu_solve_1 shifted_parabola (1 / 1000) ![3]
      (fun v => by simp [norm_2_1])
      lu_solve_1_correct
      (by funext i; fin_cases i; simp [shifted_parabola])
      (by simp [norm_2_1]) (by norm_num)).2.1⟩

end optimization

namespace optimization

section PositiveDefinite

variable {K : Type} [LinearOrderedField K] {dim : Nat}

/-- For a symmetric matrix the bilinear form `u . (H*v)` is symmetric. -/
theorem bilinear_symm (H : Matrix (Fin dim) (Fin dim) K) (hH : H.IsSymm) (u v : Fin dim → K) :
    inner_prod u (prod_mv H v) = inner_prod v (prod_mv H u) := by
  simp only [inner_prod, prod_mv, Finset.mul_sum]
  rw [Finset.sum_comm]
  refine Finset.sum_congr rfl (fun j _ => Finset.sum_congr rfl (fun i _ => ?_))
  rw [hH.apply j i]
  ring

/-- The quadratic form of `H` at a combination `c*z - b*d`. -/
theorem bilinear_combination (H : Matrix (Fin dim) (Fin dim) K) (hH : H.IsSymm)
    (z d : Fin dim → K) (b c : K) :
    inner_prod (fun i => c * z i - b * d i) (prod_mv H (fun i => c * z i - b * d i))
      = c ^ 2 * inner_prod z (prod_mv H z) - 2 * c * b * inner_prod z (prod_mv H d)
        + b ^ 2 * inner_prod d (prod_mv H d) := by
  have hs := bilinear_symm H hH d z
  have hA : inner_prod (fun i => c * z i - b * d i) (prod_mv H (fun i => c * z i - b * d i))
      = c ^ 2 * inner_prod z (prod_mv H z) - c * b * inner_prod z (prod_mv H d)
        - c * b * inner_prod d (prod_mv H z) + b ^ 2 * inner_prod d (prod_mv H d) := by
    simp only [inner_prod, prod_mv, Finset.mul_sum, ← Finset.sum_sub_distrib,
      ← Finset.sum_add_distrib]
    exact Finset.sum_congr rfl (fun i _ => Finset.sum_congr rfl (fun j _ => by ring))
  rw [hA, hs]
  ring

/-- The quadratic form of the matrix assigned to `hessian` by the update, for a symmetric
`hessian`. -/
theorem update_quadratic_form (H : Matrix (Fin dim) (Fin dim) K) (hH : H.IsSymm)
    (d y z : Fin dim → K) (s : K) :
    inner_prod z (prod_mv (fun i j => H i j + (-outer_prod (prod_mv H d) (prod_vm d H) i j
        / inner_prod (prod_vm d H) d + outer_prod y y i j / (inner_prod d y * s))) z)
      = inner_prod z (prod_mv H z)
        - inner_prod z (prod_mv H d) ^ 2 / inner_prod d (prod_mv H d)
        + inner_prod z y ^ 2 / (inner_prod d y * s) := by
  rw [prod_vm_eq_prod_mv H hH d, inner_prod_comm (prod_mv H d) d]
  generalize hc : inner_prod d (prod_mv H d) = c
  generalize he : inner_prod d y * s = e
  generalize hv : prod_mv H d = v
  have e1 : ∀ i j, z i * ((H i j + (-(v i * v j) / c + y i * y j / e)) * z j)
      = z i * (H i j * z j) - (z i * v i) * (z j * v j) / c
        + (z i * y i) * (z j * y j) / e := by
    intro i j
    ring
  have hsq : ∀ u : Fin dim → K,
      (∑ i, z i * u i) ^ 2 = ∑ i, ∑ j, z i * u i * (z j * u j) := by
    intro u
    rw [sq, Finset.sum_mul_sum]
  simp only [inner_prod, prod_mv, outer_prod, hsq, Finset.mul_sum, e1, Finset.sum_div,
    Finset.sum_add_distrib, Finset.sum_sub_distrib]

/-- The update of a symmetric positive definite matrix along a nonzero direction with a positive
second denominator is positive definite. -/
theorem update_formula_pos_def (H : Matrix (Fin dim) (Fin dim) K) (hH : H.IsSymm)
    (hpd : ∀ z : Fin dim → K, z ≠ 0 → 0 < inner_prod z (prod_mv H z))
    (d y : Fin dim → K) (s : K) (hd : d ≠ 0) (hs : 0 < s) (hdy : 0 < inner_prod d y)
    (z : Fin dim → K) (hz : z ≠ 0) :
    0 < inner_prod z (prod_mv (fun i j => H i j
        + (-outer_prod (prod_mv H d) (prod_vm d H) i j / inner_prod (prod_vm d H) d
          + outer_prod y y i j / (inner_prod d y * s))) z) := by
  rw [update_quadratic_form H hH d y z s]
  have hc : 0 < inner_prod d (prod_mv H d) := hpd d hd
  have ha : 0 < inner_prod z (prod_mv H z) := hpd z hz
  have he : 0 < inner_prod d y * s := mul_pos hdy hs
  have hcomb := bilinear_combination H hH z d (inner_prod z (prod_mv H d))
    (inner_prod d (prod_mv H d))
  generalize inner_prod d (prod_mv H d) = c at hc hcomb ⊢
  generalize inner_prod z (prod_mv H z) = a at ha hcomb ⊢
  generalize hb : inner_prod z (prod_mv H d) = b at hcomb ⊢
  have hfactor : c ^ 2 * a - 2 * c * b * b + b ^ 2 * c = c * (a * c - b ^ 2) := by ring
  rw [hfactor] at hcomb
  have hfirst : a - b ^ 2 / c = (a * c - b ^ 2) / c := by
    field_simp
  by_cases hw : (fun i => c * z i - b * d i) = 0
  · have hwi : ∀ i, c * z i = b * d i := fun i => by
      have := congrFun hw i
      simpa [sub_eq_zero] using this
    have hb0 : b ≠ 0 := by
      intro hb0
      apply hz
      funext i
      have := hwi i
      rw [hb0, zero_mul] at this
      rcases mul_eq_zero.mp this with h | h
      · exact absurd h hc.ne'
      · exact h
    have hzero : c * (a * c - b ^ 2) = 0 := by
      rw [← hcomb, hw]
      simp [inner_prod]
    have hac : a * c - b ^ 2 = 0 := by
      rcases mul_eq_zero.mp hzero with h | h
      · exact absurd h hc.ne'
      · exact h
    have ht : c * inner_prod z y = b * inner_prod d y := by
      simp only [inner_prod, Finset.mul_sum]
      refine Finset.sum_congr rfl (fun i _ => ?_)
      rw [← mul_assoc, hwi i, mul_assoc]
    have ht0 : inner_prod z y ≠ 0 := by
      intro h0
      rw [h0, mul_zero] at ht
      rcases mul_eq_zero.mp ht.symm with h | h
      · exact hb0 h
      · exact hdy.ne' h
    rw [hfirst, hac, zero_div, zero_add]
    exact div_pos (by positivity) he
  · have hq := hpd _ hw
    rw [hcomb] at hq
    have hpos : 0 < a * c - b ^ 2 := by
      rcases (mul_pos_iff.mp hq) with h | h
      · exact h.2
      · exact absurd h.1 (not_lt.mpr hc.le)
    rw [hfirst]
    have h1 : 0 < (a * c - b ^ 2) / c := div_pos hpos hc
    have h2 : 0 ≤ inner_prod z y ^ 2 / (inner_prod d y * s) :=
      div_nonneg (sq_nonneg _) he.le
    linarith

end PositiveDefinite

/-- C36: for every symmetric positive definite `H`, nonzero direction `d`, step `s > 0` and
vector `y` with `d . y > 0`, the matrix produced by the BFGS update,
`H - outer(H*d, d^T*H)/((d^T*H) . d) + outer(y, y)/((d . y) * s)`, is again symmetric and
positive definite; it is the Hessian approximation of the state after the update of every state
with these `H`, `d`, `s` and `y`. -/
theorem C36_update_keeps_positive_definite {K : Type} [LinearOrderedField K] {dim : Nat}
    (H : Matrix (Fin dim) (Fin dim) K) (d y : Fin dim → K) (s : K)
    (hsymm : H.IsSymm)
    (hpd : ∀ z : Fin dim → K, z ≠ 0 → 0 < inner_prod z (prod_mv H z))
    (hd : d ≠ 0) (hs : 0 < s) (hdy : 0 < inner_prod d y) :
    Matrix.IsSymm (fun i j => H i j + (-outer_prod (prod_mv H d) (prod_vm d H) i j
        / inner_prod (prod_vm d H) d + outer_prod y y i j / (inner_prod d y * s))) ∧
      (∀ z : Fin dim → K, z ≠ 0 →
        0 < inner_prod z (prod_mv (fun i j => H i j
          + (-outer_prod (prod_mv H d) (prod_vm d H) i j / inner_prod (prod_vm d H) d
            + outer_prod y y i j / (inner_prod d y * s))) z)) ∧
      ∀ (lu_solve : Matrix (Fin dim) (Fin dim) K → (Fin dim → K) → (Fin dim → K))
        (target_fun : target_functor K dim) (tolerance : K) (st : BFGS_state K dim),
        st.hessian = H → BFGS_direction lu_solve st = d →
        BFGS_step_size lu_solve target_fun tolerance st = s →
        (fun i => (BFGS_update lu_solve target_fun tolerance st).grad_target_k i
          - st.grad_target_k i) = y →
        (BFGS_update lu_solve target_fun tolerance st).hessian.IsSymm ∧
          ∀ z : Fin dim → K, z ≠ 0 →
            0 < inner_prod z
              (prod_mv (BFGS_update lu_solve target_fun tolerance st).hessian z) := by
  refine ⟨update_formula_symm H hsymm d y s,
    fun z hz => update_formula_pos_def H hsymm hpd d y s hd hs hdy z hz,
    fun lu_solve target_fun tolerance st hH hdir hstep hy => ?_⟩
  have hup : (BFGS_update lu_solve target_fun tolerance st).hessian
      = fun i j => H i j + (-outer_prod (prod_mv H d) (prod_vm d H) i j
        / inner_prod (prod_vm d H) d + outer_prod y y i j / (inner_prod d y * s)) := by
    rw [← hH, ← hdir, ← hstep, ← hy]
    rfl
  rw [hup]
  exact ⟨update_formula_symm H hsymm d y s,
    fun z hz => update_formula_pos_def H hsymm hpd d y s hd hs hdy z hz⟩

/-- C36 on the first update of BFGS on `f(x) = (x - 3)^2` from `[1]`: `H = [1]`, `d = [4]`,
`s = 1/2` and `y = [4]`; the quadratic form of the updated matrix at `[1]` is positive. -/
theorem C36_update_keeps_positive_definite_witness :
    (0 : ℚ) < inner_prod ![1] (prod_mv (fun i j => (1 : Matrix (Fin 1) (Fin 1) ℚ) i j
        + (-outer_prod (prod_mv (1 : Matrix (Fin 1) (Fin 1) ℚ) ![4])
            (prod_vm ![4] (1 : Matrix (Fin 1) (Fin 1) ℚ)) i j
          / inner_prod (prod_vm ![4] (1 : Matrix (Fin 1) (Fin 1) ℚ)) ![4]
          + outer_prod ![4] ![4] i j / (inner_prod ![4] ![4] * (1 / 2)))) ![1]) :=
  (C36_update_keeps_positive_definite (1 : Matrix (Fin 1) (Fin 1) ℚ) ![4] ![4] (1 / 2)
    Matrix.isSymm_one
    (fun z hz => by
      rw [prod_mv_one]
      have h0 : z 0 ≠ 0 := fun h => hz (funext fun i => by fin_cases i; exact h)
      simp only [inner_prod, Finset.univ_unique, Fin.default_eq_zero, Finset.sum_singleton]
      exact mul_self_pos.mpr h0)
    (by
      intro h
      have := congrFun h 0
      simp at this)
    (by norm_num) (by simp [inner_prod])).2.1 ![1]
    (by
      intro h
      have := congrFun h 0
      simp at this)

end optimization

namespace ode

section AnalyticSolution

/-- The function `t ↦ sqrt(1/(20 t + c))` with `c > 0` solves `u' = -10 u^3` at every
`t ≥ 0`. -/
theorem sqrt_branch_deriv (c t : ℝ) (hc : 0 < c) (ht : 0 ≤ t) :
    HasDerivAt (fun τ : ℝ => Real.sqrt (1 / (20 * τ + c)))
      (-10 * Real.sqrt (1 / (20 * t + c)) ^ 3) t := by
  have hW : 0 < 20 * t + c := by positivity
  have h1 : HasDerivAt (fun τ : ℝ => 20 * τ + c) 20 t := by
    simpa using ((hasDerivAt_id t).const_mul (20 : ℝ)).add_const c
  have h2 : HasDerivAt (fun τ : ℝ => 1 / (20 * τ + c)) (-20 / (20 * t + c) ^ 2) t := by
    have := h1.inv hW.ne'
    simpa [one_div] using this
  have hpos : 0 < 1 / (20 * t + c) := by positivity
  have h3 := h2.sqrt hpos.ne'
  have hr : 0 < Real.sqrt (1 / (20 * t + c)) := Real.sqrt_pos.2 hpos
  have hr2 : Real.sqrt (1 / (20 * t + c)) ^ 2 = 1 / (20 * t + c) := Real.sq_sqrt hpos.le
  have hval : -20 / (20 * t + c) ^ 2 / (2 * Real.sqrt (1 / (20 * t + c)))
      = -10 * Real.sqrt (1 / (20 * t + c)) ^ 3 := by
    generalize Real.sqrt (1 / (20 * t + c)) = r at hr hr2
    generalize 20 * t + c = W at hW hr2
    have hWr : W * r ^ 2 = 1 := by
      rw [hr2]
      field_simp
    field_simp
    linear_combination (-20 * (W * r ^ 2 + 1)) * hWr
  rw [← hval]
  exact h3

/-- Entry `i` of `analytic_solution` solves the equation of entry `i` of the test model at every
`t ≥ 0`. -/
theorem analytic_solution_deriv (epsilon : ℝ) (heps : epsilon ≤ 1 / 100) (t : ℝ) (ht : 0 ≤ t)
    (i : Fin 50) :
    HasDerivAt (fun τ : ℝ => OdeSys_test.analytic_solution Real.sqrt epsilon τ i)
      (OdeSys_test.call (OdeSys_test.analytic_solution Real.sqrt epsilon t) i) t := by
  have hfun : (fun τ : ℝ => OdeSys_test.analytic_solution Real.sqrt epsilon τ i)
      = fun τ : ℝ => 0.1 * ((i : ℕ) : ℝ)
        + (if (OdeSys_test.initial_condition i : ℝ) - 0.1 * ((i : ℕ) : ℝ) > 0 then
            Real.sqrt (1 / (20 * τ
              + 1 / ((OdeSys_test.initial_condition i : ℝ) - 0.1 * ((i : ℕ) : ℝ)) ^ 2))
          else -Real.sqrt (1 / (20 * τ
              + 1 / ((OdeSys_test.initial_condition i : ℝ) - 0.1 * ((i : ℕ) : ℝ)) ^ 2))) :=
    funext fun τ => analytic_solution_spec epsilon heps τ i
  have hoff := (test_offset i).2
  have ha : (OdeSys_test.initial_condition i : ℝ) - 0.1 * ((i : ℕ) : ℝ) ≠ 0 := by
    intro h
    rw [h, abs_zero] at hoff
    norm_num at hoff
  rw [hfun]
  simp only [OdeSys_test.call, analytic_solution_spec epsilon heps t i]
  generalize (OdeSys_test.initial_condition i : ℝ) - 0.1 * ((i : ℕ) : ℝ) = a at ha
  have hc : 0 < 1 / a ^ 2 := by positivity
  have hd := sqrt_branch_deriv (1 / a ^ 2) t hc ht
  by_cases hpos : a > 0
  · simp only [if_pos hpos]
    have := hd.const_add (0.1 * ((i : ℕ) : ℝ))
    convert this using 1
    ring
  · simp only [if_neg hpos]
    have := hd.neg.const_add (0.1 * ((i : ℕ) : ℝ))
    convert this using 1
    ring

/-- At `t = 0` the entries of `analytic_solution` are those of `initial_condition`. -/
theorem analytic_solution_zero (epsilon : ℝ) (heps : epsilon ≤ 1 / 100) :
    OdeSys_test.analytic_solution Real.sqrt epsilon 0 = OdeSys_test.initial_condition := by
  funext i
  rw [analytic_solution_spec epsilon heps 0 i]
  have hoff := (test_offset i).2
  have ha : (OdeSys_test.initial_condition i : ℝ) - 0.1 * ((i : ℕ) : ℝ) ≠ 0 := by
    intro h
    rw [h, abs_zero] at hoff
    norm_num at hoff
  have hm : (OdeSys_test.initial_condition i : ℝ)
      = 0.1 * ((i : ℕ) : ℝ)
        + ((OdeSys_test.initial_condition i : ℝ) - 0.1 * ((i : ℕ) : ℝ)) := by ring
  generalize (OdeSys_test.initial_condition i : ℝ) - 0.1 * ((i : ℕ) : ℝ) = a at ha hm
  rw [hm]
  have hval : (1 : ℝ) / (20 * 0 + 1 / a ^ 2) = a ^ 2 := by field_simp
  rw [hval]
  by_cases hpos : a > 0
  · rw [if_pos hpos, Real.sqrt_sq hpos.le]
  · rw [if_neg hpos, Real.sqrt_sq_eq_abs, abs_of_nonpos (not_lt.mp hpos), neg_neg]

end AnalyticSolution

/-- C32: for the test model (`dx_n/dt = -10*(x_n - (n-1)/10)^3`, `n = 1..50`, initial condition
`[0.01, 0.02, ..., 0.5]`), in the arithmetic of the real numbers and with `epsilon` at most
`1/100`, `analytic_solution(0)` equals `initial_condition()`; at every `t ≥ 0` each component of
`analytic_solution` is differentiable in `t` with derivative the model's derivative evaluated at
`analytic_solution(t)`; and for none of the 50 components the condition
`fabs(m - k) < epsilon` of the branch that returns `0.0` holds. -/
theorem C32_analytic_solution_solves_model (epsilon t : ℝ) (heps : epsilon ≤ 1 / 100)
    (ht : 0 ≤ t) :
    OdeSys_test.analytic_solution Real.sqrt epsilon 0 = OdeSys_test.initial_condition ∧
      (∀ i : Fin 50,
        HasDerivAt (fun τ : ℝ => OdeSys_test.analytic_solution Real.sqrt epsilon τ i)
          (OdeSys_test.call (OdeSys_test.analytic_solution Real.sqrt epsilon t) i) t) ∧
      (∀ i : Fin 50,
        ¬ |(OdeSys_test.initial_condition i : ℝ) - 0.1 * ((i : ℕ) : ℝ)| < epsilon) ∧
      (∀ i : Fin 50, OdeSys_test.analytic_solution Real.sqrt epsilon t i
        = if (OdeSys_test.initial_condition i : ℝ) > 0.1 * ((i : ℕ) : ℝ) then
            0.1 * ((i : ℕ) : ℝ) + Real.sqrt (1 / (20 * t
              + 1 / ((OdeSys_test.initial_condition i : ℝ) - 0.1 * ((i : ℕ) : ℝ)) ^ 2))
          else 0.1 * ((i : ℕ) : ℝ) - Real.sqrt (1 / (20 * t
              + 1 / ((OdeSys_test.initial_condition i : ℝ) - 0.1 * ((i : ℕ) : ℝ)) ^ 2))) := by
  have hnot : ∀ i : Fin 50,
      ¬ |(OdeSys_test.initial_condition i : ℝ) - 0.1 * ((i : ℕ) : ℝ)| < epsilon := by
    intro i
    have hoff := (test_offset i).2
    linarith
  refine ⟨analytic_solution_zero epsilon heps,
    fun i => analytic_solution_deriv epsilon heps t ht i, hnot, fun i => ?_⟩
  simp only [OdeSys_test.analytic_solution, if_neg (hnot i)]

/-- C32 with `epsilon = 2^-52` at `t = 1`: entry 0 of `analytic_solution` has the derivative
that the model gives there. -/
theorem C32_analytic_solution_solves_model_witness :
    ((epsilon_double : ℚ) : ℝ) ≤ 1 / 100 ∧ (0 : ℝ) ≤ 1 ∧
      HasDerivAt
        (fun τ : ℝ => OdeSys_test.analytic_solution Real.sqrt ((epsilon_double : ℚ) : ℝ) τ 0)
        (OdeSys_test.call
          (OdeSys_test.analytic_solution Real.sqrt ((epsilon_double : ℚ) : ℝ) 1) 0) 1 :=
  ⟨by norm_num [epsilon_double], by norm_num,
    (C32_analytic_solution_solves_model ((epsilon_double : ℚ) : ℝ) 1
      (by norm_num [epsilon_double]) (by norm_num)).2.1 0⟩

end ode

namespace siqrd

section SolverGrid

variable {K : Type} [LinearOrderedField K]

open LSE_siqrd

/-- The horizon `no_days - 1` divided by the `(no_days - 1) * 8` steps is `1/8`. -/
theorem day_step (no_days : Nat) (hdays : 2 ≤ no_days) :
    (((no_days - 1 : Nat) : K)) / ((((no_days - 1) * 8 : Nat)) : K) = 1 / 8 := by
  have hm : no_days - 1 ≠ 0 := by omega
  generalize no_days - 1 = m at hm
  have h : (m : K) ≠ 0 := by exact_mod_cast hm
  rw [Nat.cast_mul, Nat.cast_ofNat]
  field_simp

/-- The columns that a returning call of `lse` on a freshly constructed object leaves in
`scratch_space_` are the states of the trajectory of the model with parameters `p` started at the
first observation. -/
theorem lse_create_columns (scheme_ctor : Nat → K → ode.SchemeType K 5)
    (norm_2 : (Fin 5 → K) → K) (no_days : Nat) (hdays : 2 ≤ no_days)
    (observations : Nat → Fin 5 → K) (eqns : OdeSys_SIQRD K) (uninitialised : Nat → Nat → K)
    (quiet_NaN : K) (p : Fin 5 → K) (v : K) (o1 : LSE_siqrd K)
    (h : (create scheme_ctor no_days observations eqns uninitialised).lse norm_2 quiet_NaN p
      = .ok (v, o1)) :
    ∀ j, j ≤ (no_days - 1) * 8 →
      ode.OdeSolver.trajectory (scheme_ctor ((no_days - 1) * 8) (((no_days - 1 : Nat) : K)))
        (OdeSys_SIQRD.toOdeSystem ⟨p 0, p 1, p 2, p 3, p 4, observations 0 0,
          observations 0 1, observations 0 2, observations 0 3, observations 0 4⟩) j
        = .ok (o1.scratch_space_.column 5 j) := by
  obtain ⟨-, scratch, hsolve, -, ho1⟩ := lse_ok _ norm_2 quiet_NaN p v o1 h
  have hic := create_init_cond scheme_ctor no_days observations eqns uninitialised (by omega)
  have hcols := ode.solve_columns _ _ _ _ _ hsolve
  rw [hic] at hcols
  rw [ho1]
  exact hcols

end SolverGrid

/-- C39: for every observation set with `no_days ≥ 2`, the solver of the objective is built with
`(no_days-1)*8` steps over the horizon `no_days-1`, so the step `dT_` of each of the three schemes
is `1/8` whatever `no_days` is; the assertion of `lse` on the buffer and the two shape assertions
of `solve` hold; every sampled column index `d*8` with `d` in `[0, no_days)` is below the
`(no_days-1)*8+1` columns of the buffer; and after a returning evaluation column `d*8` holds the
state of the trajectory after `d*8` steps, which is at time `d*8*(1/8) = d` days. -/
theorem C39_solver_grid {K : Type} [LinearOrderedField K]
    (scheme_ctor : Nat → K → ode.SchemeType K 5) (no_days : Nat) (hdays : 2 ≤ no_days)
    (observations : Nat → Fin 5 → K) (eqns : OdeSys_SIQRD K) (uninitialised : Nat → Nat → K) :
    let o := LSE_siqrd.create scheme_ctor no_days observations eqns uninitialised
    (o.solver_.N_ = (no_days - 1) * 8 ∧ o.solver_.T_ = (((no_days - 1 : Nat) : K)) ∧
        o.solver_.method_ = scheme_ctor ((no_days - 1) * 8) (((no_days - 1 : Nat) : K))) ∧
      (o.solver_.T_ / (o.solver_.N_ : K) = 1 / 8 ∧
        (ode.EulerForward.create o.solver_.N_ o.solver_.T_).dT_ = 1 / 8 ∧
        (ode.Heun.create o.solver_.N_ o.solver_.T_).dT_ = 1 / 8 ∧
        (ode.EulerBackward.create o.solver_.N_ o.solver_.T_).dT_ = 1 / 8) ∧
      ((o.scratch_space_.size2 - 1) / (o.no_days_ - 1) = LSE_siqrd.RATIO ∧
        5 = o.scratch_space_.size1 ∧ o.scratch_space_.size2 = o.solver_.N_ + 1 ∧
        o.scratch_space_.size2 = (no_days - 1) * 8 + 1) ∧
      (∀ d, d < no_days → d * 8 < o.scratch_space_.size2) ∧
      ∀ (norm_2 : (Fin 5 → K) → K) (quiet_NaN : K) (p : Fin 5 → K) (v : K)
        (o1 : LSE_siqrd K), o.call norm_2 quiet_NaN p = .ok (v, o1) →
        ∀ d, d < no_days →
          ode.OdeSolver.trajectory o.solver_.method_
              (OdeSys_SIQRD.toOdeSystem ⟨p 0, p 1, p 2, p 3, p 4, observations 0 0,
                observations 0 1, observations 0 2, observations 0 3, observations 0 4⟩)
              (d * 8)
            = .ok (o1.scratch_space_.column 5 (d * 8)) ∧
          (((d * 8 : Nat)) : K) * (o.solver_.T_ / (o.solver_.N_ : K)) = (d : K) := by
  intro o
  have hstep : o.solver_.T_ / (o.solver_.N_ : K) = 1 / 8 := day_step no_days hdays
  refine ⟨⟨rfl, rfl, rfl⟩, ⟨hstep, hstep, hstep, hstep⟩, ⟨?_, rfl, rfl, rfl⟩, fun d hd => ?_,
    fun norm_2 quiet_NaN p v o1 h d hd => ⟨?_, ?_⟩⟩
  · show ((no_days - 1) * LSE_siqrd.RATIO + 1 - 1) / (no_days - 1) = LSE_siqrd.RATIO
    rw [Nat.add_sub_cancel, Nat.mul_div_cancel_left _ (by omega : 0 < no_days - 1)]
  · show d * 8 < (no_days - 1) * 8 + 1
    omega
  · exact lse_create_columns scheme_ctor norm_2 no_days hdays observations eqns uninitialised
      quiet_NaN p v o1 h (d * 8) (by omega)
  · rw [hstep]
    push_cast
    ring

/-- C39 with explicit Euler and two days of observations `[100, 5, 0, 0, 0]`: 8 steps of size
`1/8`. -/
theorem C39_solver_grid_witness :
    (LSE_siqrd.create (fun n t => (ode.EulerForward.create n t).scheme) 2
        (fun _ => ![100, 5, 0, 0, 0]) (sample_model_in ℚ) (fun _ _ => 0)).solver_.N_ = 8 ∧
      (ode.EulerForward.create
        (LSE_siqrd.create (fun n t => (ode.EulerForward.create n t).scheme) 2
          (fun _ => ![100, 5, 0, 0, 0]) (sample_model_in ℚ) (fun _ _ => 0)).solver_.N_
        (LSE_siqrd.create (fun n t => (ode.EulerForward.create n t).scheme) 2
          (fun _ => ![100, 5, 0, 0, 0]) (sample_model_in ℚ) (fun _ _ => 0)).solver_.T_).dT_
        = 1 / 8 :=
  ⟨(C39_solver_grid (fun n t => (ode.EulerForward.create n t).scheme) 2 le_rfl
      (fun _ => ![100, 5, 0, 0, 0]) (sample_model_in ℚ) (fun _ _ => 0)).1.1,
    (C39_solver_grid (fun n t => (ode.EulerForward.create n t).scheme) 2 le_rfl
      (fun _ => ![100, 5, 0, 0, 0]) (sample_model_in ℚ) (fun _ _ => 0)).2.1.2.1⟩

end siqrd

namespace siqrd

section History

variable {K : Type} [LinearOrderedField K]

open LSE_siqrd

/-- A returning call of `gradient` leaves the setup of the object as it was: it is five calls
of `lse`. -/
theorem gradient_same_setup (o : LSE_siqrd K) (norm_2 : (Fin 5 → K) → K) (quiet_NaN : K)
    (p : Fin 5 → K) (lse_0 : K) (grad0 grad : Fin 5 → K) (o1 : LSE_siqrd K)
    (h : o.gradient norm_2 quiet_NaN p lse_0 grad0 = .ok (grad, o1)) : same_setup o o1 := by
  unfold LSE_siqrd.gradient at h
  cases h0 : gradient_first o norm_2 quiet_NaN p lse_0 grad0 with
  | error e => simp [h0] at h
  | ok st0 =>
    simp only [h0, gradient_loop] at h
    obtain ⟨hp0, hs0, -⟩ := gradient_first_spec o norm_2 quiet_NaN p lse_0 grad0 st0 h0
    cases h1 : gradient_body norm_2 quiet_NaN p lse_0 0 1 st0 with
    | error e => simp [h1] at h
    | ok st1 =>
      simp only [h1] at h
      obtain ⟨hp1, hs1, -⟩ :=
        gradient_body_spec o norm_2 quiet_NaN p lse_0 0 1 st0 st1 hp0 hs0 h1
      cases h2 : gradient_body norm_2 quiet_NaN p lse_0 1 2 st1 with
      | error e => simp [h2] at h
      | ok st2 =>
        simp only [h2] at h
        obtain ⟨hp2, hs2, -⟩ :=
          gradient_body_spec o norm_2 quiet_NaN p lse_0 1 2 st1 st2 hp1 hs1 h2
        cases h3 : gradient_body norm_2 quiet_NaN p lse_0 2 3 st2 with
        | error e => simp [h3] at h
        | ok st3 =>
          simp only [h3] at h
          obtain ⟨hp3, hs3, -⟩ :=
            gradient_body_spec o norm_2 quiet_NaN p lse_0 2 3 st2 st3 hp2 hs2 h3
          cases h4 : gradient_body norm_2 quiet_NaN p lse_0 3 4 st3 with
          | error e => simp [h4] at h
          | ok st4 =>
            simp only [h4, Except.ok.injEq, Prod.mk.injEq] at h
            obtain ⟨-, hs4, -⟩ :=
              gradient_body_spec o norm_2 quiet_NaN p lse_0 3 4 st3 st4 hp3 hs3 h4
            rw [← h.2]
            exact hs4

/-- Every finite sequence of returning calls of `operator()` and `gradient` leaves the setup of
the object as it was. -/
theorem history_same_setup (norm_2 : (Fin 5 → K) → K) (quiet_NaN : K) (o0 o1 : LSE_siqrd K)
    (hreach : Relation.ReflTransGen
      (fun o o2 : LSE_siqrd K => (∃ q v, o.call norm_2 quiet_NaN q = .ok (v, o2)) ∨
        (∃ q lse_0 grad0 grad, o.gradient norm_2 quiet_NaN q lse_0 grad0 = .ok (grad, o2)))
      o0 o1) :
    same_setup o0 o1 := by
  induction hreach with
  | refl => exact ⟨rfl, rfl, rfl, rfl, rfl, rfl, rfl⟩
  | tail _ hstep ih =>
    refine same_setup_trans _ _ _ ih ?_
    rcases hstep with ⟨q, v, hcall⟩ | ⟨q, lse_0, grad0, grad, hgrad⟩
    · exact lse_same_setup _ norm_2 quiet_NaN q v _ hcall
    · exact gradient_same_setup _ norm_2 quiet_NaN q lse_0 grad0 grad _ hgrad

end History

/-- C38: for every `LSE_siqrd` objective `o0` (a freshly constructed one among them), every
object `o1` that it has become after a finite sequence of returning `operator()` and `gradient`
calls with any parameter vectors, and every parameter vector `p`: `operator()(p)` returns the
value `v` on `o1` exactly when it returns `v` on `o0`.  The sequence has left the number of days,
the observations, the initial condition taken from them, the population size, the solver and the
shape of the trajectory buffer as they were, and the value is the same on every two objects that
agree in these, whatever model parameters, model initial condition and buffer contents they
hold. -/
theorem C38_value_independent_of_history {K : Type} [LinearOrderedField K]
    (norm_2 : (Fin 5 → K) → K) (quiet_NaN : K) (o0 o1 : LSE_siqrd K)
    (hreach : Relation.ReflTransGen
      (fun o o2 : LSE_siqrd K => (∃ q v, o.call norm_2 quiet_NaN q = .ok (v, o2)) ∨
        (∃ q lse_0 grad0 grad, o.gradient norm_2 quiet_NaN q lse_0 grad0 = .ok (grad, o2)))
      o0 o1)
    (p : Fin 5 → K) :
    (∀ v, (∃ o2, o0.call norm_2 quiet_NaN p = .ok (v, o2))
        ↔ (∃ o3, o1.call norm_2 quiet_NaN p = .ok (v, o3))) ∧
      LSE_siqrd.same_setup o0 o1 ∧
      ∀ (o o2 : LSE_siqrd K), LSE_siqrd.same_setup o o2 →
        ∀ (eqns : OdeSys_SIQRD K) (contents : Nat → Nat → K) (v : K),
          (∃ o3, o.call norm_2 quiet_NaN p = .ok (v, o3))
            ↔ (∃ o3, LSE_siqrd.call
                { o2 with eqns_ := eqns,
                          scratch_space_ := { o2.scratch_space_ with val := contents } }
                norm_2 quiet_NaN p = .ok (v, o3)) := by
  have hs := history_same_setup norm_2 quiet_NaN o0 o1 hreach
  refine ⟨fun v => ⟨fun ⟨o2, h⟩ => ?_, fun ⟨o3, h⟩ => ?_⟩, hs, fun o o2 hoo eqns contents v => ?_⟩
  · exact lse_transfer o0 o1 hs norm_2 quiet_NaN p v o2 h
  · exact lse_transfer o1 o0 (same_setup_symm _ _ hs) norm_2 quiet_NaN p v o3 h
  · have hs2 : LSE_siqrd.same_setup o
        { o2 with eqns_ := eqns,
                  scratch_space_ := { o2.scratch_space_ with val := contents } } := by
      obtain ⟨h1, h2, h3, h4, h5, h6, h7⟩ := hoo
      exact ⟨h1, h2, h3, h4, h5, h6, h7⟩
    exact ⟨fun ⟨o3, h⟩ => lse_transfer _ _ hs2 norm_2 quiet_NaN p v o3 h,
      fun ⟨o3, h⟩ => lse_transfer _ _ (same_setup_symm _ _ hs2) norm_2 quiet_NaN p v o3 h⟩

/-- C38 over the reals, with explicit Euler and two days of observations `[100, 5, 0, 0, 0]`:
after an evaluation at `[1/100, 1/2, 1/10, 1/5, 1/20]` the objective returns at
`[1/50, 1/4, 1/10, 1/5, 1/20]` what the freshly constructed object returns there. -/
theorem C38_value_independent_of_history_witness :
    ∃ v1 o1, (LSE_siqrd.create (fun n t => (ode.EulerForward.create n t).scheme) 2
          (fun _ => ![100, 5, 0, 0, 0]) (sample_model_in ℝ) (fun _ _ => 0)).call
        (fun v => Real.sqrt (∑ i, v i ^ 2)) 0 ![1 / 100, 1 / 2, 1 / 10, 1 / 5, 1 / 20]
          = .ok (v1, o1) ∧
      ∀ v, (∃ o2, (LSE_siqrd.create (fun n t => (ode.EulerForward.create n t).scheme) 2
            (fun _ => ![100, 5, 0, 0, 0]) (sample_model_in ℝ) (fun _ _ => 0)).call
          (fun v => Real.sqrt (∑ i, v i ^ 2)) 0 ![1 / 50, 1 / 4, 1 / 10, 1 / 5, 1 / 20]
            = .ok (v, o2))
        ↔ (∃ o3, o1.call (fun v => Real.sqrt (∑ i, v i ^ 2)) 0
            ![1 / 50, 1 / 4, 1 / 10, 1 / 5, 1 / 20] = .ok (v, o3)) := by
  obtain ⟨v1, o1, h1⟩ := lse_create_total (fun n t => (ode.EulerForward.create n t).scheme)
    (fun v => Real.sqrt (∑ i, v i ^ 2)) 2 le_rfl (fun _ => ![100, 5, 0, 0, 0])
    (sample_model_in ℝ) (fun _ _ => 0) 0 ![1 / 100, 1 / 2, 1 / 10, 1 / 5, 1 / 20]
    (fun _ => ⟨_, rfl⟩)
  exact ⟨v1, o1, h1, (C38_value_independent_of_history (fun v => Real.sqrt (∑ i, v i ^ 2)) 0
    _ o1 (Relation.ReflTransGen.single (Or.inl ⟨_, v1, h1⟩))
    ![1 / 50, 1 / 4, 1 / 10, 1 / 5, 1 / 20]).1⟩

end siqrd
